import Mathlib

/-!
# Crumb Chase — verification of the core simulation and learning agent

Shallow embedding of the Crumb Chase sources:
* `config.js` / `core.js` — constants, grid utilities, the parametric A*;
* `grid.js` — the crumb (obstacle) field with ring/hole bookkeeping;
* `player.js` — the seeker with Pac-Man style turn commitment;
* `cat.js` — the hunters (pathfinding, separation, fallback chase);
* `game.js` — the per-tick orchestrator and the gym-like `step`/`reset`;
* `qlearning.js` — the tabular Q-learning agent;
* `training.js` — `TrainingManager.load` (import of persisted agents).

Modelling conventions:
* JavaScript numbers are modelled exactly: every quantity that the source
  manipulates with field operations stays in `ℚ`; quantities that flow through
  `Math.hypot`/`Math.sqrt` (cat positions, distances, rewards) live in `ℝ`.
* JS `Infinity` is modelled by `⊤` in `WithTop ℚ` (and `-Infinity` by `⊥` in
  `WithBot ℚ`).
* `Math.random()` is modelled by an explicit stream of rationals, threaded
  through every operation in the source's evaluation order; an exhausted
  stream yields `0`.
* Typed arrays (`Float32Array`, `Uint8Array`, …) are modelled by `List`s of
  the element type (flat, index-addressed, out-of-range writes ignored) or,
  for the A* working arrays, by functions from indices.
* JS `Set` (insertion-ordered, duplicate-free) is modelled by a `List` with
  membership-guarded insertion.
-/

namespace CrumbChase

/-! ## Random source (core.js)

`Math.random()` is modelled as consuming the head of an explicit stream. -/

/-- One `Math.random()` draw from an explicit stream (exhausted stream: 0). -/
def draw (rng : List ℚ) : ℚ × List ℚ := (rng.headD 0, rng.tail)

/-- JS `x | 0`: truncation toward zero (int32 wrap is irrelevant at the
magnitudes the game produces). -/
def jsTrunc (q : ℚ) : ℤ := if 0 ≤ q then ⌊q⌋ else -⌊-q⌋

/-- JS `Math.sign`. -/
def jsSign (q : ℚ) : ℚ := if 0 < q then 1 else if q < 0 then -1 else 0

/-- JS `Math.round` (half up): `⌊q + 1/2⌋`. -/
def jsRound (q : ℚ) : ℤ := ⌊q + 1/2⌋

/-- `randInt(a, b)` from core.js: `((Math.random() * (b - a + 1)) | 0) + a`. -/
def randInt (a b : ℤ) (rng : List ℚ) : ℤ × List ℚ :=
  let (v, rng') := draw rng
  (jsTrunc (v * ((b : ℚ) - a + 1)) + a, rng')

/-- `randRange(a, b)` from core.js: `a + Math.random() * (b - a)`. -/
def randRange (a b : ℚ) (rng : List ℚ) : ℚ × List ℚ :=
  let (v, rng') := draw rng
  (a + v * (b - a), rng')

/-! ## Configuration (config.js) -/

def TILE : ℚ := 20
def COLS : ℤ := 40
def ROWS : ℤ := 25
def PLAYER_SPEED_CELLS : ℚ := 6
def PLAYER_RADIUS_FACTOR : ℚ := 76/100  -- 0.76
def CAT_RADIUS_FACTOR : ℚ := 88/100      -- 0.88
def A_STAR_RECALC_HZ : ℚ := 5
def CRUMB_COST_FOR_CAT : ℚ := 14
def GOAL_JITTER_RANGE : ℤ := 1
def SEPARATION_RADIUS_CELLS : ℚ := 3
def SEPARATION_FORCE : ℚ := 40
def CRUMB_STRENGTH : ℚ := 1
def RING_CRUMB_STRENGTH : ℚ := 1
def CRUMB_DECAY_PER_SEC : ℚ := 12
def PROB_BIASED_RING_DECAY : ℚ := 0
def TURN_EPS_FACTOR : ℚ := 35/100        -- 0.35
def HOLE_COLUMN : ℤ := 0
def HOLE_HALF_HEIGHT : ℤ := 2
def CATCH_MARGIN : ℚ := 75/100           -- 0.75

/-- `getTurnEps()`: `TILE * TURN_EPS_FACTOR` (= 7 pixels). -/
def getTurnEps : ℚ := TILE * TURN_EPS_FACTOR

/-- `getHoleRow()`: `Math.floor(ROWS * 0.5)` (= 12). -/
def getHoleRow : ℤ := ⌊(ROWS : ℚ) * (1/2)⌋

/-- `getPlayerSpawnX()`: `(COLS - 5 + 0.5) * TILE` (= 710). -/
def getPlayerSpawnX : ℚ := ((COLS : ℚ) - 5 + 1/2) * TILE

/-- `getPlayerSpawnY()`: `(ROWS * 0.5 + 0.5) * TILE` (= 260). -/
def getPlayerSpawnY : ℚ := ((ROWS : ℚ) * (1/2) + 1/2) * TILE

/-- One entry of `LEVEL_CONFIG`: number of cats and speed factor.  (The
source's level table carries no `crumbSpeedFactor` field; see `startLevel`.) -/
structure LevelCfg where
  cats : ℕ
  speedFactor : ℚ
  deriving DecidableEq

/-- `LEVEL_CONFIG[1..10]` (index 0 does not exist and is clamped away). -/
def LEVEL_CONFIG : List LevelCfg :=
  [⟨1, 55/100⟩, ⟨1, 9/10⟩, ⟨2, 55/100⟩, ⟨2, 9/10⟩, ⟨2, 12/10⟩,
   ⟨3, 75/100⟩, ⟨3, 1⟩, ⟨3, 125/100⟩, ⟨3, 15/10⟩, ⟨4, 12/10⟩]

def MAX_LEVEL : ℤ := 10

/-- `getLevelConfig(level)`: clamp to `[1, MAX_LEVEL]` and index the table. -/
def getLevelConfig (level : ℤ) : LevelCfg :=
  let i := max 1 (min MAX_LEVEL level)
  LEVEL_CONFIG.getD (i - 1).toNat ⟨1, 55/100⟩

/-- `CAT_SPAWN_GRID` (fractions of the grid). -/
def CAT_SPAWN_GRID : List (ℚ × ℚ) :=
  [(35/100, 25/100), (35/100, 75/100), (65/100, 25/100), (65/100, 75/100), (1/2, 1/2)]

/-! ## Grid utilities (core.js) -/

/-- `idx(c, r, cols)`: flat array index. -/
def idx (c r cols : ℤ) : ℤ := r * cols + c

/-- `inBounds(c, r, cols, rows)`. -/
def inBoundsB (c r cols rows : ℤ) : Bool :=
  decide (0 ≤ c) && decide (0 ≤ r) && decide (c < cols) && decide (r < rows)

/-- `cellAt(x, y, tileSize)` for rational coordinates. -/
def cellAt (x y tile : ℚ) : ℤ × ℤ := (⌊x / tile⌋, ⌊y / tile⌋)

/-- Membership of an integer index in a list of natural indices (JS `Set.has`
on a set that only ever received in-range naturals). -/
def natMem (s : List ℕ) (k : ℤ) : Bool :=
  if 0 ≤ k then s.contains k.toNat else false

/-- JS `Set.add`: append if not already present (insertion order preserved). -/
def setAdd (s : List ℕ) (k : ℕ) : List ℕ :=
  if s.contains k then s else s ++ [k]

/-- Integer range `[a, b]` as a list (empty when `b < a`), for the source's
`for (r = a; r <= b; r++)` loops. -/
def rangeZ (a b : ℤ) : List ℤ :=
  (List.range (b + 1 - a).toNat).map (fun i => a + (i : ℤ))

/-! ## The crumb field (grid.js `Grid`) -/

/-- `Grid` state: flat strength array, ring set, hole-open set.  The hole
geometry (`hole.c = HOLE_COLUMN`, `hole.r = getHoleRow()`,
`hole.halfHeight = HOLE_HALF_HEIGHT`) is fixed by the configuration and is
kept as the global constants above. -/
structure Grid where
  cols : ℤ
  rows : ℤ
  crumbs : List ℚ
  ringSet : List ℕ
  holeOpenSet : List ℕ
  deriving DecidableEq

namespace Grid

/-- `new Grid(cols, rows)`. -/
def mk0 (cols rows : ℤ) : Grid :=
  { cols := cols, rows := rows,
    crumbs := List.replicate (cols * rows).toNat 0,
    ringSet := [], holeOpenSet := [] }

/-- `this.idx(c, r)`. -/
def gidx (g : Grid) (c r : ℤ) : ℤ := r * g.cols + c

/-- `this.inBounds(c, r)`. -/
def inB (g : Grid) (c r : ℤ) : Bool := inBoundsB c r g.cols g.rows

/-- Raw read `this.crumbs[k]` (out-of-range reads give `undefined`, which
every use compares with `> 0` or writes back guarded; modelled as 0). -/
def strengthAt (g : Grid) (k : ℤ) : ℚ :=
  if 0 ≤ k ∧ k < (g.crumbs.length : ℤ) then g.crumbs.getD k.toNat 0 else 0

/-- Raw write `this.crumbs[k] = v` (out-of-range writes are ignored by
`Float32Array`, and `List.set` likewise). -/
def setStrength (g : Grid) (k : ℤ) (v : ℚ) : Grid :=
  if 0 ≤ k then { g with crumbs := g.crumbs.set k.toNat v } else g

/-- `isCrumb(c, r)`: out of bounds acts as a wall. -/
def isCrumb (g : Grid) (c r : ℤ) : Bool :=
  if g.inB c r then decide (0 < g.strengthAt (g.gidx c r)) else true

/-- `getCrumbStrength(c, r)`. -/
def getCrumbStrength (g : Grid) (c r : ℤ) : ℚ :=
  if g.inB c r then g.strengthAt (g.gidx c r) else 0

/-- `addCrumb(c, r, strength)`: max of existing and new strength. -/
def addCrumb (g : Grid) (c r : ℤ) (strength : ℚ) : Grid :=
  if g.inB c r then
    g.setStrength (g.gidx c r) (max (g.strengthAt (g.gidx c r)) strength)
  else g

/-- Subtraction step of `weakenCrumb`: `Math.max(0, s - amount)` where the
amount may be `Infinity` (then the result is 0). -/
def subAmount (s : ℚ) (amount : WithTop ℚ) : ℚ :=
  match amount with
  | ⊤ => 0
  | (a : ℚ) => max 0 (s - a)

/-- Shared body of `weakenCrumb`/`weakenCrumbByIndex` (the source duplicates
this code in both methods): subtract, floor at 0, drop the ring index when the
result is exactly 0. -/
def weakenAt (g : Grid) (k : ℤ) (amount : WithTop ℚ) : Grid :=
  if 0 < g.strengthAt k then
    -- `setStrength` only touches `crumbs`, so the `ringSet.delete` on the
    -- written grid is the delete on `g.ringSet`.
    (if subAmount (g.strengthAt k) amount = 0 then
      { g.setStrength k (subAmount (g.strengthAt k) amount) with
          ringSet := g.ringSet.erase k.toNat }
    else g.setStrength k (subAmount (g.strengthAt k) amount))
  else g

/-- `weakenCrumb(c, r, amount)`: never below 0; removes the index from
`ringSet` when it reaches exactly 0. -/
def weakenCrumb (g : Grid) (c r : ℤ) (amount : WithTop ℚ) : Grid :=
  if g.inB c r then g.weakenAt (g.gidx c r) amount else g

/-- `weakenCrumbByIndex(k, amount)`. -/
def weakenCrumbByIndex (g : Grid) (k : ℤ) (amount : WithTop ℚ) : Grid :=
  if 0 ≤ k ∧ k < (g.crumbs.length : ℤ) then g.weakenAt k amount else g

/-- `countCrumbs()`. -/
def countCrumbs (g : Grid) : ℕ := g.crumbs.countP (fun v => decide (0 < v))

/-- `clear()`. -/
def clear (g : Grid) : Grid :=
  { g with crumbs := List.replicate g.crumbs.length 0,
           ringSet := [], holeOpenSet := [] }

/-- `isHoleCell(c, r)`. -/
def isHoleCell (g : Grid) (c r : ℤ) : Bool :=
  decide (c = 0) && natMem g.holeOpenSet (g.gidx c r)

/-- The `addCrumb` + `ringSet.add` pair repeated throughout
`buildHoleBarrier`. -/
def ringAdd (a : Grid) (c r : ℤ) : Grid :=
  { a.addCrumb c r RING_CRUMB_STRENGTH with
      ringSet := setAdd (a.addCrumb c r RING_CRUMB_STRENGTH).ringSet
        ((a.addCrumb c r RING_CRUMB_STRENGTH).gidx c r).toNat }

/-- `buildHoleBarrier()`: mark open hole cells, build the two-column barrier
around the opening, and cap it above and below. -/
def buildHoleBarrier (g : Grid) : Grid :=
  let rmin : ℤ := max 0 (getHoleRow - HOLE_HALF_HEIGHT)
  let rmax : ℤ := min (g.rows - 1) (getHoleRow + HOLE_HALF_HEIGHT)
  -- open hole cells
  let g1 := (rangeZ rmin rmax).foldl
    (fun (a : Grid) r => { a with holeOpenSet := setAdd a.holeOpenSet (a.gidx 0 r).toNat })
    { g with ringSet := [], holeOpenSet := [] }
  -- rectangular barrier around the opening
  let g2 := (rangeZ 0 2).foldl (fun (a : Grid) c =>
    (rangeZ (rmin - 1) (rmax + 1)).foldl (fun (a : Grid) r =>
      if ¬ (a.inB c r = true) then a
      else if c = 0 ∧ rmin ≤ r ∧ r ≤ rmax then a
      else a.ringAdd c r) a) g1
  -- extra caps above and below
  (rangeZ 0 1).foldl (fun (a : Grid) c =>
    let a1 := (rangeZ (rmin - 2) (rmin - 1)).foldl (fun (a : Grid) r =>
      if a.inB c r then a.ringAdd c r else a) a
    (rangeZ (rmax + 1) (rmax + 2)).foldl (fun (a : Grid) r =>
      if a.inB c r then a.ringAdd c r else a) a1) g2

/-- `_randomFromSet(set)`: draw one value, index the set in insertion order. -/
def randomFromSet (s : List ℕ) (rng : List ℚ) : Option ℕ × List ℚ :=
  let size := s.length
  if size = 0 then (none, rng)
  else
    let (v, rng') := draw rng
    let n := jsTrunc (v * size)
    if 0 ≤ n ∧ n < (size : ℤ) then (some (s.getD n.toNat 0), rng') else (none, rng')

/-- `decayOneCrumb()`: with probability `PROB_BIASED_RING_DECAY` weaken a ring
member, else weaken a uniformly random cell if it is blocking. -/
def decayOneCrumb (g : Grid) (rng : List ℚ) : Grid × List ℚ :=
  -- `if (this.ringSet.size && Math.random() < PROB)` — the draw happens only
  -- when the ring set is nonempty (JS `&&` short-circuit).
  let (biased, rng1) :=
    if g.ringSet.length ≠ 0 then
      let (v, rng') := draw rng
      (decide (v < PROB_BIASED_RING_DECAY), rng')
    else (false, rng)
  let (g2, removed, rng2) :=
    if biased then
      match randomFromSet g.ringSet rng1 with
      | (some pick, rng') => (g.weakenCrumbByIndex (pick : ℤ) 1, true, rng')
      | (none, rng') => (g, false, rng')
    else (g, false, rng1)
  if removed then (g2, rng2)
  else
    let (vc, rngc) := draw rng2
    let (vr, rngr) := draw rngc
    let c := jsTrunc (vc * g.cols)
    let r := jsTrunc (vr * g.rows)
    if 0 < g2.strengthAt (g2.gidx c r) then (g2.weakenCrumb c r 1, rngr)
    else (g2, rngr)

/-! ### The field invariant (claim C3) -/

/-- State invariant of the obstacle field: all strengths are nonnegative and
every ring-set member has strictly positive strength. -/
def Inv (g : Grid) : Prop :=
  (∀ k, 0 ≤ g.crumbs.getD k 0) ∧ (∀ k ∈ g.ringSet, 0 < g.crumbs.getD k 0)

/-- Representation well-formedness: the flat array has exactly `cols·rows`
entries and the ring set has no duplicates (JS `Set`). -/
def Rep (g : Grid) : Prop :=
  g.crumbs.length = (g.cols * g.rows).toNat ∧ g.ringSet.Nodup

end Grid

/-! ### Helper lemmas for lists used as flat arrays / sets -/

theorem foldl_preserve {α β : Type _} (P : α → Prop) (f : α → β → α)
    (hf : ∀ a b, P a → P (f a b)) : ∀ (l : List β) (a : α), P a → P (l.foldl f a)
  | [], _, h => h
  | b :: l, a, h => foldl_preserve P f hf l (f a b) (hf a b h)

theorem getD_set_self (l : List ℚ) (i : ℕ) (v : ℚ) (h : i < l.length) :
    (l.set i v).getD i 0 = v := by
  simp [List.getD, List.getElem?_set, h]

theorem getD_set_other (l : List ℚ) (i j : ℕ) (v : ℚ) (h : i ≠ j) :
    (l.set i v).getD j 0 = l.getD j 0 := by
  simp [List.getD, List.getElem?_set, h]

theorem getD_replicate_zero (n k : ℕ) : (List.replicate n (0 : ℚ)).getD k 0 = 0 := by
  induction n generalizing k with
  | zero => simp
  | succ n ih =>
    cases k with
    | zero => simp [List.replicate_succ]
    | succ k =>
      rw [List.replicate_succ, List.getD_cons_succ]
      exact ih k

theorem setAdd_nodup (s : List ℕ) (k : ℕ) (h : s.Nodup) : (setAdd s k).Nodup := by
  unfold setAdd
  split
  · exact h
  · next hc =>
    have hk : k ∉ s := by simpa using hc
    rw [List.nodup_append]
    exact ⟨h, List.nodup_singleton k,
      fun a ha hb => hk ((List.mem_singleton.mp hb) ▸ ha)⟩

theorem mem_setAdd (s : List ℕ) (k j : ℕ) : j ∈ setAdd s k ↔ j ∈ s ∨ j = k := by
  unfold setAdd
  split
  · next hc =>
    have hk : k ∈ s := by simpa using hc
    constructor
    · exact Or.inl
    · rintro (h | rfl)
      · exact h
      · exact hk
  · simp

namespace Grid

theorem inB_iff (g : Grid) (c r : ℤ) :
    g.inB c r = true ↔ 0 ≤ c ∧ 0 ≤ r ∧ c < g.cols ∧ r < g.rows := by
  simp [inB, inBoundsB, and_assoc]

theorem gidx_bounds (g : Grid) (c r : ℤ) (h : g.inB c r = true) :
    0 ≤ g.gidx c r ∧ g.gidx c r < g.cols * g.rows := by
  rw [inB_iff] at h
  obtain ⟨h1, h2, h3, h4⟩ := h
  have hc : (0:ℤ) < g.cols := lt_of_le_of_lt h1 h3
  unfold gidx
  constructor
  · exact add_nonneg (mul_nonneg h2 hc.le) h1
  · nlinarith [mul_le_mul_of_nonneg_right (Int.le_sub_one_of_lt h4) hc.le]

/-- For an in-bounds cell of a well-formed grid, the raw read is the `getD`
of the flat index. -/
theorem strengthAt_gidx (g : Grid) (c r : ℤ) (hb : g.inB c r = true)
    (hrep : g.Rep) : g.strengthAt (g.gidx c r) = g.crumbs.getD (g.gidx c r).toNat 0 := by
  obtain ⟨h0, hlt⟩ := g.gidx_bounds c r hb
  unfold strengthAt
  rw [if_pos]
  exact ⟨h0, by rw [hrep.1]; omega⟩

theorem gidx_toNat_lt (g : Grid) (c r : ℤ) (hb : g.inB c r = true) (hrep : g.Rep) :
    (g.gidx c r).toNat < g.crumbs.length := by
  obtain ⟨h0, hlt⟩ := g.gidx_bounds c r hb
  rw [hrep.1]; omega

theorem subAmount_nonneg (s : ℚ) (a : WithTop ℚ) : 0 ≤ subAmount s a := by
  unfold subAmount
  match a with
  | ⊤ => exact le_refl 0
  | (q : ℚ) => exact le_max_left 0 _

theorem strengthAt_nonneg (g : Grid) (hinv : g.Inv) (k : ℤ) : 0 ≤ g.strengthAt k := by
  unfold strengthAt
  split
  · exact hinv.1 _
  · exact le_refl 0

/-! Preservation of `Rep` and `Inv` by each operation. -/

theorem mk0_ok (cols rows : ℤ) : (mk0 cols rows).Rep ∧ (mk0 cols rows).Inv := by
  refine ⟨⟨by simp [mk0], by simp [mk0]⟩, fun k => ?_, by simp [mk0]⟩
  simp [mk0, getD_replicate_zero]

theorem clear_ok (g : Grid) (hrep : g.Rep) : g.clear.Rep ∧ g.clear.Inv := by
  refine ⟨⟨by simp [clear, hrep.1], by simp [clear]⟩, fun k => ?_, by simp [clear]⟩
  simp [clear, getD_replicate_zero]

theorem addCrumb_ok (g : Grid) (c r : ℤ) (s : ℚ) (hrep : g.Rep) (hinv : g.Inv) :
    (g.addCrumb c r s).Rep ∧ (g.addCrumb c r s).Inv := by
  unfold addCrumb
  split
  · next hb =>
    obtain ⟨h0, _⟩ := g.gidx_bounds c r hb
    have hklt := g.gidx_toNat_lt c r hb hrep
    have hstr := g.strengthAt_gidx c r hb hrep
    unfold setStrength
    rw [if_pos h0]
    refine ⟨⟨by simp [hrep.1], hrep.2⟩, fun k => ?_, fun k hk => ?_⟩
    · by_cases hkk : (g.gidx c r).toNat = k
      · subst hkk
        rw [getD_set_self _ _ _ hklt]
        exact le_max_of_le_left (g.strengthAt_nonneg hinv _)
      · rw [getD_set_other _ _ _ _ hkk]
        exact hinv.1 _
    · by_cases hkk : (g.gidx c r).toNat = k
      · subst hkk
        rw [getD_set_self _ _ _ hklt]
        exact lt_max_iff.mpr (Or.inl (by rw [hstr]; exact hinv.2 _ hk))
      · rw [getD_set_other _ _ _ _ hkk]
        exact hinv.2 _ hk
  · exact ⟨hrep, hinv⟩

/-- A strictly positive raw read implies the index is in range. -/
theorem strengthAt_pos_range (g : Grid) (k : ℤ) (hpos : 0 < g.strengthAt k) :
    0 ≤ k ∧ k < (g.crumbs.length : ℤ) := by
  by_contra hcon
  unfold strengthAt at hpos
  rw [if_neg hcon] at hpos
  exact lt_irrefl 0 hpos

/-- Shared core: `weakenAt` preserves the invariants. -/
theorem weakenAt_ok (g : Grid) (k : ℤ) (amount : WithTop ℚ)
    (hrep : g.Rep) (hinv : g.Inv) :
    (g.weakenAt k amount).Rep ∧ (g.weakenAt k amount).Inv := by
  unfold weakenAt
  split
  · next hpos =>
    have h0 := g.strengthAt_pos_range k hpos
    have hklt : k.toNat < g.crumbs.length := by omega
    have hnn : 0 ≤ subAmount (g.strengthAt k) amount := subAmount_nonneg _ _
    have hg' : g.setStrength k (subAmount (g.strengthAt k) amount)
        = { g with crumbs := g.crumbs.set k.toNat (subAmount (g.strengthAt k) amount) } := by
      simp [setStrength, h0.1]
    have hsetnn : ∀ j,
        0 ≤ (g.crumbs.set k.toNat (subAmount (g.strengthAt k) amount)).getD j 0 := by
      intro j
      by_cases hkk : k.toNat = j
      · subst hkk; rw [getD_set_self _ _ _ hklt]; exact hnn
      · rw [getD_set_other _ _ _ _ hkk]; exact hinv.1 _
    split
    · next hz =>
      rw [hg']
      refine ⟨⟨by simp [hrep.1], hrep.2.erase _⟩, fun j => hsetnn j, fun j hj => ?_⟩
      simp only at hj ⊢
      have hmem := (hrep.2.mem_erase_iff).mp hj
      rw [getD_set_other _ _ _ _ (fun h => hmem.1 h.symm)]
      exact hinv.2 _ hmem.2
    · next hz =>
      rw [hg']
      refine ⟨⟨by simp [hrep.1], hrep.2⟩, fun j => hsetnn j, fun j hj => ?_⟩
      simp only at hj ⊢
      by_cases hkk : k.toNat = j
      · subst hkk
        rw [getD_set_self _ _ _ hklt]
        exact lt_of_le_of_ne hnn (Ne.symm hz)
      · rw [getD_set_other _ _ _ _ hkk]
        exact hinv.2 _ hj
  · exact ⟨hrep, hinv⟩

theorem weakenCrumb_ok (g : Grid) (c r : ℤ) (amount : WithTop ℚ)
    (hrep : g.Rep) (hinv : g.Inv) :
    (g.weakenCrumb c r amount).Rep ∧ (g.weakenCrumb c r amount).Inv := by
  unfold weakenCrumb
  split
  · exact g.weakenAt_ok _ _ hrep hinv
  · exact ⟨hrep, hinv⟩

theorem weakenCrumbByIndex_ok (g : Grid) (k : ℤ) (amount : WithTop ℚ)
    (hrep : g.Rep) (hinv : g.Inv) :
    (g.weakenCrumbByIndex k amount).Rep ∧ (g.weakenCrumbByIndex k amount).Inv := by
  unfold weakenCrumbByIndex
  split
  · exact g.weakenAt_ok _ _ hrep hinv
  · exact ⟨hrep, hinv⟩

theorem decayOneCrumb_ok (g : Grid) (rng : List ℚ) (hrep : g.Rep) (hinv : g.Inv) :
    (g.decayOneCrumb rng).1.Rep ∧ (g.decayOneCrumb rng).1.Inv := by
  unfold decayOneCrumb
  simp only
  set biasedPair := (if g.ringSet.length ≠ 0 then
      let (v, rng') := draw rng
      (decide (v < PROB_BIASED_RING_DECAY), rng')
    else (false, rng)) with hbp
  obtain ⟨g2, removed, rng2, hg2⟩ :
      ∃ g2 removed rng2,
        (if biasedPair.1 then
          match randomFromSet g.ringSet biasedPair.2 with
          | (some pick, rng') => (g.weakenCrumbByIndex (pick : ℤ) 1, true, rng')
          | (none, rng') => (g, false, rng')
        else (g, false, biasedPair.2)) = (g2, removed, rng2) ∧ (g2.Rep ∧ g2.Inv) := by
    split
    · match hr : randomFromSet g.ringSet biasedPair.2 with
      | (some pick, rng') =>
          exact ⟨_, _, _, rfl, g.weakenCrumbByIndex_ok _ _ hrep hinv⟩
      | (none, rng') => exact ⟨_, _, _, rfl, hrep, hinv⟩
    · exact ⟨_, _, _, rfl, hrep, hinv⟩
  rw [hg2.1]
  obtain ⟨hrep2, hinv2⟩ := hg2.2
  split
  · exact ⟨hrep2, hinv2⟩
  · simp only
    split
    · exact g2.weakenCrumb_ok _ _ _ hrep2 hinv2
    · exact ⟨hrep2, hinv2⟩

theorem addCrumb_cols (g : Grid) (c r : ℤ) (s : ℚ) :
    (g.addCrumb c r s).cols = g.cols ∧ (g.addCrumb c r s).rows = g.rows ∧
    (g.addCrumb c r s).ringSet = g.ringSet := by
  unfold addCrumb setStrength
  split
  · split <;> simp
  · exact ⟨rfl, rfl, rfl⟩

theorem addCrumb_strength_self (g : Grid) (c r : ℤ) (s : ℚ) (hb : g.inB c r = true)
    (hrep : g.Rep) :
    (g.addCrumb c r s).crumbs.getD (g.gidx c r).toNat 0
      = max (g.strengthAt (g.gidx c r)) s := by
  obtain ⟨h0, _⟩ := g.gidx_bounds c r hb
  have hklt := g.gidx_toNat_lt c r hb hrep
  unfold addCrumb
  rw [if_pos hb]
  unfold setStrength
  rw [if_pos h0]
  exact getD_set_self _ _ _ hklt

/-- One barrier-building step (`ringAdd`) preserves the invariants. -/
theorem ringAdd_ok (a : Grid) (c r : ℤ) (hb : a.inB c r = true)
    (h : a.Rep ∧ a.Inv) : (a.ringAdd c r).Rep ∧ (a.ringAdd c r).Inv := by
  obtain ⟨hrep', hinv'⟩ := a.addCrumb_ok c r RING_CRUMB_STRENGTH h.1 h.2
  have hfields := a.addCrumb_cols c r RING_CRUMB_STRENGTH
  have hgidx : (a.addCrumb c r RING_CRUMB_STRENGTH).gidx c r = a.gidx c r := by
    unfold gidx
    rw [hfields.1]
  have hstr : 0 < (a.addCrumb c r RING_CRUMB_STRENGTH).crumbs.getD (a.gidx c r).toNat 0 := by
    rw [a.addCrumb_strength_self c r RING_CRUMB_STRENGTH hb h.1]
    have h1 : (0:ℚ) < RING_CRUMB_STRENGTH := by norm_num [RING_CRUMB_STRENGTH]
    exact lt_max_iff.mpr (Or.inr h1)
  unfold ringAdd
  rw [hgidx]
  refine ⟨⟨hrep'.1, setAdd_nodup _ _ hrep'.2⟩, hinv'.1, fun j hj => ?_⟩
  rw [mem_setAdd] at hj
  rcases hj with hj | rfl
  · exact hinv'.2 _ hj
  · exact hstr

/-- `buildHoleBarrier` establishes/preserves the invariant. -/
theorem buildHoleBarrier_ok (g : Grid) (hrep : g.Rep) (hinv : g.Inv) :
    g.buildHoleBarrier.Rep ∧ g.buildHoleBarrier.Inv := by
  unfold buildHoleBarrier
  set P : Grid → Prop := fun a => a.Rep ∧ a.Inv with hP
  have h0 : P { g with ringSet := [], holeOpenSet := [] } :=
    ⟨⟨hrep.1, List.nodup_nil⟩, hinv.1, by simp⟩
  have hstep : ∀ (a : Grid) (c r : ℤ), P a → P (if a.inB c r then a.ringAdd c r else a) := by
    intro a c r ha
    split
    · next hb => exact ringAdd_ok a c r hb ha
    · exact ha
  have h1 : P ((rangeZ (max 0 (getHoleRow - HOLE_HALF_HEIGHT))
      (min (g.rows - 1) (getHoleRow + HOLE_HALF_HEIGHT))).foldl
      (fun (a : Grid) r => { a with holeOpenSet := setAdd a.holeOpenSet (a.gidx 0 r).toNat })
      { g with ringSet := [], holeOpenSet := [] }) := by
    refine foldl_preserve P _ (fun a r ha => ?_) _ _ h0
    exact ⟨⟨ha.1.1, ha.1.2⟩, ha.2.1, ha.2.2⟩
  have h2 : ∀ (a : Grid) (c : ℤ), P a →
      P ((rangeZ (max 0 (getHoleRow - HOLE_HALF_HEIGHT) - 1)
          (min (g.rows - 1) (getHoleRow + HOLE_HALF_HEIGHT) + 1)).foldl
        (fun (a : Grid) r =>
          if ¬ (a.inB c r = true) then a
          else if c = 0 ∧ max 0 (getHoleRow - HOLE_HALF_HEIGHT) ≤ r ∧
              r ≤ min (g.rows - 1) (getHoleRow + HOLE_HALF_HEIGHT) then a
          else a.ringAdd c r) a) := by
    intro a c ha
    refine foldl_preserve P _ (fun b r hbP => ?_) _ _ ha
    split
    · exact hbP
    · next hbb =>
      split
      · exact hbP
      · exact ringAdd_ok b c r (by simpa using hbb) hbP
  refine foldl_preserve P _ (fun a c ha => ?_) _ _
    (foldl_preserve P _ (fun a c ha => h2 a c ha) _ _ h1)
  exact foldl_preserve P _ (fun b r hbP => hstep b c r hbP) _ _
    (foldl_preserve P _ (fun b r hbP => hstep b c r hbP) _ _ ha)

/-- Removal from `ringSet` by `weakenCrumb` is exact: a previously present
index survives iff it is not the targeted cell with its strength driven to 0;
absent indices are never added. -/
theorem weakenCrumb_removal (g : Grid) (c r : ℤ) (amount : WithTop ℚ)
    (hrep : g.Rep) (hinv : g.Inv) (hb : g.inB c r = true) :
    (∀ j ∈ g.ringSet,
      (j ∈ (g.weakenCrumb c r amount).ringSet ↔
        ¬(j = (g.gidx c r).toNat ∧ (g.weakenCrumb c r amount).crumbs.getD j 0 = 0))) ∧
    (∀ j, j ∉ g.ringSet → j ∉ (g.weakenCrumb c r amount).ringSet) := by
  have h0 := (g.gidx_bounds c r hb).1
  have hklt := g.gidx_toNat_lt c r hb hrep
  unfold weakenCrumb weakenAt
  rw [if_pos hb]
  have hg' : g.setStrength (g.gidx c r) (subAmount (g.strengthAt (g.gidx c r)) amount)
      = { g with crumbs := (g.crumbs.set (g.gidx c r).toNat
            (subAmount (g.strengthAt (g.gidx c r)) amount)) } := by
    simp [setStrength, h0]
  split
  · next hpos =>
    split
    · next hz =>
      rw [hg']
      constructor
      · intro j hj
        simp only
        rw [hrep.2.mem_erase_iff]
        constructor
        · rintro ⟨hne, _⟩ ⟨heq, _⟩
          exact hne heq
        · intro hni
          refine ⟨fun heq => hni ⟨heq, ?_⟩, hj⟩
          subst heq
          rw [getD_set_self _ _ _ hklt, ← hz]
      · intro j hj hj'
        simp only at hj'
        exact hj (List.mem_of_mem_erase hj')
    · next hz =>
      rw [hg']
      constructor
      · intro j hj
        simp only
        constructor
        · intro _ hc
          obtain ⟨heq, hval⟩ := hc
          subst heq
          rw [getD_set_self _ _ _ hklt] at hval
          exact hz hval
        · intro _; exact hj
      · intro j hj
        simpa using hj
  · next hpos =>
    refine ⟨fun j hj => ?_, fun j hj => hj⟩
    have hjpos := hinv.2 _ hj
    constructor
    · intro _ hc
      obtain ⟨heq, hval⟩ := hc
      subst heq
      rw [hval] at hjpos
      exact lt_irrefl 0 hjpos
    · intro _; exact hj

end Grid

/-- **C3** — The obstacle field invariant (`strength ≥ 0` everywhere, every
`ringSet` index strictly positive) is established by construction and
`buildHoleBarrier` and preserved by `addCrumb`, `weakenCrumb`,
`weakenCrumbByIndex`, `decayOneCrumb` and `clear`; a weakening removes an
index from `ringSet` exactly when it drives that cell's strength to 0. -/
theorem c3_grid_invariant :
    (∀ cols rows : ℤ, (Grid.mk0 cols rows).Rep ∧ (Grid.mk0 cols rows).Inv) ∧
    (∀ g : Grid, g.Rep → g.Inv →
      (g.buildHoleBarrier.Rep ∧ g.buildHoleBarrier.Inv) ∧
      (∀ c r s, (g.addCrumb c r s).Rep ∧ (g.addCrumb c r s).Inv) ∧
      (∀ c r a, (g.weakenCrumb c r a).Rep ∧ (g.weakenCrumb c r a).Inv) ∧
      (∀ k a, (g.weakenCrumbByIndex k a).Rep ∧ (g.weakenCrumbByIndex k a).Inv) ∧
      (∀ rng, (g.decayOneCrumb rng).1.Rep ∧ (g.decayOneCrumb rng).1.Inv) ∧
      (g.clear.Rep ∧ g.clear.Inv) ∧
      (∀ c r a, g.inB c r = true →
        (∀ j ∈ g.ringSet,
          (j ∈ (g.weakenCrumb c r a).ringSet ↔
            ¬(j = (g.gidx c r).toNat ∧ (g.weakenCrumb c r a).crumbs.getD j 0 = 0))) ∧
        (∀ j, j ∉ g.ringSet → j ∉ (g.weakenCrumb c r a).ringSet))) := by
  refine ⟨Grid.mk0_ok, fun g hrep hinv => ?_⟩
  exact ⟨g.buildHoleBarrier_ok hrep hinv,
    fun c r s => g.addCrumb_ok c r s hrep hinv,
    fun c r a => g.weakenCrumb_ok c r a hrep hinv,
    fun k a => g.weakenCrumbByIndex_ok k a hrep hinv,
    fun rng => g.decayOneCrumb_ok rng hrep hinv,
    g.clear_ok hrep,
    fun c r a hb => g.weakenCrumb_removal c r a hrep hinv hb⟩

/-- Witness for C3: instantiate at the real 40×25 grid, build the barrier
(discharging the `Rep`/`Inv` hypotheses from the construction part), then
weaken one ring cell. -/
theorem c3_grid_invariant_witness :
    ((Grid.mk0 40 25).buildHoleBarrier.Rep ∧ (Grid.mk0 40 25).buildHoleBarrier.Inv) ∧
    (((Grid.mk0 40 25).buildHoleBarrier.weakenCrumb 1 9 1).Rep ∧
      ((Grid.mk0 40 25).buildHoleBarrier.weakenCrumb 1 9 1).Inv) := by
  have h := c3_grid_invariant
  have h0 := h.1 40 25
  have hb := (h.2 _ h0.1 h0.2).1
  exact ⟨hb, (h.2 _ hb.1 hb.2).2.2.1 1 9 1⟩

/-! ## A* pathfinding (core.js `aStar`)

The working arrays (`Float32Array`s of `g`/`f` scores initialized to
`Infinity`, the `Int32Array` of predecessor links initialized to `-1`, and
the `Uint8Array` open/closed markers) are modelled as functions from flat
indices; the initialization loop is folded into the initial state.  The JS
`while (true)` loop is modelled with explicit fuel; claim C8 shows
`cols·rows` fuel always suffices, and `aStar` runs the loop with
`cols·rows + 1` fuel (by monotonicity the same result). -/

/-- `heuristic(c1, r1, c2, r2)`: Manhattan distance. -/
def heuristic (c1 r1 c2 r2 : ℤ) : ℚ := ((|c1 - c2| + |r1 - r2| : ℤ) : ℚ)

namespace AStar

/-- Working state of the A* loop. -/
structure St where
  g : ℕ → WithTop ℚ
  f : ℕ → WithTop ℚ
  came : ℕ → ℤ
  opn : ℕ → Bool
  closed : ℕ → Bool

/-- State after the initialization loops: all `g`/`f` are `Infinity`, all
`came` are `-1`, then `g[start] = 0`, `f[start] = h(start)`,
`open[start] = 1`. -/
def initSt (start : ℕ) (h0 : ℚ) : St :=
  { g := fun i => if i = start then ((0 : ℚ) : WithTop ℚ) else ⊤,
    f := fun i => if i = start then ((h0 : ℚ) : WithTop ℚ) else ⊤,
    came := fun _ => -1,
    opn := fun i => decide (i = start),
    closed := fun _ => false }

/-- The body of the scan `for (let i = 0; i < N; i++) { if (open[i] &&
f[i] < bestF) { bestF = f[i]; current = i; } }`, as a forward recursion
on the remaining count (each comparison is decided before the next
iteration, exactly like the loop). -/
def scanAux (s : St) : ℕ → ℕ → ℤ × WithTop ℚ → ℤ × WithTop ℚ
  | 0, _, best => best
  | n + 1, i, best =>
      if s.opn i = true ∧ s.f i < best.2 then scanAux s n (i + 1) ((i : ℤ), s.f i)
      else scanAux s n (i + 1) best

/-- The scan for the open node with the lowest `f` (first index wins exact
ties, `bestF` starts at `Infinity`); `-1` when no open node qualifies. -/
def scanMin (N : ℕ) (s : St) : ℤ := (scanAux s N 0 (-1, ⊤)).1

/-- The neighbor offsets `[[1,0],[-1,0],[0,1],[0,-1]]`. -/
def neighborOffsets : List (ℤ × ℤ) := [(1, 0), (-1, 0), (0, 1), (0, -1)]

/-- One neighbor relaxation inside the expansion of `current`. -/
def relax (cols rows : ℕ) (goalC goalR : ℤ) (getCost : ℤ → ℤ → WithTop ℚ)
    (current : ℕ) (s : St) (d : ℤ × ℤ) : St :=
  let nc : ℤ := ((current % cols : ℕ) : ℤ) + d.1
  let nr : ℤ := ((current / cols : ℕ) : ℤ) + d.2
  if inBoundsB nc nr cols rows then
    let ni : ℕ := (nr * (cols : ℤ) + nc).toNat
    if s.closed ni then s
    else
      match getCost nc nr with
      | ⊤ => s   -- `stepCost === Infinity` → impassable, skipped entirely
      | (stepCost : ℚ) =>
        if s.g current + (stepCost : WithTop ℚ) < s.g ni then
          { s with
              came := Function.update s.came ni (current : ℤ),
              g := Function.update s.g ni (s.g current + (stepCost : WithTop ℚ)),
              f := Function.update s.f ni
                (s.g current + (stepCost : WithTop ℚ)
                  + ((heuristic nc nr goalC goalR : ℚ) : WithTop ℚ)),
              opn := Function.update s.opn ni true }
        else s
  else s

/-- Expansion of `current`: relax its four neighbors. -/
def expand (cols rows : ℕ) (goalC goalR : ℤ) (getCost : ℤ → ℤ → WithTop ℚ)
    (current : ℕ) (s : St) : St :=
  neighborOffsets.foldl (relax cols rows goalC goalR getCost current) s

/-- Close `current`: `open[current] = 0; closed[current] = 1`. -/
def closeNode (current : ℕ) (s : St) : St :=
  { s with opn := Function.update s.opn current false,
           closed := Function.update s.closed current true }

/-- The fuel-indexed main loop (`while (true)` in the source; `none` =
fuel exhausted, shown unreachable with `cols·rows` fuel in claim C8). -/
def loopA (cols rows : ℕ) (goal : ℕ) (goalC goalR : ℤ)
    (getCost : ℤ → ℤ → WithTop ℚ) : ℕ → St → Option St
  | 0, _ => none
  | fuel+1, s =>
    let current := scanMin (cols * rows) s
    if current < 0 then some s
    else
      let s1 := closeNode current.toNat s
      if current.toNat = goal then some s1
      else loopA cols rows goal goalC goalR getCost fuel
        (expand cols rows goalC goalR getCost current.toNat s1)

/-- Path reconstruction: `while (node !== start && node !== -1) push(node)`. -/
def recon (start : ℕ) (came : ℕ → ℤ) : ℕ → ℤ → List ℕ
  | 0, _ => []
  | fuel+1, node =>
    if node ≠ (start : ℤ) ∧ node ≠ -1 then
      node.toNat :: recon start came fuel (came node.toNat)
    else []

/-- Decode a flat index into a `{c, r}` cell. -/
def cellOf (cols : ℕ) (i : ℕ) : ℤ × ℤ := (((i % cols : ℕ) : ℤ), ((i / cols : ℕ) : ℤ))

end AStar

/-- `aStar(startC, startR, goalC, goalR, cols, rows, getCost)`: excludes the
start, includes the goal, `[]` when `start == goal` or no path exists. -/
def aStar (startC startR goalC goalR : ℤ) (cols rows : ℕ)
    (getCost : ℤ → ℤ → WithTop ℚ) : List (ℤ × ℤ) :=
  let start : ℤ := startR * (cols : ℤ) + startC
  let goal : ℤ := goalR * (cols : ℤ) + goalC
  if start = goal then []
  else
    match AStar.loopA cols rows goal.toNat goalC goalR getCost (cols * rows + 1)
      (AStar.initSt start.toNat (heuristic startC startR goalC goalR)) with
    | none => []
    | some s =>
      if s.came goal.toNat = -1 then []
      else ((AStar.recon start.toNat s.came (cols * rows + 1) (goal.toNat : ℤ)).reverse).map
        (AStar.cellOf cols)

/-! ### A* verification (claims C2 and C8) -/

theorem inBoundsB_iff (c r : ℤ) (cols rows : ℕ) :
    inBoundsB c r cols rows = true ↔ 0 ≤ c ∧ 0 ≤ r ∧ c < cols ∧ r < rows := by
  simp [inBoundsB, and_assoc]

namespace AStar

/-- Flat index of a cell. -/
def enc (cols : ℕ) (c r : ℤ) : ℕ := (r * (cols : ℤ) + c).toNat

theorem enc_spec (cols rows : ℕ) (c r : ℤ) (h : inBoundsB c r cols rows = true) :
    ((enc cols c r : ℕ) : ℤ) = r * (cols : ℤ) + c ∧ enc cols c r < cols * rows := by
  rw [inBoundsB_iff] at h
  obtain ⟨h1, h2, h3, h4⟩ := h
  have hcols : 0 < (cols : ℤ) := lt_of_le_of_lt h1 h3
  have hnn : 0 ≤ r * (cols : ℤ) + c := add_nonneg (mul_nonneg h2 hcols.le) h1
  have h0 : ((enc cols c r : ℕ) : ℤ) = r * (cols : ℤ) + c := Int.toNat_of_nonneg hnn
  refine ⟨h0, ?_⟩
  have hlt : ((enc cols c r : ℕ) : ℤ) < ((cols * rows : ℕ) : ℤ) := by
    rw [h0]
    push_cast
    nlinarith [mul_le_mul_of_nonneg_right (Int.le_sub_one_of_lt h4) hcols.le]
  exact_mod_cast hlt

theorem cellOf_enc (cols rows : ℕ) (c r : ℤ) (h : inBoundsB c r cols rows = true) :
    cellOf cols (enc cols c r) = (c, r) := by
  rw [inBoundsB_iff] at h
  obtain ⟨h1, h2, h3, h4⟩ := h
  have hcols : 0 < cols := by omega
  have hzero : (r * (cols : ℤ) + c) = ((c.toNat + r.toNat * cols : ℕ) : ℤ) := by
    push_cast [Int.toNat_of_nonneg h1, Int.toNat_of_nonneg h2]
    ring
  have hc : enc cols c r = c.toNat + r.toNat * cols := by
    unfold enc
    rw [hzero, Int.toNat_natCast]
  unfold cellOf
  rw [hc, Nat.add_mul_mod_self_right, Nat.add_mul_div_right _ _ hcols,
    Nat.mod_eq_of_lt (by omega), Nat.div_eq_of_lt (by omega)]
  simp only [Prod.mk.injEq]
  constructor <;> omega

theorem cellOf_inB (cols rows : ℕ) (i : ℕ) (hi : i < cols * rows) :
    inBoundsB (cellOf cols i).1 (cellOf cols i).2 cols rows = true := by
  have hcols : 0 < cols := by
    rcases Nat.eq_zero_or_pos cols with h0 | h0
    · subst h0; simp at hi
    · exact h0
  rw [inBoundsB_iff]
  unfold cellOf
  dsimp only
  refine ⟨by positivity, by positivity, ?_, ?_⟩
  · exact_mod_cast Nat.mod_lt _ hcols
  · exact_mod_cast Nat.div_lt_of_lt_mul hi

theorem enc_cellOf (cols : ℕ) (i : ℕ) :
    enc cols (cellOf cols i).1 (cellOf cols i).2 = i := by
  unfold enc cellOf
  have h1 : ((i / cols : ℕ) : ℤ) * (cols : ℤ) + ((i % cols : ℕ) : ℤ)
      = ((i / cols * cols + i % cols : ℕ) : ℤ) := by push_cast; ring
  have h2 : i / cols * cols + i % cols = i := by
    rw [Nat.mul_comm (i / cols) cols]
    exact Nat.div_add_mod i cols
  rw [h1, h2, Int.toNat_natCast]

/-- One legal A* step between flat indices: moving by one of the four
neighbor offsets onto an in-bounds cell whose step cost is finite (the
source skips `Infinity` cells entirely). -/
def validStep (cols rows : ℕ) (getCost : ℤ → ℤ → WithTop ℚ) (p i : ℕ) : Prop :=
  ∃ d ∈ neighborOffsets,
    inBoundsB ((cellOf cols p).1 + d.1) ((cellOf cols p).2 + d.2) cols rows = true ∧
    i = enc cols ((cellOf cols p).1 + d.1) ((cellOf cols p).2 + d.2) ∧
    getCost ((cellOf cols p).1 + d.1) ((cellOf cols p).2 + d.2) ≠ ⊤

/-- Predecessor chain: following `came` from `i` reaches `start` through
`R`-steps; the list collects the visited nodes (excluding `start`), most
recent first — exactly what the source's reconstruction loop pushes. -/
inductive Came (R : ℕ → ℕ → Prop) (came : ℕ → ℤ) (start : ℕ) : ℕ → List ℕ → Prop
  | base : Came R came start start []
  | cons (i p : ℕ) (l : List ℕ) : i ≠ start → came i = ((p : ℕ) : ℤ) → R p i →
      Came R came start p l → Came R came start i (i :: l)

theorem Came.congr {R : ℕ → ℕ → Prop} {came came' : ℕ → ℤ} {start i : ℕ} {l : List ℕ}
    (h : Came R came start i l) (h' : ∀ j ∈ l, came' j = came j) :
    Came R came' start i l := by
  induction h with
  | base => exact .base
  | cons i p l hi hc hR _ ih =>
      exact .cons i p l hi (by rw [h' i (by simp)]; exact hc) hR
        (ih fun j hj => h' j (by simp [hj]))

theorem Came.members {R : ℕ → ℕ → Prop} {came : ℕ → ℤ} {start i : ℕ} {l : List ℕ}
    (h : Came R came start i l) : ∀ j ∈ l, j ≠ start ∧ ∃ p, R p j := by
  induction h with
  | base => simp
  | cons i p l hi _ hR _ ih =>
      intro j hj
      rcases List.mem_cons.mp hj with rfl | hj
      · exact ⟨hi, p, hR⟩
      · exact ih j hj

theorem Came.head {R : ℕ → ℕ → Prop} {came : ℕ → ℤ} {start i : ℕ} {l : List ℕ}
    (h : Came R came start i l) (hi : i ≠ start) :
    ∃ p rest, l = i :: rest ∧ came i = ((p : ℕ) : ℤ) := by
  cases h with
  | base => exact absurd rfl hi
  | cons i p rest _ hc _ _ => exact ⟨p, rest, rfl, hc⟩

/-- The reconstruction loop returns exactly the predecessor chain, given
enough fuel. -/
theorem recon_eq {R : ℕ → ℕ → Prop} {came : ℕ → ℤ} {start i : ℕ} {l : List ℕ}
    (h : Came R came start i l) : ∀ fuel, l.length < fuel →
    recon start came fuel ((i : ℕ) : ℤ) = l := by
  induction h with
  | base =>
      intro fuel hf
      match fuel with
      | fuel + 1 => simp [recon]
  | cons i p l hi hc hR _ ih =>
      intro fuel hf
      match fuel with
      | fuel + 1 =>
          have h1 : ((i : ℕ) : ℤ) ≠ ((start : ℕ) : ℤ) := by
            intro hh
            exact hi (by exact_mod_cast hh)
          have h2 : ((i : ℕ) : ℤ) ≠ -1 := by
            intro hh
            omega
          have hlen : l.length < fuel := by
            simp only [List.length_cons] at hf
            omega
          simp only [recon, ne_eq, h1, not_false_iff, h2, and_self, if_true,
            Int.toNat_natCast, List.cons.injEq, true_and]
          rw [hc]
          exact ih fuel hlen

/-- Appending one `R`-step to the end of a `List.Chain`. -/
theorem chain_snoc {α : Type} {R : α → α → Prop} :
    ∀ (l : List α) (a b c : α), List.Chain R a l → l.getLast? = some b → R b c →
    List.Chain R a (l ++ [c])
  | [], _, _, _, _, hl, _ => by simp at hl
  | [x], a, b, c, hch, hl, hR => by
      simp only [List.getLast?_singleton, Option.some.injEq] at hl
      subst hl
      rcases List.chain_cons.mp hch with ⟨h1, _⟩
      exact List.chain_cons.mpr ⟨h1, List.chain_cons.mpr ⟨hR, List.Chain.nil⟩⟩
  | x :: y :: xs, a, b, c, hch, hl, hR => by
      rcases List.chain_cons.mp hch with ⟨h1, h2⟩
      have hrec := chain_snoc (y :: xs) x b c h2 (by simpa using hl) hR
      exact List.chain_cons.mpr ⟨h1, hrec⟩

/-- A predecessor chain, reversed, is a forward `R`-path from `start`
ending at its node. -/
theorem Came.toChain {R : ℕ → ℕ → Prop} {came : ℕ → ℤ} {start i : ℕ} {l : List ℕ}
    (h : Came R came start i l) :
    List.Chain R start l.reverse ∧ (i ≠ start → l.reverse.getLast? = some i) := by
  induction h with
  | base => exact ⟨List.Chain.nil, fun h => absurd rfl h⟩
  | cons i p l hi _ hR hrec ih =>
      constructor
      · by_cases hp : p = start
        · subst hp
          cases hrec with
          | base => simpa using List.chain_cons.mpr ⟨hR, List.Chain.nil⟩
          | cons _ _ _ h' _ _ _ => exact absurd rfl h'
        · have h2 := ih.2 hp
          have hsn := chain_snoc l.reverse start p i ih.1 h2 hR
          simpa using hsn
      · intro _
        rw [List.getLast?_reverse]
        rfl

theorem scanAux_mono (s : St) : ∀ (n i : ℕ) (acc : ℤ × WithTop ℚ),
    (scanAux s n i acc).2 ≤ acc.2 := by
  intro n
  induction n with
  | zero => intro i acc; exact le_refl _
  | succ n ih =>
      intro i acc
      simp only [scanAux]
      split
      · next h => exact le_trans (ih (i + 1) _) h.2.le
      · exact ih (i + 1) acc

theorem scanAux_le (s : St) : ∀ (n i : ℕ) (acc : ℤ × WithTop ℚ) (j : ℕ),
    i ≤ j → j < i + n → s.opn j = true → (scanAux s n i acc).2 ≤ s.f j := by
  intro n
  induction n with
  | zero => intro i acc j h1 h2 _; omega
  | succ n ih =>
      intro i acc j h1 h2 hop
      simp only [scanAux]
      by_cases hj : j = i
      · subst hj
        split
        · exact scanAux_mono s n (j + 1) _
        · next h =>
            push_neg at h
            exact le_trans (scanAux_mono s n (j + 1) acc) (h hop)
      · split
        · exact ih (i + 1) _ j (by omega) (by omega) hop
        · exact ih (i + 1) acc j (by omega) (by omega) hop

theorem scanAux_inv (s : St) : ∀ (n i : ℕ) (acc : ℤ × WithTop ℚ),
    (acc.1 = -1 → acc.2 = ⊤) →
    ((scanAux s n i acc).1 = -1 → (scanAux s n i acc).2 = ⊤) := by
  intro n
  induction n with
  | zero => intro i acc h; exact h
  | succ n ih =>
      intro i acc h
      simp only [scanAux]
      split
      · exact ih (i + 1) _ (fun h1 => absurd h1 (by simp))
      · exact ih (i + 1) acc h

theorem scanAux_mem (s : St) (N : ℕ) : ∀ (n i : ℕ) (acc : ℤ × WithTop ℚ),
    i + n ≤ N →
    (acc.1 = -1 ∨ ∃ k, k < N ∧ acc = ((k : ℤ), s.f k) ∧ s.opn k = true) →
    ((scanAux s n i acc).1 = -1 ∨
      ∃ k, k < N ∧ scanAux s n i acc = ((k : ℤ), s.f k) ∧ s.opn k = true) := by
  intro n
  induction n with
  | zero => intro i acc _ h; exact h
  | succ n ih =>
      intro i acc hN h
      simp only [scanAux]
      split
      · next hcond => exact ih (i + 1) _ (by omega) (Or.inr ⟨i, by omega, rfl, hcond.1⟩)
      · exact ih (i + 1) acc (by omega) h

/-- The scan returns `-1` or an open node with index `< N`. -/
theorem scanMin_spec (N : ℕ) (s : St) :
    scanMin N s = -1 ∨ ∃ i, i < N ∧ scanMin N s = (i : ℤ) ∧ s.opn i = true := by
  unfold scanMin
  rcases scanAux_mem s N N 0 (-1, ⊤) (by omega) (Or.inl rfl) with h | ⟨i, hiN, hacc, hop⟩
  · exact Or.inl h
  · exact Or.inr ⟨i, hiN, by rw [hacc], hop⟩

/-- If some open node has finite `f`, the scan does not return `-1`. -/
theorem scanMin_ne (N : ℕ) (s : St) (i : ℕ) (hiN : i < N) (hop : s.opn i = true)
    (hf : s.f i ≠ ⊤) : scanMin N s ≠ -1 := by
  intro hcontra
  unfold scanMin at hcontra
  have h1 := scanAux_inv s N 0 (-1, ⊤) (fun _ => rfl) hcontra
  have h2 := scanAux_le s N 0 (-1, ⊤) i (by omega) (by omega) hop
  rw [h1] at h2
  exact hf (top_le_iff.mp h2)

/-- The loop invariant (everything except the frontier property, which is
broken by closing a node and re-established by the following expansion). -/
structure Inv0 (cols rows : ℕ) (getCost : ℤ → ℤ → WithTop ℚ) (start : ℕ) (s : St) : Prop where
  opn_lt : ∀ i, s.opn i = true → i < cols * rows
  closed_lt : ∀ i, s.closed i = true → i < cols * rows
  disj : ∀ i, s.opn i = true → s.closed i = false
  opn_f : ∀ i, s.opn i = true → s.f i ≠ ⊤
  opn_g : ∀ i, s.opn i = true → s.g i ≠ ⊤
  g_seen : ∀ i, s.g i ≠ ⊤ → s.opn i = true ∨ s.closed i = true
  came_unseen : ∀ i, s.opn i = false → s.closed i = false → s.came i = -1
  came_opn : ∀ i, s.opn i = true → i ≠ start →
    ∃ p, s.came i = ((p : ℕ) : ℤ) ∧ s.closed p = true ∧ validStep cols rows getCost p i
  chains : ∀ i, s.closed i = true →
    ∃ l, Came (validStep cols rows getCost) s.came start i l ∧
      (∀ j ∈ l, s.closed j = true) ∧ l.Nodup
  start_seen : s.opn start = true ∨ s.closed start = true

/-- Every neighbor of a closed node reachable by a legal step has been
seen (opened or closed). -/
def Frontier (cols rows : ℕ) (getCost : ℤ → ℤ → WithTop ℚ) (s : St) : Prop :=
  ∀ p, s.closed p = true → ∀ i, validStep cols rows getCost p i →
    s.opn i = true ∨ s.closed i = true

theorem initSt_inv0 (cols rows : ℕ) (getCost : ℤ → ℤ → WithTop ℚ) (start : ℕ) (h0 : ℚ)
    (hstart : start < cols * rows) : Inv0 cols rows getCost start (initSt start h0) := by
  constructor
  · intro i hi
    have h : i = start := by simpa [initSt] using hi
    subst h; exact hstart
  · intro i hi
    simp [initSt] at hi
  · intro i _
    rfl
  · intro i hi
    have h : i = start := by simpa [initSt] using hi
    subst h
    simp [initSt]
  · intro i hi
    have h : i = start := by simpa [initSt] using hi
    subst h
    simp [initSt]
  · intro i hi
    by_cases h : i = start
    · subst h; simp [initSt]
    · exfalso; apply hi; simp [initSt, h]
  · intro i _ _
    rfl
  · intro i hi hne
    have h : i = start := by simpa [initSt] using hi
    exact absurd h hne
  · intro i hi
    simp [initSt] at hi
  · left
    simp [initSt]

theorem initSt_frontier (cols rows : ℕ) (getCost : ℤ → ℤ → WithTop ℚ) (start : ℕ) (h0 : ℚ) :
    Frontier cols rows getCost (initSt start h0) := by
  intro p hp
  simp [initSt] at hp

/-- The relaxed/updated state of a successful neighbor improvement keeps
the invariant. -/
theorem update_inv0 (cols rows : ℕ) (getCost : ℤ → ℤ → WithTop ℚ) (start current ni : ℕ)
    (q hh : ℚ) (s : St)
    (hInv : Inv0 cols rows getCost start s)
    (hcl : s.closed current = true) (hgc : s.g current ≠ ⊤)
    (hniN : ni < cols * rows) (hncl : s.closed ni = false)
    (hstep : validStep cols rows getCost current ni) :
    Inv0 cols rows getCost start
      { s with came := Function.update s.came ni ((current : ℕ) : ℤ),
               g := Function.update s.g ni (s.g current + (q : WithTop ℚ)),
               f := Function.update s.f ni
                 (s.g current + (q : WithTop ℚ) + ((hh : ℚ) : WithTop ℚ)),
               opn := Function.update s.opn ni true } := by
  have htent : s.g current + (q : WithTop ℚ) ≠ ⊤ :=
    WithTop.add_ne_top.mpr ⟨hgc, WithTop.coe_ne_top⟩
  have hftent : s.g current + (q : WithTop ℚ) + ((hh : ℚ) : WithTop ℚ) ≠ ⊤ :=
    WithTop.add_ne_top.mpr ⟨htent, WithTop.coe_ne_top⟩
  refine ⟨?_, ?_, ?_, ?_, ?_, ?_, ?_, ?_, ?_, ?_⟩ <;> dsimp only
  · intro i hi
    rcases eq_or_ne i ni with rfl | hne
    · exact hniN
    · rw [Function.update_noteq hne] at hi
      exact hInv.opn_lt i hi
  · exact hInv.closed_lt
  · intro i hi
    rcases eq_or_ne i ni with rfl | hne
    · exact hncl
    · rw [Function.update_noteq hne] at hi
      exact hInv.disj i hi
  · intro i hi
    rcases eq_or_ne i ni with rfl | hne
    · rw [Function.update_same]
      exact hftent
    · rw [Function.update_noteq hne] at hi ⊢
      exact hInv.opn_f i hi
  · intro i hi
    rcases eq_or_ne i ni with rfl | hne
    · rw [Function.update_same]
      exact htent
    · rw [Function.update_noteq hne] at hi ⊢
      exact hInv.opn_g i hi
  · intro i hi
    rcases eq_or_ne i ni with rfl | hne
    · left
      exact Function.update_same _ _ _
    · rw [Function.update_noteq hne] at hi
      rcases hInv.g_seen i hi with h | h
      · left
        rw [Function.update_noteq hne]
        exact h
      · right
        exact h
  · intro i hi1 hi2
    rcases eq_or_ne i ni with rfl | hne
    · rw [Function.update_same] at hi1
      exact absurd hi1 (by simp)
    · rw [Function.update_noteq hne] at hi1 ⊢
      exact hInv.came_unseen i hi1 hi2
  · intro i hi hne
    rcases eq_or_ne i ni with rfl | hni
    · exact ⟨current, Function.update_same _ _ _, hcl, hstep⟩
    · rw [Function.update_noteq hni] at hi ⊢
      exact hInv.came_opn i hi hne
  · intro i hi
    obtain ⟨l, hl, hlc, hln⟩ := hInv.chains i hi
    refine ⟨l, hl.congr fun j hj => ?_, hlc, hln⟩
    have hjne : j ≠ ni := by
      intro hcon
      rw [hcon] at hj
      exact absurd (hlc ni hj) (by rw [hncl]; simp)
    exact Function.update_noteq hjne _ _
  · rcases hInv.start_seen with h | h
    · left
      rcases eq_or_ne start ni with rfl | hne
      · exact Function.update_same _ _ _
      · rw [Function.update_noteq hne]
        exact h
    · right
      exact h

/-- Relaxing one neighbor offset preserves the invariant; it never touches
`closed` or the (closed) current node's `g`, only opens nodes, and
afterwards the offset's target — if in-bounds with finite cost — has been
seen. -/
theorem relax_inv (cols rows : ℕ) (goalC goalR : ℤ) (getCost : ℤ → ℤ → WithTop ℚ)
    (start current : ℕ) (s : St) (d : ℤ × ℤ) (hd : d ∈ neighborOffsets)
    (hInv : Inv0 cols rows getCost start s)
    (hcl : s.closed current = true) (hgc : s.g current ≠ ⊤) :
    Inv0 cols rows getCost start (relax cols rows goalC goalR getCost current s d) ∧
    (relax cols rows goalC goalR getCost current s d).closed = s.closed ∧
    (relax cols rows goalC goalR getCost current s d).g current = s.g current ∧
    (∀ i, s.opn i = true → (relax cols rows goalC goalR getCost current s d).opn i = true) ∧
    (inBoundsB ((cellOf cols current).1 + d.1) ((cellOf cols current).2 + d.2) cols rows = true →
      getCost ((cellOf cols current).1 + d.1) ((cellOf cols current).2 + d.2) ≠ ⊤ →
      ((relax cols rows goalC goalR getCost current s d).opn
          (enc cols ((cellOf cols current).1 + d.1) ((cellOf cols current).2 + d.2)) = true ∨
        (relax cols rows goalC goalR getCost current s d).closed
          (enc cols ((cellOf cols current).1 + d.1) ((cellOf cols current).2 + d.2)) = true)) := by
  simp only [relax]
  split
  case isFalse hnb =>
    exact ⟨hInv, rfl, rfl, fun i h => h, fun hb _ => absurd hb hnb⟩
  case isTrue hb =>
    split
    case isTrue hclosed =>
      exact ⟨hInv, rfl, rfl, fun i h => h, fun _ _ => Or.inr hclosed⟩
    case isFalse hnclosed =>
      have hncl : s.closed ((((current / cols : ℕ) : ℤ) + d.2) * (cols : ℤ)
          + (((current % cols : ℕ) : ℤ) + d.1)).toNat = false := by
        simpa using hnclosed
      split
      case h_1 heq =>
        exact ⟨hInv, rfl, rfl, fun i h => h, fun _ hcost => absurd heq hcost⟩
      case h_2 q heq =>
        have hcost : getCost (((current % cols : ℕ) : ℤ) + d.1)
            (((current / cols : ℕ) : ℤ) + d.2) ≠ ⊤ := by
          rw [heq]; exact WithTop.coe_ne_top
        have htent : s.g current + ((q : ℚ) : WithTop ℚ) ≠ ⊤ :=
          WithTop.add_ne_top.mpr ⟨hgc, WithTop.coe_ne_top⟩
        split
        case isTrue hlt =>
          have hniN : ((((current / cols : ℕ) : ℤ) + d.2) * (cols : ℤ)
              + (((current % cols : ℕ) : ℤ) + d.1)).toNat < cols * rows :=
            (enc_spec cols rows _ _ hb).2
          have hnicur : current ≠ ((((current / cols : ℕ) : ℤ) + d.2) * (cols : ℤ)
              + (((current % cols : ℕ) : ℤ) + d.1)).toNat := by
            intro h
            rw [← h] at hncl
            rw [hcl] at hncl
            simp at hncl
          refine ⟨?_, rfl, ?_, ?_, ?_⟩
          · exact update_inv0 cols rows getCost start current _ q _ s hInv hcl hgc hniN hncl
              ⟨d, hd, hb, rfl, hcost⟩
          · exact Function.update_noteq hnicur _ _
          · intro i h
            dsimp only
            rcases eq_or_ne i ((((current / cols : ℕ) : ℤ) + d.2) * (cols : ℤ)
                + (((current % cols : ℕ) : ℤ) + d.1)).toNat with rfl | hne
            · exact Function.update_same _ _ _
            · rw [Function.update_noteq hne]
              exact h
          · intro _ _
            left
            dsimp only
            exact Function.update_same _ _ _
        case isFalse hnlt =>
          have hle : s.g ((((current / cols : ℕ) : ℤ) + d.2) * (cols : ℤ)
              + (((current % cols : ℕ) : ℤ) + d.1)).toNat ≤ s.g current + ((q : ℚ) : WithTop ℚ) :=
            not_lt.mp hnlt
          have hfin : s.g ((((current / cols : ℕ) : ℤ) + d.2) * (cols : ℤ)
              + (((current % cols : ℕ) : ℤ) + d.1)).toNat ≠ ⊤ :=
            ne_top_of_le_ne_top htent hle
          exact ⟨hInv, rfl, rfl, fun i h => h, fun _ _ => hInv.g_seen _ hfin⟩

/-- Folding `relax` over any sublist of the neighbor offsets. -/
theorem foldl_relax_inv (cols rows : ℕ) (goalC goalR : ℤ) (getCost : ℤ → ℤ → WithTop ℚ)
    (start current : ℕ) :
    ∀ (L : List (ℤ × ℤ)) (s : St), (∀ d ∈ L, d ∈ neighborOffsets) →
    Inv0 cols rows getCost start s → s.closed current = true → s.g current ≠ ⊤ →
    Inv0 cols rows getCost start (L.foldl (relax cols rows goalC goalR getCost current) s) ∧
    (L.foldl (relax cols rows goalC goalR getCost current) s).closed = s.closed ∧
    (∀ i, s.opn i = true →
      (L.foldl (relax cols rows goalC goalR getCost current) s).opn i = true) ∧
    (∀ d ∈ L,
      inBoundsB ((cellOf cols current).1 + d.1) ((cellOf cols current).2 + d.2) cols rows = true →
      getCost ((cellOf cols current).1 + d.1) ((cellOf cols current).2 + d.2) ≠ ⊤ →
      ((L.foldl (relax cols rows goalC goalR getCost current) s).opn
          (enc cols ((cellOf cols current).1 + d.1) ((cellOf cols current).2 + d.2)) = true ∨
        (L.foldl (relax cols rows goalC goalR getCost current) s).closed
          (enc cols ((cellOf cols current).1 + d.1) ((cellOf cols current).2 + d.2)) = true)) := by
  intro L
  induction L with
  | nil =>
      intro s _ hInv _ _
      exact ⟨hInv, rfl, fun i h => h, by simp⟩
  | cons d t ih =>
      intro s hL hInv hcl hgc
      obtain ⟨hInv1, hcleq, hgcur, hmono, hC5⟩ :=
        relax_inv cols rows goalC goalR getCost start current s d (hL d (by simp)) hInv hcl hgc
      obtain ⟨hInvF, hclF, hmonoF, hC5F⟩ :=
        ih (relax cols rows goalC goalR getCost current s d)
          (fun d' hd' => hL d' (by simp [hd'])) hInv1 (by rw [hcleq]; exact hcl)
          (by rw [hgcur]; exact hgc)
      simp only [List.foldl_cons]
      refine ⟨hInvF, by rw [hclF, hcleq], fun i h => hmonoF i (hmono i h), ?_⟩
      intro d' hd' hbd hcd
      rcases List.mem_cons.mp hd' with rfl | hd't
      · rcases hC5 hbd hcd with h | h
        · exact Or.inl (hmonoF _ h)
        · right
          rw [hclF, hcleq]
          rw [hcleq] at h
          exact h
      · exact hC5F d' hd't hbd hcd

/-- After expanding a closed `current`, the invariant holds, `closed` is
unchanged, openness only grows, and every legal step out of `current`
lands on a seen node. -/
theorem expand_inv (cols rows : ℕ) (goalC goalR : ℤ) (getCost : ℤ → ℤ → WithTop ℚ)
    (start current : ℕ) (s : St)
    (hInv : Inv0 cols rows getCost start s)
    (hcl : s.closed current = true) (hgc : s.g current ≠ ⊤) :
    Inv0 cols rows getCost start (expand cols rows goalC goalR getCost current s) ∧
    (expand cols rows goalC goalR getCost current s).closed = s.closed ∧
    (∀ i, s.opn i = true → (expand cols rows goalC goalR getCost current s).opn i = true) ∧
    (∀ i, validStep cols rows getCost current i →
      (expand cols rows goalC goalR getCost current s).opn i = true ∨
      (expand cols rows goalC goalR getCost current s).closed i = true) := by
  obtain ⟨hInvF, hclF, hmonoF, hC5F⟩ :=
    foldl_relax_inv cols rows goalC goalR getCost start current neighborOffsets s
      (fun _ h => h) hInv hcl hgc
  refine ⟨hInvF, hclF, hmonoF, ?_⟩
  rintro i ⟨d, hd, hbd, rfl, hcd⟩
  exact hC5F d hd hbd hcd

/-- Closing an open node preserves the invariant; seen-ness is monotone
and other nodes' closed marks are unchanged. -/
theorem closeNode_inv0 (cols rows : ℕ) (getCost : ℤ → ℤ → WithTop ℚ)
    (start : ℕ) (s : St) (cur : ℕ)
    (hInv : Inv0 cols rows getCost start s) (hop : s.opn cur = true) :
    Inv0 cols rows getCost start (closeNode cur s) ∧
    (∀ i, (s.opn i = true ∨ s.closed i = true) →
      ((closeNode cur s).opn i = true ∨ (closeNode cur s).closed i = true)) ∧
    (closeNode cur s).closed cur = true ∧
    (∀ i, i ≠ cur → (closeNode cur s).closed i = s.closed i) := by
  have hcurN : cur < cols * rows := hInv.opn_lt cur hop
  have hncl : s.closed cur = false := hInv.disj cur hop
  have hseen : ∀ i, (s.opn i = true ∨ s.closed i = true) →
      ((closeNode cur s).opn i = true ∨ (closeNode cur s).closed i = true) := by
    intro i h
    dsimp only [closeNode]
    rcases eq_or_ne i cur with rfl | hne
    · right
      exact Function.update_same _ _ _
    · rw [Function.update_noteq hne, Function.update_noteq hne]
      exact h
  refine ⟨?_, hseen, Function.update_same _ _ _, fun i hne => Function.update_noteq hne _ _⟩
  refine ⟨?_, ?_, ?_, ?_, ?_, ?_, ?_, ?_, ?_, ?_⟩ <;> dsimp only [closeNode]
  · intro i hi
    rcases eq_or_ne i cur with rfl | hne
    · exact hcurN
    · rw [Function.update_noteq hne] at hi
      exact hInv.opn_lt i hi
  · intro i hi
    rcases eq_or_ne i cur with rfl | hne
    · exact hcurN
    · rw [Function.update_noteq hne] at hi
      exact hInv.closed_lt i hi
  · intro i hi
    rcases eq_or_ne i cur with rfl | hne
    · rw [Function.update_same] at hi
      exact absurd hi (by simp)
    · rw [Function.update_noteq hne] at hi
      rw [Function.update_noteq hne]
      exact hInv.disj i hi
  · intro i hi
    rcases eq_or_ne i cur with rfl | hne
    · rw [Function.update_same] at hi
      exact absurd hi (by simp)
    · rw [Function.update_noteq hne] at hi
      exact hInv.opn_f i hi
  · intro i hi
    rcases eq_or_ne i cur with rfl | hne
    · rw [Function.update_same] at hi
      exact absurd hi (by simp)
    · rw [Function.update_noteq hne] at hi
      exact hInv.opn_g i hi
  · intro i hi
    have h := hInv.g_seen i hi
    rcases eq_or_ne i cur with rfl | hne
    · right
      exact Function.update_same _ _ _
    · rw [Function.update_noteq hne, Function.update_noteq hne]
      exact h
  · intro i hi1 hi2
    rcases eq_or_ne i cur with rfl | hne
    · rw [Function.update_same] at hi2
      exact absurd hi2 (by simp)
    · rw [Function.update_noteq hne] at hi1 hi2
      exact hInv.came_unseen i hi1 hi2
  · intro i hi hne
    rcases eq_or_ne i cur with rfl | hic
    · rw [Function.update_same] at hi
      exact absurd hi (by simp)
    · rw [Function.update_noteq hic] at hi
      obtain ⟨p, hp1, hp2, hp3⟩ := hInv.came_opn i hi hne
      refine ⟨p, hp1, ?_, hp3⟩
      rcases eq_or_ne p cur with rfl | hpc
      · exact Function.update_same _ _ _
      · rw [Function.update_noteq hpc]
        exact hp2
  · intro i hi
    rcases eq_or_ne i cur with rfl | hne
    · by_cases hst : i = start
      · subst hst
        exact ⟨[], Came.base, by simp, List.nodup_nil⟩
      · obtain ⟨p, hp1, hp2, hp3⟩ := hInv.came_opn i hop hst
        obtain ⟨lp, hlp, hlpc, hlpn⟩ := hInv.chains p hp2
        refine ⟨i :: lp, Came.cons i p lp hst hp1 hp3 hlp, ?_, ?_⟩
        · intro j hj
          rcases List.mem_cons.mp hj with rfl | hj
          · exact Function.update_same _ _ _
          · rcases eq_or_ne j i with rfl | hji
            · exact Function.update_same _ _ _
            · rw [Function.update_noteq hji]
              exact hlpc j hj
        · refine List.nodup_cons.mpr ⟨?_, hlpn⟩
          intro hmem
          have := hlpc i hmem
          rw [hncl] at this
          simp at this
    · rw [Function.update_noteq hne] at hi
      obtain ⟨l, hl, hlc, hln⟩ := hInv.chains i hi
      refine ⟨l, hl, ?_, hln⟩
      intro j hj
      rcases eq_or_ne j cur with rfl | hjc
      · exact Function.update_same _ _ _
      · rw [Function.update_noteq hjc]
        exact hlc j hj
  · rcases hInv.start_seen with h | h
    · rcases eq_or_ne start cur with rfl | hne
      · right
        exact Function.update_same _ _ _
      · left
        rw [Function.update_noteq hne]
        exact h
    · right
      rcases eq_or_ne start cur with rfl | hne
      · exact Function.update_same _ _ _
      · rw [Function.update_noteq hne]
        exact h

/-- Number of closed nodes among the `cols·rows` cells. -/
def closedCount (N : ℕ) (s : St) : ℕ := (List.range N).countP fun i => s.closed i

theorem countP_update_true : ∀ (L : List ℕ) (c : ℕ) (f : ℕ → Bool), L.Nodup → c ∈ L →
    f c = false →
    (L.countP fun i => Function.update f c true i) = (L.countP fun i => f i) + 1 := by
  intro L
  induction L with
  | nil => intro c f _ hc; simp at hc
  | cons a t ih =>
      intro c f hnd hc hfc
      rcases List.nodup_cons.mp hnd with ⟨hat, hndt⟩
      simp only [List.countP_cons]
      rcases List.mem_cons.mp hc with rfl | hct
      · have htail : (t.countP fun i => Function.update f c true i) = t.countP fun i => f i := by
          apply List.countP_congr
          intro x hx
          have hxc : x ≠ c := fun h => hat (h ▸ hx)
          rw [Function.update_noteq hxc]
        rw [htail, Function.update_same, hfc]
        simp
      · have hac : a ≠ c := fun h => hat (h ▸ hct)
        rw [Function.update_noteq hac, ih c f hndt hct hfc]
        ring

theorem closedCount_le (N : ℕ) (s : St) : closedCount N s ≤ N := by
  refine le_trans (List.countP_le_length _) ?_
  simp

theorem closedCount_lt (N : ℕ) (s : St) (goal : ℕ) (hgN : goal < N)
    (hgc : s.closed goal = false) : closedCount N s < N := by
  refine lt_of_le_of_ne (closedCount_le N s) ?_
  intro heq
  have hlen : ((List.range N).countP fun i => s.closed i) = (List.range N).length := by
    simpa [closedCount] using heq
  have := List.countP_eq_length.mp hlen goal (List.mem_range.mpr hgN)
  rw [hgc] at this
  simp at this

theorem closedCount_close (N : ℕ) (s : St) (cur : ℕ) (hcurN : cur < N)
    (hncl : s.closed cur = false) :
    closedCount N (closeNode cur s) = closedCount N s + 1 := by
  unfold closedCount closeNode
  exact countP_update_true (List.range N) cur s.closed (List.nodup_range N)
    (List.mem_range.mpr hcurN) hncl

theorem closedCount_congr (N : ℕ) (s s' : St) (h : s'.closed = s.closed) :
    closedCount N s' = closedCount N s := by
  unfold closedCount
  rw [h]

/-- Every loop iteration that does not return closes one more node, so
`cols·rows + 1` iterations always suffice (for arbitrary `goal`). -/
theorem loop_fuel (cols rows : ℕ) (goal : ℕ) (goalC goalR : ℤ)
    (getCost : ℤ → ℤ → WithTop ℚ) (start : ℕ) :
    ∀ fuel s, Inv0 cols rows getCost start s →
    cols * rows + 1 ≤ fuel + closedCount (cols * rows) s →
    ∃ s', loopA cols rows goal goalC goalR getCost fuel s = some s' := by
  intro fuel
  induction fuel with
  | zero =>
      intro s _ hcount
      exfalso
      have := closedCount_le (cols * rows) s
      omega
  | succ fuel ih =>
      intro s hInv hcount
      simp only [loopA]
      split
      · exact ⟨s, rfl⟩
      · next hcur =>
        rcases scanMin_spec (cols * rows) s with hm | ⟨c, hcN, hceq, hcop⟩
        · exact absurd (by rw [hm]; norm_num) hcur
        · have hct : (scanMin (cols * rows) s).toNat = c := by
            rw [hceq]; exact Int.toNat_natCast c
          rw [hct]
          split
          · exact ⟨_, rfl⟩
          · obtain ⟨hInv1, _, hclcur, _⟩ :=
              closeNode_inv0 cols rows getCost start s c hInv hcop
            obtain ⟨hInv2, hcl2, _, _⟩ :=
              expand_inv cols rows goalC goalR getCost start c (closeNode c s) hInv1 hclcur
                (hInv.opn_g c hcop)
            apply ih _ hInv2
            have h1 : closedCount (cols * rows) (closeNode c s)
                = closedCount (cols * rows) s + 1 :=
              closedCount_close (cols * rows) s c hcN (hInv.disj c hcop)
            have h2 := closedCount_congr (cols * rows) (closeNode c s) _ hcl2
            omega

/-- With an in-bounds goal, `cols·rows` iterations suffice: the goal is
closed only in the iteration that returns, so at most `cols·rows − 1`
other nodes ever get closed. -/
theorem loop_fuel_goal (cols rows : ℕ) (goal : ℕ) (goalC goalR : ℤ)
    (getCost : ℤ → ℤ → WithTop ℚ) (start : ℕ) (hgN : goal < cols * rows) :
    ∀ fuel s, Inv0 cols rows getCost start s → s.closed goal = false →
    cols * rows ≤ fuel + closedCount (cols * rows) s →
    ∃ s', loopA cols rows goal goalC goalR getCost fuel s = some s' := by
  intro fuel
  induction fuel with
  | zero =>
      intro s _ hgoal hcount
      exfalso
      have := closedCount_lt (cols * rows) s goal hgN hgoal
      omega
  | succ fuel ih =>
      intro s hInv hgoal hcount
      simp only [loopA]
      split
      · exact ⟨s, rfl⟩
      · next hcur =>
        rcases scanMin_spec (cols * rows) s with hm | ⟨c, hcN, hceq, hcop⟩
        · exact absurd (by rw [hm]; norm_num) hcur
        · have hct : (scanMin (cols * rows) s).toNat = c := by
            rw [hceq]; exact Int.toNat_natCast c
          rw [hct]
          split
          · exact ⟨_, rfl⟩
          · next hne =>
            obtain ⟨hInv1, _, hclcur, hclother⟩ :=
              closeNode_inv0 cols rows getCost start s c hInv hcop
            obtain ⟨hInv2, hcl2, _, _⟩ :=
              expand_inv cols rows goalC goalR getCost start c (closeNode c s) hInv1 hclcur
                (hInv.opn_g c hcop)
            apply ih _ hInv2
            · rw [hcl2]
              rw [hclother goal (fun h => hne (h ▸ rfl))]
              exact hgoal
            · have h1 : closedCount (cols * rows) (closeNode c s)
                  = closedCount (cols * rows) s + 1 :=
                closedCount_close (cols * rows) s c hcN (hInv.disj c hcop)
              have h2 := closedCount_congr (cols * rows) (closeNode c s) _ hcl2
              omega

/-- Whenever the loop returns, it has either exhausted the open set
without closing the goal, or closed the goal with a complete predecessor
chain back to the start. -/
theorem loop_cases (cols rows : ℕ) (goal : ℕ) (goalC goalR : ℤ)
    (getCost : ℤ → ℤ → WithTop ℚ) (start : ℕ) (hsg : start ≠ goal) :
    ∀ fuel s s', Inv0 cols rows getCost start s → Frontier cols rows getCost s →
    s.closed goal = false →
    loopA cols rows goal goalC goalR getCost fuel s = some s' →
    (((∀ i, s'.opn i = false) ∧ Inv0 cols rows getCost start s' ∧
        Frontier cols rows getCost s' ∧ s'.closed goal = false) ∨
      (s'.closed goal = true ∧
        ∃ l, Came (validStep cols rows getCost) s'.came start goal l ∧
          (∀ j ∈ l, s'.closed j = true) ∧ l.Nodup)) := by
  intro fuel
  induction fuel with
  | zero =>
      intro s s' _ _ _ hloop
      simp [loopA] at hloop
  | succ fuel ih =>
      intro s s' hInv hFr hgoal hloop
      simp only [loopA] at hloop
      split at hloop
      · next hcur =>
        injection hloop with hinj
        subst hinj
        left
        have hempty : ∀ i, s.opn i = false := by
          intro i
          cases hoi : s.opn i
          · rfl
          · exfalso
            have hne := scanMin_ne (cols * rows) s i (hInv.opn_lt i hoi) hoi (hInv.opn_f i hoi)
            rcases scanMin_spec (cols * rows) s with hm | ⟨c, _, hceq, _⟩
            · exact hne hm
            · rw [hceq] at hcur
              exact absurd hcur (by omega)
        exact ⟨hempty, hInv, hFr, hgoal⟩
      · next hcur =>
        rcases scanMin_spec (cols * rows) s with hm | ⟨c, hcN, hceq, hcop⟩
        · exact absurd (by rw [hm]; norm_num) hcur
        · have hct : (scanMin (cols * rows) s).toNat = c := by
            rw [hceq]; exact Int.toNat_natCast c
          rw [hct] at hloop
          split at hloop
          · next hcg =>
            injection hloop with hinj
            subst hinj
            subst hcg
            right
            have hgs : c ≠ start := Ne.symm hsg
            obtain ⟨p, hp1, hp2, hp3⟩ := hInv.came_opn c hcop hgs
            obtain ⟨lp, hlp, hlpc, hlpn⟩ := hInv.chains p hp2
            refine ⟨Function.update_same _ _ _, c :: lp,
              Came.cons c p lp hgs hp1 hp3 hlp, ?_, ?_⟩
            · intro j hj
              rcases List.mem_cons.mp hj with rfl | hj
              · exact Function.update_same _ _ _
              · dsimp only [closeNode]
                rcases eq_or_ne j c with rfl | hjc
                · exact Function.update_same _ _ _
                · rw [Function.update_noteq hjc]
                  exact hlpc j hj
            · refine List.nodup_cons.mpr ⟨?_, hlpn⟩
              intro hmem
              have := hlpc c hmem
              rw [hgoal] at this
              simp at this
          · next hcg =>
            obtain ⟨hInv1, hseen1, hclcur, hclother⟩ :=
              closeNode_inv0 cols rows getCost start s c hInv hcop
            obtain ⟨hInv2, hcl2, hmono2, hfront2⟩ :=
              expand_inv cols rows goalC goalR getCost start c (closeNode c s) hInv1 hclcur
                (hInv.opn_g c hcop)
            have hFr2 : Frontier cols rows getCost
                (expand cols rows goalC goalR getCost c (closeNode c s)) := by
              intro p hp i hstep
              rcases eq_or_ne p c with rfl | hpc
              · exact hfront2 i hstep
              · rw [hcl2, hclother p hpc] at hp
                rcases hFr p hp i hstep with h | h
                · rcases hseen1 i (Or.inl h) with h' | h'
                  · exact Or.inl (hmono2 i h')
                  · right
                    rw [hcl2]
                    exact h'
                · right
                  rw [hcl2]
                  dsimp only [closeNode]
                  rcases eq_or_ne i c with rfl | hic
                  · exact Function.update_same _ _ _
                  · rw [Function.update_noteq hic]
                    exact h
            have hgoal2 : (expand cols rows goalC goalR getCost c (closeNode c s)).closed goal
                = false := by
              rw [hcl2, hclother goal (fun h => hcg (h ▸ rfl))]
              exact hgoal
            exact ih _ s' hInv2 hFr2 hgoal2 hloop

/-- 4-adjacency of cells, as in the spec: consecutive cells differ by one
step along exactly one axis. -/
def adjacentCell (a b : ℤ × ℤ) : Prop := |b.1 - a.1| + |b.2 - a.2| = 1

/-- One step of a finite-cost path in the sense of claim C2: onto a
4-adjacent in-bounds cell whose cost is not `Infinity`. -/
def cellStep (cols rows : ℕ) (getCost : ℤ → ℤ → WithTop ℚ) (a b : ℤ × ℤ) : Prop :=
  adjacentCell a b ∧ inBoundsB b.1 b.2 cols rows = true ∧ getCost b.1 b.2 ≠ ⊤

/-- "A path of finite-cost steps exists from `a` to `b`" (claim C2). -/
def PathExists (cols rows : ℕ) (getCost : ℤ → ℤ → WithTop ℚ) (a b : ℤ × ℤ) : Prop :=
  ∃ l : List (ℤ × ℤ), l ≠ [] ∧ List.Chain (cellStep cols rows getCost) a l ∧
    l.getLast? = some b

/-- Same notion on flat indices, used internally. -/
def FlatPath (cols rows : ℕ) (getCost : ℤ → ℤ → WithTop ℚ) (start goal : ℕ) : Prop :=
  ∃ l : List ℕ, l ≠ [] ∧ List.Chain (validStep cols rows getCost) start l ∧
    l.getLast? = some goal

theorem offsets_iff (d : ℤ × ℤ) : d ∈ neighborOffsets ↔ |d.1| + |d.2| = 1 := by
  constructor
  · intro hd
    simp only [neighborOffsets, List.mem_cons, List.not_mem_nil, or_false] at hd
    rcases hd with rfl | rfl | rfl | rfl <;> decide
  · intro h
    obtain ⟨dx, dy⟩ := d
    dsimp only at h
    simp only [neighborOffsets, List.mem_cons, List.not_mem_nil, or_false, Prod.mk.injEq]
    rcases abs_cases dx with ⟨h1, h1'⟩ | ⟨h1, h1'⟩ <;>
      rcases abs_cases dy with ⟨h2, h2'⟩ | ⟨h2, h2'⟩ <;> omega

theorem validStep_cellStep (cols rows : ℕ) (getCost : ℤ → ℤ → WithTop ℚ) (p i : ℕ)
    (h : validStep cols rows getCost p i) :
    cellStep cols rows getCost (cellOf cols p) (cellOf cols i) := by
  obtain ⟨d, hd, hb, rfl, hc⟩ := h
  rw [cellOf_enc cols rows _ _ hb]
  refine ⟨?_, hb, hc⟩
  have habs := (offsets_iff d).mp hd
  unfold adjacentCell
  have e1 : (cellOf cols p).1 + d.1 - (cellOf cols p).1 = d.1 := by ring
  have e2 : (cellOf cols p).2 + d.2 - (cellOf cols p).2 = d.2 := by ring
  rw [e1, e2]
  exact habs

theorem validStep_target (cols rows : ℕ) (getCost : ℤ → ℤ → WithTop ℚ) (p i : ℕ)
    (h : validStep cols rows getCost p i) :
    inBoundsB (cellOf cols i).1 (cellOf cols i).2 cols rows = true ∧
    getCost (cellOf cols i).1 (cellOf cols i).2 ≠ ⊤ ∧ i < cols * rows := by
  obtain ⟨d, hd, hb, rfl, hc⟩ := h
  rw [cellOf_enc cols rows _ _ hb]
  exact ⟨hb, hc, (enc_spec cols rows _ _ hb).2⟩

theorem cellStep_validStep (cols rows : ℕ) (getCost : ℤ → ℤ → WithTop ℚ) (a b : ℤ × ℤ)
    (ha : inBoundsB a.1 a.2 cols rows = true)
    (h : cellStep cols rows getCost a b) :
    validStep cols rows getCost (enc cols a.1 a.2) (enc cols b.1 b.2) := by
  obtain ⟨hadj, hbb, hc⟩ := h
  have hca := cellOf_enc cols rows a.1 a.2 ha
  have e1 : (cellOf cols (enc cols a.1 a.2)).1 + (b.1 - a.1) = b.1 := by
    rw [hca]; ring
  have e2 : (cellOf cols (enc cols a.1 a.2)).2 + (b.2 - a.2) = b.2 := by
    rw [hca]; ring
  refine ⟨(b.1 - a.1, b.2 - a.2), (offsets_iff _).mpr hadj, ?_, ?_, ?_⟩
  · rw [e1, e2]; exact hbb
  · rw [e1, e2]
  · rw [e1, e2]; exact hc

theorem chain_flat_to_cell (cols rows : ℕ) (getCost : ℤ → ℤ → WithTop ℚ) :
    ∀ (l : List ℕ) (a : ℕ), List.Chain (validStep cols rows getCost) a l →
    List.Chain (cellStep cols rows getCost) (cellOf cols a) (l.map (cellOf cols)) := by
  intro l
  induction l with
  | nil => intro a _; exact List.Chain.nil
  | cons b t ih =>
      intro a h
      rcases List.chain_cons.mp h with ⟨h1, h2⟩
      exact List.chain_cons.mpr ⟨validStep_cellStep cols rows getCost a b h1, ih b h2⟩

theorem chain_cell_to_flat (cols rows : ℕ) (getCost : ℤ → ℤ → WithTop ℚ) :
    ∀ (l : List (ℤ × ℤ)) (a : ℤ × ℤ), inBoundsB a.1 a.2 cols rows = true →
    List.Chain (cellStep cols rows getCost) a l →
    List.Chain (validStep cols rows getCost) (enc cols a.1 a.2)
      (l.map fun c => enc cols c.1 c.2) := by
  intro l
  induction l with
  | nil => intro a _ _; exact List.Chain.nil
  | cons b t ih =>
      intro a ha h
      rcases List.chain_cons.mp h with ⟨h1, h2⟩
      exact List.chain_cons.mpr ⟨cellStep_validStep cols rows getCost a b ha h1,
        ih b h1.2.1 h2⟩

theorem pathExists_iff_flat (cols rows : ℕ) (getCost : ℤ → ℤ → WithTop ℚ)
    (sc sr gc gr : ℤ) (hs : inBoundsB sc sr cols rows = true)
    (hg : inBoundsB gc gr cols rows = true) :
    PathExists cols rows getCost (sc, sr) (gc, gr) ↔
      FlatPath cols rows getCost (enc cols sc sr) (enc cols gc gr) := by
  constructor
  · rintro ⟨l, hne, hch, hlast⟩
    refine ⟨l.map fun c => enc cols c.1 c.2, by simpa using hne, ?_, ?_⟩
    · exact chain_cell_to_flat cols rows getCost l (sc, sr) hs hch
    · rw [List.getLast?_map, hlast]
      rfl
  · rintro ⟨l, hne, hch, hlast⟩
    refine ⟨l.map (cellOf cols), by simpa using hne, ?_, ?_⟩
    · have h := chain_flat_to_cell cols rows getCost l (enc cols sc sr) hch
      rwa [cellOf_enc cols rows sc sr hs] at h
    · rw [List.getLast?_map, hlast]
      simp [cellOf_enc cols rows gc gr hg]

/-- In a frontier-closed state with empty open set, everything reachable
from a closed node is closed. -/
theorem chain_closed (cols rows : ℕ) (getCost : ℤ → ℤ → WithTop ℚ) (s : St)
    (hFr : Frontier cols rows getCost s) (hempty : ∀ i, s.opn i = false) :
    ∀ (l : List ℕ) (a : ℕ), s.closed a = true →
    List.Chain (validStep cols rows getCost) a l → ∀ j ∈ l, s.closed j = true := by
  intro l
  induction l with
  | nil => intro a _ _ j hj; simp at hj
  | cons b t ih =>
      intro a ha h j hj
      rcases List.chain_cons.mp h with ⟨h1, h2⟩
      have hb : s.closed b = true := by
        rcases hFr a ha b h1 with h' | h'
        · rw [hempty b] at h'
          exact absurd h' (by simp)
        · exact h'
      rcases List.mem_cons.mp hj with rfl | hj
      · exact hb
      · exact ih b hb h2 j hj

/-- When the loop drains the open set without closing the goal, no
finite-cost flat path from start to goal exists. -/
theorem fails_no_flat (cols rows : ℕ) (getCost : ℤ → ℤ → WithTop ℚ) (start goal : ℕ)
    (s : St) (hInv : Inv0 cols rows getCost start s)
    (hFr : Frontier cols rows getCost s) (hempty : ∀ i, s.opn i = false)
    (hgoal : s.closed goal = false) : ¬ FlatPath cols rows getCost start goal := by
  rintro ⟨l, hne, hch, hlast⟩
  have hstart : s.closed start = true := by
    rcases hInv.start_seen with h | h
    · rw [hempty start] at h
      exact absurd h (by simp)
    · exact h
  have hall := chain_closed cols rows getCost s hFr hempty l start hstart hch
  have hmem : goal ∈ l := List.mem_of_mem_getLast? hlast
  rw [hall goal hmem] at hgoal
  simp at hgoal

theorem closedCount_init (N start : ℕ) (h0 : ℚ) : closedCount N (initSt start h0) = 0 := by
  simp [closedCount, initSt]

theorem nodup_length_le (l : List ℕ) (N : ℕ) (hn : l.Nodup) (hb : ∀ j ∈ l, j < N) :
    l.length ≤ N := by
  have hsub : l.toFinset ⊆ Finset.range N := by
    intro j hj
    exact Finset.mem_range.mpr (hb j (List.mem_toFinset.mp hj))
  have hcard := Finset.card_le_card hsub
  rw [List.toFinset_card_of_nodup hn] at hcard
  simpa using hcard

end AStar

/-- Unfolding `aStar` past the start≠goal check when the loop returns a
final state. -/
theorem aStar_eq_of_loop (cols rows : ℕ) (startC startR goalC goalR : ℤ)
    (getCost : ℤ → ℤ → WithTop ℚ) (s : AStar.St)
    (hne : startR * (cols : ℤ) + startC ≠ goalR * (cols : ℤ) + goalC)
    (hloop : AStar.loopA cols rows ((goalR * (cols : ℤ) + goalC).toNat) goalC goalR getCost
      (cols * rows + 1) (AStar.initSt ((startR * (cols : ℤ) + startC).toNat)
        (heuristic startC startR goalC goalR)) = some s) :
    aStar startC startR goalC goalR cols rows getCost =
      (if s.came ((goalR * (cols : ℤ) + goalC).toNat) = -1 then []
       else ((AStar.recon ((startR * (cols : ℤ) + startC).toNat) s.came (cols * rows + 1)
         ((((goalR * (cols : ℤ) + goalC).toNat : ℕ)) : ℤ)).reverse).map (AStar.cellOf cols)) := by
  simp only [aStar]
  rw [if_neg hne, hloop]

/-- C2: for every grid size, in-bounds start and goal cells, and cost
function, `aStar` returns `[]` iff the start equals the goal or no path of
finite-cost steps exists; every returned cell is distinct from the start,
in bounds, and of finite cost; a non-empty result ends exactly at the goal;
and consecutive cells (from the start on) are 4-adjacent. -/
theorem c2_astar_path_contract (cols rows : ℕ) (startC startR goalC goalR : ℤ)
    (getCost : ℤ → ℤ → WithTop ℚ)
    (hs : inBoundsB startC startR cols rows = true)
    (hg : inBoundsB goalC goalR cols rows = true) :
    (aStar startC startR goalC goalR cols rows getCost = [] ↔
      ((startC, startR) = (goalC, goalR) ∨
        ¬ AStar.PathExists cols rows getCost (startC, startR) (goalC, goalR))) ∧
    (∀ p ∈ aStar startC startR goalC goalR cols rows getCost,
      (startC, startR) ≠ p ∧ inBoundsB p.1 p.2 cols rows = true ∧ getCost p.1 p.2 ≠ ⊤) ∧
    (aStar startC startR goalC goalR cols rows getCost ≠ [] →
      (aStar startC startR goalC goalR cols rows getCost).getLast? = some (goalC, goalR)) ∧
    List.Chain AStar.adjacentCell (startC, startR)
      (aStar startC startR goalC goalR cols rows getCost) := by
  by_cases heq : (startC, startR) = (goalC, goalR)
  · have h1 : startC = goalC := congrArg Prod.fst heq
    have h2 : startR = goalR := congrArg Prod.snd heq
    have hA : aStar startC startR goalC goalR cols rows getCost = [] := by
      simp only [aStar]
      rw [if_pos (show startR * (cols : ℤ) + startC = goalR * (cols : ℤ) + goalC by
        simp only [h1, h2])]
    rw [hA]
    exact ⟨⟨fun _ => Or.inl heq, fun _ => rfl⟩, by simp, fun h => absurd rfl h, List.Chain.nil⟩
  · have hsflat := AStar.cellOf_enc cols rows startC startR hs
    have hgflat := AStar.cellOf_enc cols rows goalC goalR hg
    have hint : startR * (cols : ℤ) + startC ≠ goalR * (cols : ℤ) + goalC := by
      intro hcon
      apply heq
      have he : AStar.enc cols startC startR = AStar.enc cols goalC goalR := by
        unfold AStar.enc
        rw [hcon]
      calc (startC, startR) = AStar.cellOf cols (AStar.enc cols startC startR) := hsflat.symm
        _ = AStar.cellOf cols (AStar.enc cols goalC goalR) := by rw [he]
        _ = (goalC, goalR) := hgflat
    have hsg : AStar.enc cols startC startR ≠ AStar.enc cols goalC goalR := by
      intro hcon
      apply heq
      calc (startC, startR) = AStar.cellOf cols (AStar.enc cols startC startR) := hsflat.symm
        _ = AStar.cellOf cols (AStar.enc cols goalC goalR) := by rw [hcon]
        _ = (goalC, goalR) := hgflat
    have hsN := (AStar.enc_spec cols rows startC startR hs).2
    have hInv0 := AStar.initSt_inv0 cols rows getCost (AStar.enc cols startC startR)
      (heuristic startC startR goalC goalR) hsN
    have hFr0 := AStar.initSt_frontier cols rows getCost (AStar.enc cols startC startR)
      (heuristic startC startR goalC goalR)
    obtain ⟨s', hs'⟩ := AStar.loop_fuel cols rows (AStar.enc cols goalC goalR) goalC goalR
      getCost (AStar.enc cols startC startR) (cols * rows + 1) _ hInv0
      (by rw [AStar.closedCount_init])
    have hres := aStar_eq_of_loop cols rows startC startR goalC goalR getCost s' hint hs'
    rcases AStar.loop_cases cols rows (AStar.enc cols goalC goalR) goalC goalR getCost
      (AStar.enc cols startC startR) hsg (cols * rows + 1) _ s' hInv0 hFr0 rfl hs' with
      ⟨hempty, hInv', hFr', hgoal'⟩ | ⟨hclg, l, hchain, hlc, hln⟩
    · have hcame : s'.came (AStar.enc cols goalC goalR) = -1 :=
        hInv'.came_unseen _ (hempty _) hgoal'
      have hcame_raw : s'.came ((goalR * (cols : ℤ) + goalC).toNat) = -1 := hcame
      have hA : aStar startC startR goalC goalR cols rows getCost = [] := by
        rw [hres, if_pos hcame_raw]
      rw [hA]
      refine ⟨⟨fun _ => ?_, fun _ => rfl⟩, by simp, fun h => absurd rfl h, List.Chain.nil⟩
      right
      intro hPE
      have hFlat := (AStar.pathExists_iff_flat cols rows getCost startC startR goalC goalR
        hs hg).mp hPE
      exact AStar.fails_no_flat cols rows getCost _ _ s' hInv' hFr' hempty hgoal' hFlat
    · obtain ⟨p, rest, hleq, hcgoal⟩ := hchain.head (Ne.symm hsg)
      subst hleq
      have hbound : ∀ j ∈ AStar.enc cols goalC goalR :: rest, j < cols * rows := by
        intro j hj
        obtain ⟨_, q, hq⟩ := hchain.members j hj
        exact (AStar.validStep_target cols rows getCost q j hq).2.2
      have hlen : (AStar.enc cols goalC goalR :: rest).length ≤ cols * rows :=
        AStar.nodup_length_le _ _ hln hbound
      have hrecon := AStar.recon_eq hchain (cols * rows + 1) (by omega)
      have hcame_ne : s'.came ((goalR * (cols : ℤ) + goalC).toNat) ≠ -1 := by
        have hcg2 : s'.came ((goalR * (cols : ℤ) + goalC).toNat) = ((p : ℕ) : ℤ) := hcgoal
        rw [hcg2]
        omega
      have hrecon_raw : AStar.recon ((startR * (cols : ℤ) + startC).toNat) s'.came
          (cols * rows + 1) ((((goalR * (cols : ℤ) + goalC).toNat : ℕ)) : ℤ)
          = AStar.enc cols goalC goalR :: rest := hrecon
      have hA : aStar startC startR goalC goalR cols rows getCost =
          ((AStar.enc cols goalC goalR :: rest).reverse).map (AStar.cellOf cols) := by
        rw [hres, if_neg hcame_ne, hrecon_raw]
      have hmem : ∀ q ∈ aStar startC startR goalC goalR cols rows getCost,
          (startC, startR) ≠ q ∧ inBoundsB q.1 q.2 cols rows = true ∧ getCost q.1 q.2 ≠ ⊤ := by
        rw [hA]
        intro q hq
        simp only [List.mem_map, List.mem_reverse] at hq
        obtain ⟨j, hj, rfl⟩ := hq
        obtain ⟨hjs, pq, hpq⟩ := hchain.members j hj
        obtain ⟨hb, hc, _⟩ := AStar.validStep_target cols rows getCost pq j hpq
        refine ⟨?_, hb, hc⟩
        intro hcon
        apply hjs
        have hval := congrArg (fun z : ℤ × ℤ => AStar.enc cols z.1 z.2) hcon
        dsimp only at hval
        rw [AStar.enc_cellOf cols j] at hval
        exact hval.symm
      have hlast : (aStar startC startR goalC goalR cols rows getCost).getLast?
          = some (goalC, goalR) := by
        rw [hA, List.getLast?_map, List.getLast?_reverse]
        show some (AStar.cellOf cols (AStar.enc cols goalC goalR)) = some (goalC, goalR)
        rw [hgflat]
      have hchainres : List.Chain AStar.adjacentCell (startC, startR)
          (aStar startC startR goalC goalR cols rows getCost) := by
        rw [hA]
        have h1 := (hchain.toChain).1
        have h2 := AStar.chain_flat_to_cell cols rows getCost _ _ h1
        rw [hsflat] at h2
        exact h2.imp (fun a b hab => hab.1)
      have hne_nil : aStar startC startR goalC goalR cols rows getCost ≠ [] := by
        rw [hA]
        simp
      refine ⟨⟨fun hcon => absurd hcon hne_nil, fun hcon => ?_⟩, hmem, fun _ => hlast, hchainres⟩
      rcases hcon with hcon | hcon
      · exact absurd hcon heq
      · exfalso
        apply hcon
        refine (AStar.pathExists_iff_flat cols rows getCost startC startR goalC goalR
          hs hg).mpr ?_
        refine ⟨(AStar.enc cols goalC goalR :: rest).reverse, by simp, (hchain.toChain).1, ?_⟩
        rw [List.getLast?_reverse]
        rfl

/-- Witness for C2 at a concrete 2×1 grid with unit costs: start `(0,0)`,
goal `(1,0)`; the returned path is `[(1,0)]`, which indeed ends at the
goal. -/
theorem c2_astar_path_contract_witness :
    inBoundsB 0 0 2 1 = true ∧ inBoundsB 1 0 2 1 = true ∧
    aStar 0 0 1 0 2 1 (fun _ _ => ((1 : ℚ) : WithTop ℚ)) = [(1, 0)] ∧
    (aStar 0 0 1 0 2 1 (fun _ _ => ((1 : ℚ) : WithTop ℚ)) ≠ [] →
      (aStar 0 0 1 0 2 1 (fun _ _ => ((1 : ℚ) : WithTop ℚ))).getLast? = some (1, 0)) :=
  ⟨by decide, by decide, by with_unfolding_all decide,
    (c2_astar_path_contract 2 1 0 0 1 0 (fun _ _ => ((1 : ℚ) : WithTop ℚ))
      (by decide) (by decide)).2.2.1⟩

/-- C8: the A* main loop terminates within `cols·rows` iterations for
every grid size, in-bounds start and goal cells, and cost function — with
fuel `cols·rows` the fuelled loop always returns a final state (each
iteration either returns or moves one open node to the closed set, closed
nodes are never reopened, and the goal is closed only by the returning
iteration). -/
theorem c8_astar_termination (cols rows : ℕ) (startC startR goalC goalR : ℤ)
    (getCost : ℤ → ℤ → WithTop ℚ)
    (hs : inBoundsB startC startR cols rows = true)
    (hg : inBoundsB goalC goalR cols rows = true) :
    ∃ s', AStar.loopA cols rows (AStar.enc cols goalC goalR) goalC goalR getCost
      (cols * rows)
      (AStar.initSt (AStar.enc cols startC startR) (heuristic startC startR goalC goalR))
      = some s' := by
  have hsN := (AStar.enc_spec cols rows startC startR hs).2
  have hgN := (AStar.enc_spec cols rows goalC goalR hg).2
  have hInv0 := AStar.initSt_inv0 cols rows getCost (AStar.enc cols startC startR)
    (heuristic startC startR goalC goalR) hsN
  exact AStar.loop_fuel_goal cols rows (AStar.enc cols goalC goalR) goalC goalR getCost
    (AStar.enc cols startC startR) hgN (cols * rows) _ hInv0 rfl
    (by rw [AStar.closedCount_init]; omega)

/-- Witness for C8: the loop on the 2×1 grid from `(0,0)` to `(1,0)` with
unit costs returns within `2·1 = 2` iterations. -/
theorem c8_astar_termination_witness :
    inBoundsB 0 0 2 1 = true ∧ inBoundsB 1 0 2 1 = true ∧
    ∃ s', AStar.loopA 2 1 (AStar.enc 2 1 0) 1 0 (fun _ _ => ((1 : ℚ) : WithTop ℚ)) (2 * 1)
      (AStar.initSt (AStar.enc 2 0 0) (heuristic 0 0 1 0)) = some s' :=
  ⟨by decide, by decide,
    c8_astar_termination 2 1 0 0 1 0 (fun _ _ => ((1 : ℚ) : WithTop ℚ))
      (by decide) (by decide)⟩

/-! ## The Q-learning agent (qlearning.js `QLearningAgent`) -/

/-- `this.numActions = 5` (left, right, up, down, stop). -/
def numActions : ℕ := 5

/-- Training statistics.  `bestReward` starts at `-Infinity` (`⊥`). -/
structure AgentStats where
  episodes : ℕ
  totalReward : ℚ
  avgReward : ℚ
  bestReward : WithBot ℚ
  recentRewards : List ℚ
  deriving DecidableEq

/-- Agent state.  The Q-table (a JS `Map` from state strings to
`Float32Array`s of length `numActions`) is an insertion-ordered association
list. -/
structure Agent where
  lr : ℚ
  gamma : ℚ
  epsilon : ℚ
  epsilonDecay : ℚ
  epsilonMin : ℚ
  bins : ℚ
  qTable : List (String × List ℚ)
  stats : AgentStats
  deriving DecidableEq

namespace Agent

/-- The agent produced by `new QLearningAgent({})` (all defaults). -/
def mk0 : Agent :=
  { lr := 2/10, gamma := 9/10, epsilon := 1, epsilonDecay := 998/1000,
    epsilonMin := 5/100, bins := 10, qTable := [],
    stats := { episodes := 0, totalReward := 0, avgReward := 0,
               bestReward := ⊥, recentRewards := [] } }

end Agent

/-- JS `Map.get` on the association list. -/
def mapGet (t : List (String × List ℚ)) (k : String) : Option (List ℚ) :=
  match t with
  | [] => none
  | p :: rest => if p.1 = k then some p.2 else mapGet rest k

/-- JS `Map.has`. -/
def mapHas (t : List (String × List ℚ)) (k : String) : Bool :=
  (mapGet t k).isSome

/-- JS `Map.set`: replace in place (preserving insertion order) or append. -/
def mapSet (t : List (String × List ℚ)) (k : String) (v : List ℚ) :
    List (String × List ℚ) :=
  match t with
  | [] => [(k, v)]
  | p :: rest => if p.1 = k then (k, v) :: rest else p :: mapSet rest k v

/-- The observation record consumed by the agent (the game's `getState()`
shape; the four crumb flags are the 0/1 numbers the game supplies). -/
structure AgentObs where
  playerX : ℚ
  playerY : ℚ
  dirToHoleX : ℚ
  dirToHoleY : ℚ
  distToHole : ℚ
  distToCat : ℚ
  dirToCatX : ℚ
  dirToCatY : ℚ
  crumbUp : ℕ
  crumbDown : ℕ
  crumbLeft : ℕ
  crumbRight : ℕ
  movingX : ℚ
  movingY : ℚ
  deriving DecidableEq

namespace Agent

/-- `dirToOctant(dx, dy)`: `Math.round((Math.atan2(dy, dx) + π) / (π/4)) % 8`,
computed exactly.  `atan2` partitions rational direction vectors into eight
half-open sectors whose boundaries lie at odd multiples of `π/8` (slopes
`±(√2−1)` and `±(√2+1)`); the sign tests and squared comparisons below decide
the same partition in rational arithmetic (a boundary slope is never attained
by a nonzero rational vector, and the axis and diagonal directions are sector
centres).  Octant 0 is centred on angle `±π` (direction `(−1, 0)`), octant 4
on angle `0`; `atan2(0, 0) = 0` yields octant 4. -/
def dirToOctant (dx dy : ℚ) : ℕ :=
  if dx = 0 ∧ dy = 0 then 4
  else if (|dy| + |dx|)^2 < 2 * dx^2 then      -- within π/8 of the x-axis
    (if 0 < dx then 4 else 0)
  else if (|dx| + |dy|)^2 < 2 * dy^2 then      -- within π/8 of the y-axis
    (if 0 < dy then 6 else 2)
  else if 0 < dx then (if 0 < dy then 5 else 3)
  else (if 0 < dy then 7 else 1)

/-- `distToDanger(dist)`: 0 = danger, 1 = caution, 2 = safe. -/
def distToDanger (dist : ℚ) : ℕ :=
  if dist < 8/100 then 0 else if dist < 2/10 then 1 else 2

/-- `stateToKey(state)`: the string `` `${holeDir},${catDanger},${catDir},${crumbMask}` ``. -/
def stateToKey (s : AgentObs) : String :=
  let holeDir := dirToOctant s.dirToHoleX s.dirToHoleY
  let catDanger := distToDanger s.distToCat
  let catDir := if catDanger < 2 then dirToOctant s.dirToCatX s.dirToCatY else 0
  let crumbMask := Nat.lor (Nat.lor (Nat.lor (s.crumbUp <<< 3) (s.crumbDown <<< 2))
    (s.crumbLeft <<< 1)) s.crumbRight
  toString holeDir ++ "," ++ toString catDanger ++ ","
    ++ toString catDir ++ "," ++ toString crumbMask

/-- `n` sequential `Math.random()` draws. -/
def drawN : ℕ → List ℚ → List ℚ × List ℚ
  | 0, rng => ([], rng)
  | n+1, rng =>
    let (v, rng1) := draw rng
    let (vs, rng2) := drawN n rng1
    (v :: vs, rng2)

/-- `getQ(key)`: return the stored vector, lazily initializing a fresh one
with noise `Math.random() * 0.01` per entry.  Returns (agent, vector, rng). -/
def getQ (a : Agent) (key : String) (rng : List ℚ) :
    Agent × List ℚ × List ℚ :=
  match mapGet a.qTable key with
  | some q => (a, q, rng)
  | none =>
    let (vs, rng') := drawN numActions rng
    let q := vs.map (fun v => v * (1/100))
    ({ a with qTable := mapSet a.qTable key q }, q, rng')

/-- `Math.max(...q)` for a nonempty vector (the empty case never occurs for
the length-5 vectors `getQ` produces). -/
def listMax : List ℚ → ℚ
  | [] => 0
  | h :: t => t.foldl max h

/-- `update(state, action, reward, nextState, done)`: the temporal-difference
update.  `q[action] += lr * (target - q[action])` mutates the array object
held by the map, modelled by writing the updated vector back at `key`. -/
def update (a : Agent) (s : AgentObs) (action : ℕ) (reward : ℚ)
    (ns : AgentObs) (done : Bool) (rng : List ℚ) : Agent × List ℚ :=
  let key := stateToKey s
  let r1 := getQ a key rng
  let a1 := r1.1
  let q := r1.2.1
  let r2 :=
    if done then (a1, reward, r1.2.2)
    else
      let r := getQ a1 (stateToKey ns) r1.2.2
      (r.1, reward + a.gamma * listMax r.2.1, r.2.2)
  let newq := q.set action (q.getD action 0 + a.lr * (r2.2.1 - q.getD action 0))
  ({ r2.1 with qTable := mapSet r2.1.qTable key newq }, r2.2.2)

/-- `decayEpsilon()`. -/
def decayEpsilon (a : Agent) : Agent :=
  if a.epsilonMin < a.epsilon then
    (if a.epsilon * a.epsilonDecay < a.epsilonMin then
      { a with epsilon := a.epsilonMin }
    else { a with epsilon := a.epsilon * a.epsilonDecay })
  else a

/-- `recordEpisode(totalReward)`: statistics bookkeeping, then epsilon decay. -/
def recordEpisode (a : Agent) (totalReward : ℚ) : Agent :=
  let episodes := a.stats.episodes + 1
  let total := a.stats.totalReward + totalReward
  let pushed := a.stats.recentRewards ++ [totalReward]
  let recent := if 100 < pushed.length then pushed.tail else pushed
  let best := if a.stats.bestReward < (totalReward : WithBot ℚ)
    then (totalReward : WithBot ℚ) else a.stats.bestReward
  decayEpsilon
    { a with stats :=
        { episodes := episodes, totalReward := total,
          avgReward := total / (episodes : ℚ), bestReward := best,
          recentRewards := recent } }

end Agent

/-! ### Serialized-agent import (qlearning.js `importQTable`,
training.js `TrainingManager.load`) -/

/-- A value stored under a key of a serialized `qTable`: either an array of
numbers (the well-formed export shape) or a bare JSON number, which
`new Float32Array(n)` interprets as a length (throwing `RangeError` when the
truncation is negative). -/
inductive JEntry where
  | arr (vs : List ℚ)
  | num (q : ℚ)
  deriving DecidableEq

/-- A parsed payload (outcome of `JSON.parse`): each hyperparameter may be
missing (`undefined`, so `??` falls back to the current value); `stats` and
`qTable` may be missing. -/
structure Payload where
  lr? : Option ℚ
  gamma? : Option ℚ
  epsilon? : Option ℚ
  epsilonDecay? : Option ℚ
  epsilonMin? : Option ℚ
  bins? : Option ℚ
  stats? : Option AgentStats
  qTable? : Option (List (String × JEntry))
  deriving DecidableEq

/-- `new Float32Array(values)`: an array argument is converted element-wise;
a number argument is a length (negative truncation throws `RangeError`). -/
def float32FromEntry : JEntry → Except Unit (List ℚ)
  | .arr vs => .ok vs
  | .num q => if jsTrunc q < 0 then .error () else .ok (List.replicate (jsTrunc q).toNat 0)

namespace Agent

/-- The entry loop of `importQTable`: table entries are inserted one at a
time; a throwing `Float32Array` construction aborts mid-loop, leaving the
partially rebuilt agent (`Except.error` carries the state at the throw). -/
def importEntries : Agent → List (String × JEntry) → Except Agent Agent
  | acc, [] => .ok acc
  | acc, (k, e) :: rest =>
    match float32FromEntry e with
    | .error _ => .error acc
    | .ok vs => importEntries { acc with qTable := mapSet acc.qTable k vs } rest

/-- `importQTable(data)`: overwrite hyperparameters (with `??` fallback),
replace stats if present, clear the table, then re-insert every entry.
`Except.error` models an exception thrown mid-import (the mutations already
performed are kept, as in the source). -/
def importQTable (a : Agent) (data : Payload) : Except Agent Agent :=
  let a1 : Agent :=
    { a with lr := data.lr?.getD a.lr, gamma := data.gamma?.getD a.gamma,
             epsilon := data.epsilon?.getD a.epsilon,
             epsilonDecay := data.epsilonDecay?.getD a.epsilonDecay,
             epsilonMin := data.epsilonMin?.getD a.epsilonMin,
             bins := data.bins?.getD a.bins }
  let a2 : Agent :=
    match data.stats? with
    | some st => { a1 with stats := st }
    | none => a1
  let a3 : Agent := { a2 with qTable := [] }
  match data.qTable? with
  | none => .ok a3
  | some entries => importEntries a3 entries

/-- `TrainingManager.load`: `parsed` is the outcome of `JSON.parse` on the
stored string (`none` = nothing stored, or the parse threw).  Any exception
out of `importQTable` is caught and reported as `false`. -/
def load (a : Agent) (parsed : Option Payload) : Bool × Agent :=
  match parsed with
  | none => (false, a)
  | some data =>
    match importQTable a data with
    | .ok a' => (true, a')
    | .error a' => (false, a')

end Agent

/-! ## The seeker (player.js `Player`)

Every quantity the player manipulates is rational, so the whole module lives
in `ℚ`.  The radius (`TILE * PLAYER_RADIUS_FACTOR`), the pixel speed
(`PLAYER_SPEED_CELLS * TILE`) and the turn tolerance (`getTurnEps()`) are
constants fixed by the configuration; `lastCell` and `color` are unused by
the core update and are omitted. -/

/-- `this.speed = Config.PLAYER_SPEED_CELLS * Config.TILE` (= 120 px/s). -/
def PLAYER_SPEED_PX : ℚ := PLAYER_SPEED_CELLS * TILE

/-- `this.r = Config.TILE * Config.PLAYER_RADIUS_FACTOR` (= 15.2 px). -/
def PLAYER_R : ℚ := TILE * PLAYER_RADIUS_FACTOR

structure Player where
  x : ℚ
  y : ℚ
  dirX : ℚ
  dirY : ℚ
  wishX : ℚ
  wishY : ℚ
  wishTimer : ℚ
  deriving DecidableEq

namespace Player

/-- `new Player({})` / `reset()`: spawn position, no movement. -/
def mk0 : Player :=
  { x := getPlayerSpawnX, y := getPlayerSpawnY,
    dirX := 0, dirY := 0, wishX := 0, wishY := 0, wishTimer := 0 }

/-- `setWish(dx, dy)`. -/
def setWish (p : Player) (dx dy : ℚ) : Player := { p with wishX := dx, wishY := dy }

/-- `stop()`. -/
def stop (p : Player) : Player :=
  { p with dirX := 0, dirY := 0, wishX := 0, wishY := 0 }

/-- `nearestColumnCenter(movingDirX)`. -/
def nearestColumnCenter (p : Player) (movingDirX : ℚ) : ℚ :=
  let c : ℤ := ⌊p.x / TILE⌋
  let cx0 := ((c : ℚ) + 1/2) * TILE
  if movingDirX ≠ 0 then
    (if |p.x - cx0| < |p.x - ((c : ℚ) + 1/2 + jsSign movingDirX) * TILE| then cx0
     else ((c : ℚ) + 1/2 + jsSign movingDirX) * TILE)
  else cx0

/-- `nearestRowCenter(movingDirY)`. -/
def nearestRowCenter (p : Player) (movingDirY : ℚ) : ℚ :=
  let r : ℤ := ⌊p.y / TILE⌋
  let cy0 := ((r : ℚ) + 1/2) * TILE
  if movingDirY ≠ 0 then
    (if |p.y - cy0| < |p.y - ((r : ℚ) + 1/2 + jsSign movingDirY) * TILE| then cy0
     else ((r : ℚ) + 1/2 + jsSign movingDirY) * TILE)
  else cy0

/-- `canTurnVertical()`. -/
def canTurnVertical (p : Player) : Bool :=
  if |p.x - ((⌊p.x / TILE⌋ : ℚ) + 1/2) * TILE| ≤ getTurnEps then true
  else if p.dirX ≠ 0 then
    decide (|p.x - ((⌊p.x / TILE⌋ : ℚ) + 1/2 + jsSign p.dirX) * TILE| ≤ getTurnEps)
  else false

/-- `canTurnHorizontal()`. -/
def canTurnHorizontal (p : Player) : Bool :=
  if |p.y - ((⌊p.y / TILE⌋ : ℚ) + 1/2) * TILE| ≤ getTurnEps then true
  else if p.dirY ≠ 0 then
    decide (|p.y - ((⌊p.y / TILE⌋ : ℚ) + 1/2 + jsSign p.dirY) * TILE| ≤ getTurnEps)
  else false

/-- Body of `processTurns` after the wish-timer bookkeeping (the source
mutates `wishTimer` first and the branches read the mutated value). -/
def processTurnsCore (p : Player) : Player :=
  if p.wishX = 0 ∧ p.wishY = 0 then p
  else if p.wishX = p.dirX ∧ p.wishY = p.dirY then p
  else if p.wishX = 0 ∧ p.wishY ≠ 0 then
    (if p.dirX = 0 ∧ p.dirY = 0 then
      { p with x := p.nearestColumnCenter 0, dirX := 0, dirY := jsSign p.wishY,
               wishTimer := 0 }
    else if p.canTurnVertical then
      { p with x := p.nearestColumnCenter p.dirX, dirX := 0, dirY := jsSign p.wishY,
               wishTimer := 0 }
    else if 1/4 < p.wishTimer then
      -- failsafe: force turn after 0.25 s
      { p with x := p.nearestColumnCenter p.dirX, dirX := 0, dirY := jsSign p.wishY,
               wishTimer := 0 }
    else p)
  else if p.wishY = 0 ∧ p.wishX ≠ 0 then
    (if p.dirX = 0 ∧ p.dirY = 0 then
      { p with y := p.nearestRowCenter 0, dirY := 0, dirX := jsSign p.wishX,
               wishTimer := 0 }
    else if p.canTurnHorizontal then
      { p with y := p.nearestRowCenter p.dirY, dirY := 0, dirX := jsSign p.wishX,
               wishTimer := 0 }
    else if 1/4 < p.wishTimer then
      { p with y := p.nearestRowCenter p.dirY, dirY := 0, dirX := jsSign p.wishX,
               wishTimer := 0 }
    else p)
  else p

/-- `processTurns(dt)`: accumulate the wish timer, then commit turns. -/
def processTurns (p : Player) (dt : ℚ) : Player :=
  processTurnsCore
    { p with wishTimer :=
        if p.wishX ≠ p.dirX ∨ p.wishY ≠ p.dirY then p.wishTimer + dt else 0 }

/-- `snapToGrid()`: snap the axis perpendicular to travel (both if still). -/
def snapToGrid (p : Player) : Player :=
  if p.dirX = 0 ∧ p.dirY = 0 then
    { p with x := ((⌊p.x / TILE⌋ : ℚ) + 1/2) * TILE,
             y := ((⌊p.y / TILE⌋ : ℚ) + 1/2) * TILE }
  else if p.dirX = 0 ∧ p.dirY ≠ 0 then
    { p with x := ((⌊p.x / TILE⌋ : ℚ) + 1/2) * TILE }
  else if p.dirY = 0 ∧ p.dirX ≠ 0 then
    { p with y := ((⌊p.y / TILE⌋ : ℚ) + 1/2) * TILE }
  else p

/-- `getCell()`. -/
def getCell (p : Player) : ℤ × ℤ := cellAt p.x p.y TILE

/-- `getMovementDelta(dt)`. -/
def getMovementDelta (p : Player) (dt : ℚ) : ℚ × ℚ :=
  (p.dirX * PLAYER_SPEED_PX * dt, p.dirY * PLAYER_SPEED_PX * dt)

end Player

/-! ### Turn-commitment lemmas (claim C6) -/

theorem floor_tile_bounds (x : ℚ) :
    TILE * (⌊x / TILE⌋ : ℚ) ≤ x ∧ x < TILE * ((⌊x / TILE⌋ : ℚ) + 1) := by
  have h20 : (0:ℚ) < TILE := by norm_num [TILE]
  constructor
  · calc TILE * (⌊x / TILE⌋ : ℚ) ≤ TILE * (x / TILE) :=
        mul_le_mul_of_nonneg_left (Int.floor_le (x / TILE)) h20.le
      _ = x := by field_simp
  · calc x = TILE * (x / TILE) := by field_simp
      _ < TILE * ((⌊x / TILE⌋ : ℚ) + 1) :=
        (mul_lt_mul_left h20).mpr (Int.lt_floor_add_one (x / TILE))

/-- The current column's centre is the nearest column centre. -/
theorem nearest_center (x : ℚ) (k : ℤ) :
    |x - ((⌊x / TILE⌋ : ℚ) + 1/2) * TILE| ≤ |x - ((k : ℚ) + 1/2) * TILE| := by
  obtain ⟨h1, h2⟩ := floor_tile_bounds x
  have hT : TILE = (20:ℚ) := by norm_num [TILE]
  rw [hT] at h1 h2 ⊢
  generalize hg : ⌊x / (20:ℚ)⌋ = c at h1 h2 ⊢
  have hL : |x - ((c : ℚ) + 1/2) * 20| ≤ 10 := by
    rw [abs_le]
    constructor <;> linarith
  rcases eq_or_ne k c with rfl | hk
  · exact le_refl _
  · have hR : 10 ≤ |x - ((k : ℚ) + 1/2) * 20| := by
      rcases lt_or_gt_of_ne hk with hlt | hgt
      · have hkc : (k : ℚ) ≤ (c : ℚ) - 1 := by exact_mod_cast Int.le_sub_one_of_lt hlt
        rw [abs_of_nonneg (by linarith)]
        linarith
      · have hkc : (c : ℚ) + 1 ≤ (k : ℚ) := by exact_mod_cast hgt
        rw [abs_of_nonpos (by linarith)]
        linarith
    exact le_trans hL hR

/-- Being farther than the tolerance from every column centre defeats
`canTurnVertical`. -/
theorem canTurnVertical_false (p : Player)
    (hfar : ∀ k : ℤ, getTurnEps < |p.x - ((k : ℚ) + 1/2) * TILE|) :
    p.canTurnVertical = false := by
  unfold Player.canTurnVertical
  rw [if_neg (not_le.mpr (hfar ⌊p.x / TILE⌋))]
  split
  · next hdx =>
    rcases lt_trichotomy p.dirX 0 with hs | hs | hs
    · have hσ : jsSign p.dirX = -1 := by unfold jsSign; rw [if_neg (by linarith), if_pos hs]
      rw [hσ]
      have : ((⌊p.x / TILE⌋ : ℚ) + 1/2 + (-1)) * TILE
          = (((⌊p.x / TILE⌋ - 1 : ℤ) : ℚ) + 1/2) * TILE := by push_cast; ring
      rw [this]
      exact decide_eq_false (not_le.mpr (hfar _))
    · exact absurd hs hdx
    · have hσ : jsSign p.dirX = 1 := by unfold jsSign; rw [if_pos hs]
      rw [hσ]
      have : ((⌊p.x / TILE⌋ : ℚ) + 1/2 + 1) * TILE
          = (((⌊p.x / TILE⌋ + 1 : ℤ) : ℚ) + 1/2) * TILE := by push_cast; ring
      rw [this]
      exact decide_eq_false (not_le.mpr (hfar _))
  · rfl

/-- Horizontal twin of `canTurnVertical_false`. -/
theorem canTurnHorizontal_false (p : Player)
    (hfar : ∀ k : ℤ, getTurnEps < |p.y - ((k : ℚ) + 1/2) * TILE|) :
    p.canTurnHorizontal = false := by
  unfold Player.canTurnHorizontal
  rw [if_neg (not_le.mpr (hfar ⌊p.y / TILE⌋))]
  split
  · next hdy =>
    rcases lt_trichotomy p.dirY 0 with hs | hs | hs
    · have hσ : jsSign p.dirY = -1 := by unfold jsSign; rw [if_neg (by linarith), if_pos hs]
      rw [hσ]
      have : ((⌊p.y / TILE⌋ : ℚ) + 1/2 + (-1)) * TILE
          = (((⌊p.y / TILE⌋ - 1 : ℤ) : ℚ) + 1/2) * TILE := by push_cast; ring
      rw [this]
      exact decide_eq_false (not_le.mpr (hfar _))
    · exact absurd hs hdy
    · have hσ : jsSign p.dirY = 1 := by unfold jsSign; rw [if_pos hs]
      rw [hσ]
      have : ((⌊p.y / TILE⌋ : ℚ) + 1/2 + 1) * TILE
          = (((⌊p.y / TILE⌋ + 1 : ℤ) : ℚ) + 1/2) * TILE := by push_cast; ring
      rw [this]
      exact decide_eq_false (not_le.mpr (hfar _))
  · rfl

theorem processTurns_eq_core (p : Player) (dt : ℚ)
    (h : p.wishX ≠ p.dirX ∨ p.wishY ≠ p.dirY) :
    p.processTurns dt
      = Player.processTurnsCore { p with wishTimer := p.wishTimer + dt } := by
  unfold Player.processTurns
  rw [if_pos h]

theorem nearestColumnCenter_zero (p : Player) :
    p.nearestColumnCenter 0 = ((⌊p.x / TILE⌋ : ℚ) + 1/2) * TILE := by
  unfold Player.nearestColumnCenter
  simp

theorem nearestRowCenter_zero (p : Player) :
    p.nearestRowCenter 0 = ((⌊p.y / TILE⌋ : ℚ) + 1/2) * TILE := by
  unfold Player.nearestRowCenter
  simp

/-- **C6** — Turn commitment.  (a)/(a′): a stationary seeker with a
single-axis wish commits on the next `processTurns` call and snaps the
perpendicular axis to the *nearest* cell centre.  (b)/(b′): a moving seeker
wishing a perpendicular turn, farther than the turn tolerance from every
centre on the axis being left, with the accumulated wish timer still within
the 0.25 s window, keeps its committed direction (the timer accumulates).
(c)/(c′): once the accumulated wish timer exceeds 0.25 s the turn
force-commits regardless of position. -/
theorem c6_turn_commitment (p : Player) (dt : ℚ) :
    (p.dirX = 0 → p.dirY = 0 → p.wishX = 0 → p.wishY ≠ 0 →
      (p.processTurns dt).dirX = 0 ∧ (p.processTurns dt).dirY = jsSign p.wishY ∧
      (p.processTurns dt).y = p.y ∧
      (∀ k : ℤ, |(p.processTurns dt).x - p.x| ≤ |((k : ℚ) + 1/2) * TILE - p.x|) ∧
      (p.processTurns dt).x = ((⌊p.x / TILE⌋ : ℚ) + 1/2) * TILE) ∧
    (p.dirX = 0 → p.dirY = 0 → p.wishY = 0 → p.wishX ≠ 0 →
      (p.processTurns dt).dirY = 0 ∧ (p.processTurns dt).dirX = jsSign p.wishX ∧
      (p.processTurns dt).x = p.x ∧
      (∀ k : ℤ, |(p.processTurns dt).y - p.y| ≤ |((k : ℚ) + 1/2) * TILE - p.y|) ∧
      (p.processTurns dt).y = ((⌊p.y / TILE⌋ : ℚ) + 1/2) * TILE) ∧
    (p.dirX ≠ 0 → p.dirY = 0 → p.wishX = 0 → p.wishY ≠ 0 →
      (∀ k : ℤ, getTurnEps < |p.x - ((k : ℚ) + 1/2) * TILE|) →
      p.wishTimer + dt ≤ 1/4 →
      (p.processTurns dt).dirX = p.dirX ∧ (p.processTurns dt).dirY = p.dirY ∧
      (p.processTurns dt).x = p.x ∧ (p.processTurns dt).y = p.y ∧
      (p.processTurns dt).wishTimer = p.wishTimer + dt) ∧
    (p.dirY ≠ 0 → p.dirX = 0 → p.wishY = 0 → p.wishX ≠ 0 →
      (∀ k : ℤ, getTurnEps < |p.y - ((k : ℚ) + 1/2) * TILE|) →
      p.wishTimer + dt ≤ 1/4 →
      (p.processTurns dt).dirX = p.dirX ∧ (p.processTurns dt).dirY = p.dirY ∧
      (p.processTurns dt).x = p.x ∧ (p.processTurns dt).y = p.y ∧
      (p.processTurns dt).wishTimer = p.wishTimer + dt) ∧
    (p.dirX ≠ 0 → p.dirY = 0 → p.wishX = 0 → p.wishY ≠ 0 → 1/4 < p.wishTimer + dt →
      (p.processTurns dt).dirX = 0 ∧ (p.processTurns dt).dirY = jsSign p.wishY) ∧
    (p.dirY ≠ 0 → p.dirX = 0 → p.wishY = 0 → p.wishX ≠ 0 → 1/4 < p.wishTimer + dt →
      (p.processTurns dt).dirY = 0 ∧ (p.processTurns dt).dirX = jsSign p.wishX) := by
  refine ⟨?_, ?_, ?_, ?_, ?_, ?_⟩
  · -- (a) stationary, vertical wish
    intro hdx hdy hwx hwy
    rw [processTurns_eq_core p dt (Or.inr (by rw [hdy]; exact hwy))]
    unfold Player.processTurnsCore
    dsimp only
    rw [if_neg (by exact fun h => hwy h.2), if_neg (by rw [hdy]; exact fun h => hwy h.2),
      if_pos ⟨hwx, hwy⟩, if_pos ⟨hdx, hdy⟩]
    rw [show Player.nearestColumnCenter { p with wishTimer := p.wishTimer + dt } 0
        = ((⌊p.x / TILE⌋ : ℚ) + 1/2) * TILE from nearestColumnCenter_zero _]
    refine ⟨rfl, rfl, rfl, fun k => ?_, rfl⟩
    dsimp only
    rw [abs_sub_comm _ p.x, abs_sub_comm _ p.x]
    exact nearest_center p.x k
  · -- (a′) stationary, horizontal wish
    intro hdx hdy hwy hwx
    rw [processTurns_eq_core p dt (Or.inl (by rw [hdx]; exact hwx))]
    unfold Player.processTurnsCore
    dsimp only
    rw [if_neg (by exact fun h => hwx h.1), if_neg (by rw [hdx]; exact fun h => hwx h.1),
      if_neg (by exact fun h => hwx h.1), if_pos ⟨hwy, hwx⟩, if_pos ⟨hdx, hdy⟩]
    rw [show Player.nearestRowCenter { p with wishTimer := p.wishTimer + dt } 0
        = ((⌊p.y / TILE⌋ : ℚ) + 1/2) * TILE from nearestRowCenter_zero _]
    refine ⟨rfl, rfl, rfl, fun k => ?_, rfl⟩
    dsimp only
    rw [abs_sub_comm _ p.y, abs_sub_comm _ p.y]
    exact nearest_center p.y k
  · -- (b) moving horizontally, off-centre, within the window: no turn
    intro hdx hdy hwx hwy hfar htime
    rw [processTurns_eq_core p dt (Or.inl (by rw [hwx]; exact fun h => hdx h.symm))]
    unfold Player.processTurnsCore
    dsimp only
    rw [if_neg (by exact fun h => hwy h.2),
      if_neg (by rw [hwx]; exact fun h => hdx h.1.symm),
      if_pos ⟨hwx, hwy⟩, if_neg (by exact fun h => hdx h.1),
      if_neg (by rw [canTurnVertical_false _ (by exact hfar)]; exact fun h => nomatch h),
      if_neg (by exact not_lt.mpr htime)]
    exact ⟨rfl, rfl, rfl, rfl, rfl⟩
  · -- (b′) moving vertically, off-centre, within the window: no turn
    intro hdy hdx hwy hwx hfar htime
    rw [processTurns_eq_core p dt (Or.inr (by rw [hwy]; exact fun h => hdy h.symm))]
    unfold Player.processTurnsCore
    dsimp only
    rw [if_neg (by exact fun h => hwx h.1),
      if_neg (by rw [hwy]; exact fun h => hdy h.2.symm),
      if_neg (by exact fun h => hwx h.1),
      if_pos ⟨hwy, hwx⟩, if_neg (by exact fun h => hdy h.2),
      if_neg (by rw [canTurnHorizontal_false _ (by exact hfar)]; exact fun h => nomatch h),
      if_neg (by exact not_lt.mpr htime)]
    exact ⟨rfl, rfl, rfl, rfl, rfl⟩
  · -- (c) force-commit after 0.25 s, vertical wish
    intro hdx hdy hwx hwy htime
    rw [processTurns_eq_core p dt (Or.inl (by rw [hwx]; exact fun h => hdx h.symm))]
    unfold Player.processTurnsCore
    dsimp only
    rw [if_neg (by exact fun h => hwy h.2),
      if_neg (by rw [hwx]; exact fun h => hdx h.1.symm),
      if_pos ⟨hwx, hwy⟩, if_neg (by exact fun h => hdx h.1)]
    by_cases hct : Player.canTurnVertical { p with wishTimer := p.wishTimer + dt }
    · rw [if_pos hct]
      exact ⟨rfl, rfl⟩
    · rw [if_neg hct, if_pos (by exact htime)]
      exact ⟨rfl, rfl⟩
  · -- (c′) force-commit after 0.25 s, horizontal wish
    intro hdy hdx hwy hwx htime
    rw [processTurns_eq_core p dt (Or.inr (by rw [hwy]; exact fun h => hdy h.symm))]
    unfold Player.processTurnsCore
    dsimp only
    rw [if_neg (by exact fun h => hwx h.1),
      if_neg (by rw [hwy]; exact fun h => hdy h.2.symm),
      if_neg (by exact fun h => hwx h.1),
      if_pos ⟨hwy, hwx⟩, if_neg (by exact fun h => hdy h.2)]
    by_cases hct : Player.canTurnHorizontal { p with wishTimer := p.wishTimer + dt }
    · rw [if_pos hct]
      exact ⟨rfl, rfl⟩
    · rw [if_neg hct, if_pos (by exact htime)]
      exact ⟨rfl, rfl⟩

/-- Witness for C6: the stationary case — the spawn player wishing up turns
immediately — and the blocked case — a mid-cell rightward runner wishing up
keeps going right. -/
theorem c6_turn_commitment_witness :
    ((Player.processTurns { Player.mk0 with wishY := -1 } (1/60)).dirX = 0 ∧
     (Player.processTurns { Player.mk0 with wishY := -1 } (1/60)).dirY
       = jsSign ({ Player.mk0 with wishY := -1 } : Player).wishY ∧
     (Player.processTurns { Player.mk0 with wishY := -1 } (1/60)).y
       = ({ Player.mk0 with wishY := -1 } : Player).y ∧
     (∀ k : ℤ, |(Player.processTurns { Player.mk0 with wishY := -1 } (1/60)).x
         - ({ Player.mk0 with wishY := -1 } : Player).x|
       ≤ |((k : ℚ) + 1/2) * TILE - ({ Player.mk0 with wishY := -1 } : Player).x|) ∧
     (Player.processTurns { Player.mk0 with wishY := -1 } (1/60)).x
       = ((⌊({ Player.mk0 with wishY := -1 } : Player).x / TILE⌋ : ℚ) + 1/2) * TILE) ∧
    ((Player.processTurns ⟨318, 270, 1, 0, 0, -1, 0⟩ (1/60)).dirX
       = (⟨318, 270, 1, 0, 0, -1, 0⟩ : Player).dirX ∧
     (Player.processTurns ⟨318, 270, 1, 0, 0, -1, 0⟩ (1/60)).dirY
       = (⟨318, 270, 1, 0, 0, -1, 0⟩ : Player).dirY ∧
     (Player.processTurns ⟨318, 270, 1, 0, 0, -1, 0⟩ (1/60)).x
       = (⟨318, 270, 1, 0, 0, -1, 0⟩ : Player).x ∧
     (Player.processTurns ⟨318, 270, 1, 0, 0, -1, 0⟩ (1/60)).y
       = (⟨318, 270, 1, 0, 0, -1, 0⟩ : Player).y ∧
     (Player.processTurns ⟨318, 270, 1, 0, 0, -1, 0⟩ (1/60)).wishTimer
       = (⟨318, 270, 1, 0, 0, -1, 0⟩ : Player).wishTimer + 1/60) :=
  ⟨(c6_turn_commitment { Player.mk0 with wishY := -1 } (1/60)).1
      rfl rfl rfl (by norm_num),
   (c6_turn_commitment ⟨318, 270, 1, 0, 0, -1, 0⟩ (1/60)).2.2.1
      (by norm_num) rfl rfl (by norm_num)
      (by
        intro k
        have hT : TILE = (20:ℚ) := by norm_num [TILE]
        have hE : getTurnEps = (7:ℚ) := by norm_num [getTurnEps, TILE, TURN_EPS_FACTOR]
        rw [hT, hE]
        show (7:ℚ) < |(318 : ℚ) - ((k : ℚ) + 1/2) * 20|
        rcases le_or_lt (k : ℤ) 15 with hk | hk
        · have : ((k : ℚ) + 1/2) * 20 ≤ 310 := by
            have : (k : ℚ) ≤ 15 := by exact_mod_cast hk
            nlinarith
          rw [abs_of_nonneg (by linarith)]
          linarith
        · have : (330:ℚ) ≤ ((k : ℚ) + 1/2) * 20 := by
            have : (16 : ℚ) ≤ (k : ℚ) := by exact_mod_cast hk
            nlinarith
          rw [abs_of_nonpos (by linarith)]
          linarith)
      (by norm_num)⟩

/-! ### Association-list (JS `Map`) lemmas -/

theorem mapGet_mapSet_self (t : List (String × List ℚ)) (k : String) (v : List ℚ) :
    mapGet (mapSet t k v) k = some v := by
  induction t with
  | nil => simp [mapSet, mapGet]
  | cons p rest ih =>
    by_cases h : p.1 = k
    · simp [mapSet, mapGet, h]
    · simp [mapSet, mapGet, h, ih]

theorem mapGet_mapSet_other (t : List (String × List ℚ)) (k k' : String)
    (v : List ℚ) (h : k' ≠ k) : mapGet (mapSet t k v) k' = mapGet t k' := by
  have h' : k ≠ k' := Ne.symm h
  induction t with
  | nil => simp [mapSet, mapGet, h']
  | cons p rest ih =>
    by_cases hp : p.1 = k
    · simp [mapSet, mapGet, hp, h', ih]
    · by_cases hp' : p.1 = k'
      · simp [mapSet, mapGet, hp, hp', h, h', ih]
      · simp [mapSet, mapGet, hp, hp', h, h', ih]

theorem mapGet_mem (t : List (String × List ℚ)) (k : String) (v : List ℚ)
    (h : mapGet t k = some v) : ∃ p ∈ t, p.2 = v := by
  induction t with
  | nil => simp [mapGet] at h
  | cons p rest ih =>
    by_cases hp : p.1 = k
    · rw [mapGet, if_pos hp] at h
      exact ⟨p, List.mem_cons_self _ _, Option.some_injective _ h⟩
    · rw [mapGet, if_neg hp] at h
      obtain ⟨q, hq, hv⟩ := ih h
      exact ⟨q, List.mem_cons_of_mem _ hq, hv⟩

theorem drawN_len (n : ℕ) (rng : List ℚ) : (Agent.drawN n rng).1.length = n := by
  induction n generalizing rng with
  | zero => simp [Agent.drawN]
  | succ n ih => simp [Agent.drawN, draw, ih]

/-- The vector `getQ` hands back always has length `numActions` (for a table
whose stored vectors do). -/
theorem getQ_len (a : Agent) (key : String) (rng : List ℚ)
    (hwf : ∀ p ∈ a.qTable, p.2.length = numActions) :
    ((Agent.getQ a key rng).2.1).length = numActions := by
  unfold Agent.getQ
  cases hg : mapGet a.qTable key with
  | some qv =>
    obtain ⟨p, hp, hv⟩ := mapGet_mem _ _ _ hg
    simpa [hv] using hwf p hp
  | none => simp [drawN_len]

/-- **C5** — For every Q-learning `update` call with an in-range action (on
an agent whose stored Q-vectors have the `numActions` length the agent itself
maintains): the vector stored afterwards at `stateKey(observation)` is the
looked-up vector `q` changed only at index `action`, whose new value is
`q[action] + lr·(target − q[action])` with `target = reward` when `done` and
`target = reward + gamma · max(getQ(stateKey(nextObservation)))` otherwise;
in particular with `done = true` the new value is
`q[action] + lr·(reward − q[action])` exactly. -/
theorem c5_q_learning_update (a : Agent) (s ns : AgentObs) (action : ℕ)
    (reward : ℚ) (done : Bool) (rng : List ℚ)
    (hact : action < numActions)
    (hwf : ∀ p ∈ a.qTable, p.2.length = numActions) :
    let key := Agent.stateToKey s
    let q := (Agent.getQ a key rng).2.1
    let target := if done then reward
      else reward + a.gamma * Agent.listMax
        (Agent.getQ (Agent.getQ a key rng).1 (Agent.stateToKey ns)
          (Agent.getQ a key rng).2.2).2.1
    let res := (Agent.update a s action reward ns done rng).1
    mapGet res.qTable key
      = some (q.set action (q.getD action 0 + a.lr * (target - q.getD action 0))) ∧
    (∀ i, i < numActions → i ≠ action →
      ((mapGet res.qTable key).getD []).getD i 0 = q.getD i 0) ∧
    ((mapGet res.qTable key).getD []).getD action 0
      = q.getD action 0 + a.lr * (target - q.getD action 0) ∧
    (done = true → ((mapGet res.qTable key).getD []).getD action 0
      = q.getD action 0 + a.lr * (reward - q.getD action 0)) := by
  intro key q target res
  have hqlen : q.length = numActions := getQ_len a key rng hwf
  have hmain : mapGet res.qTable key
      = some (q.set action (q.getD action 0 + a.lr * (target - q.getD action 0))) := by
    show mapGet (Agent.update a s action reward ns done rng).1.qTable key = _
    cases done with
    | true => simp only [Agent.update, if_true]
              exact mapGet_mapSet_self _ _ _
    | false => simp only [Agent.update, if_false]
               exact mapGet_mapSet_self _ _ _
  refine ⟨hmain, ?_, ?_, ?_⟩
  · intro i hi hne
    rw [hmain]
    simp only [Option.getD_some]
    exact getD_set_other _ _ _ _ (fun h => hne h.symm)
  · rw [hmain]
    simp only [Option.getD_some]
    exact getD_set_self _ _ _ (by rw [hqlen]; exact hact)
  · intro hdone
    rw [hmain]
    simp only [Option.getD_some]
    rw [getD_set_self _ _ _ (by rw [hqlen]; exact hact)]
    have ht : target = reward := by simp [target, hdone]
    rw [ht]

/-- Witness for C5: a concrete update (`done = true`, action 2) on the
default agent. -/
theorem c5_q_learning_update_witness :
    (2 < numActions) ∧
    (let key := Agent.stateToKey (⟨0,0,0,0,0,0,0,0,0,0,0,0,0,0⟩ : AgentObs)
     let q := (Agent.getQ Agent.mk0 key []).2.1
     let target := if true then (1:ℚ) else 1 + Agent.mk0.gamma * Agent.listMax
        (Agent.getQ (Agent.getQ Agent.mk0 key []).1
          (Agent.stateToKey (⟨0,0,0,0,0,0,0,0,0,0,0,0,0,0⟩ : AgentObs))
          (Agent.getQ Agent.mk0 key []).2.2).2.1
     let res := (Agent.update Agent.mk0 (⟨0,0,0,0,0,0,0,0,0,0,0,0,0,0⟩ : AgentObs) 2 1
        (⟨0,0,0,0,0,0,0,0,0,0,0,0,0,0⟩ : AgentObs) true []).1
     mapGet res.qTable key
       = some (q.set 2 (q.getD 2 0 + Agent.mk0.lr * (target - q.getD 2 0))) ∧
     (∀ i, i < numActions → i ≠ 2 →
       ((mapGet res.qTable key).getD []).getD i 0 = q.getD i 0) ∧
     ((mapGet res.qTable key).getD []).getD 2 0
       = q.getD 2 0 + Agent.mk0.lr * (target - q.getD 2 0) ∧
     (true = true → ((mapGet res.qTable key).getD []).getD 2 0
       = q.getD 2 0 + Agent.mk0.lr * ((1:ℚ) - q.getD 2 0))) :=
  ⟨by decide, c5_q_learning_update Agent.mk0 ⟨0,0,0,0,0,0,0,0,0,0,0,0,0,0⟩
    ⟨0,0,0,0,0,0,0,0,0,0,0,0,0,0⟩ 2 1 true [] (by decide) (by simp [Agent.mk0])⟩

/-! ### C9 — epsilon decay -/

/-- **C9 counterexample** — The claim quantifies over every agent with
`0 < epsilonDecay ≤ 1`; for an agent whose epsilon is negative (still above
`epsilonMin`), multiplying by a decay `< 1` *increases* epsilon, so "new
epsilon ≤ previous epsilon" fails. -/
theorem c9_counterexample :
    (0 < ({ Agent.mk0 with epsilon := (-1), epsilonMin := (-2), epsilonDecay := 1/2 } : Agent).epsilonDecay ∧
      ({ Agent.mk0 with epsilon := (-1), epsilonMin := (-2), epsilonDecay := 1/2 } : Agent).epsilonDecay ≤ 1) ∧
    ({ Agent.mk0 with epsilon := (-1), epsilonMin := (-2), epsilonDecay := 1/2 } : Agent).epsilon
      < (Agent.recordEpisode { Agent.mk0 with epsilon := (-1), epsilonMin := (-2), epsilonDecay := 1/2 } 0).epsilon := by
  with_unfolding_all decide

/-- **C9 (amended)** — For every agent with `0 < epsilonDecay ≤ 1` and a
nonnegative epsilon, each `recordEpisode` call (which ends an episode and
invokes `decayEpsilon`) is monotone: the new epsilon is ≤ the previous one,
is ≥ `min(previous, epsilonMin)`, and never drops below `epsilonMin` once at
or above it. -/
theorem c9_epsilon_decay (a : Agent) (tr : ℚ)
    (hd0 : 0 < a.epsilonDecay) (hd1 : a.epsilonDecay ≤ 1) (he : 0 ≤ a.epsilon) :
    (Agent.recordEpisode a tr).epsilon ≤ a.epsilon ∧
    min a.epsilon a.epsilonMin ≤ (Agent.recordEpisode a tr).epsilon ∧
    (a.epsilonMin ≤ a.epsilon → a.epsilonMin ≤ (Agent.recordEpisode a tr).epsilon) := by
  have hdecay : ∀ b : Agent, 0 < b.epsilonDecay → b.epsilonDecay ≤ 1 → 0 ≤ b.epsilon →
      ((Agent.decayEpsilon b).epsilon ≤ b.epsilon ∧
       min b.epsilon b.epsilonMin ≤ (Agent.decayEpsilon b).epsilon ∧
       (b.epsilonMin ≤ b.epsilon → b.epsilonMin ≤ (Agent.decayEpsilon b).epsilon)) := by
    intro b hb0 hb1 hbe
    unfold Agent.decayEpsilon
    split
    · next hlt =>
      split
      · next hfloor =>
        exact ⟨le_of_lt hlt, min_le_right _ _, fun _ => le_refl _⟩
      · next hfloor =>
        push_neg at hfloor
        exact ⟨mul_le_of_le_one_right hbe hb1,
          le_trans (min_le_right _ _) hfloor, fun _ => hfloor⟩
    · next hge =>
      exact ⟨le_refl _, min_le_left _ _, fun h => h⟩
  unfold Agent.recordEpisode
  exact hdecay _ hd0 hd1 he

/-- Witness for C9 (amended): the default agent after one episode. -/
theorem c9_epsilon_decay_witness :
    (0 < Agent.mk0.epsilonDecay ∧ Agent.mk0.epsilonDecay ≤ 1 ∧ 0 ≤ Agent.mk0.epsilon) ∧
    ((Agent.recordEpisode Agent.mk0 5).epsilon ≤ Agent.mk0.epsilon ∧
     min Agent.mk0.epsilon Agent.mk0.epsilonMin ≤ (Agent.recordEpisode Agent.mk0 5).epsilon ∧
     (Agent.mk0.epsilonMin ≤ Agent.mk0.epsilon →
       Agent.mk0.epsilonMin ≤ (Agent.recordEpisode Agent.mk0 5).epsilon)) :=
  ⟨by with_unfolding_all decide, c9_epsilon_decay Agent.mk0 5
    (by with_unfolding_all decide) (by with_unfolding_all decide)
    (by with_unfolding_all decide)⟩

/-! ### C4 — import of malformed serialized agents -/

set_option maxRecDepth 4096 in
/-- **C4 counterexample** — A payload that parses as JSON but whose `qTable`
holds a bare `-1` makes `new Float32Array(-1)` throw mid-import: `load`
reports `false`, but the agent's previously stored Q-table entry is gone —
the prior in-memory state is *not* left unchanged by the failed import. -/
theorem c4_counterexample :
    (Agent.load { Agent.mk0 with qTable := [("4,0,4,0", [1,2,3,4,5])] }
        (some ⟨none, none, none, none, none, none, none,
          some [("x", JEntry.num (-1))]⟩)).1 = false ∧
    (Agent.load { Agent.mk0 with qTable := [("4,0,4,0", [1,2,3,4,5])] }
        (some ⟨none, none, none, none, none, none, none,
          some [("x", JEntry.num (-1))]⟩)).2
      ≠ { Agent.mk0 with qTable := [("4,0,4,0", [1,2,3,4,5])] } := by
  with_unfolding_all decide

/-- **C4 (amended)** — Import failures are reported to the caller as `false`;
when the stored payload is absent or fails to parse the agent is left
unchanged (a payload that parses but throws mid-import keeps the mutations
already performed, as the counterexample shows). -/
theorem c4_import_fails_gracefully (a : Agent) (parsed : Option Payload) :
    (parsed = none → Agent.load a parsed = (false, a)) ∧
    (∀ data a', parsed = some data → Agent.importQTable a data = .error a' →
      Agent.load a parsed = (false, a')) := by
  constructor
  · rintro rfl
    rfl
  · rintro data a' rfl herr
    simp [Agent.load, herr]

/-- Witness for C4 (amended): the missing-payload case and a concrete
throwing import. -/
theorem c4_import_fails_gracefully_witness :
    Agent.load Agent.mk0 none = (false, Agent.mk0) ∧
    Agent.load Agent.mk0 (some ⟨none, none, none, none, none, none, none,
      some [("x", JEntry.num (-1))]⟩) = (false, Agent.mk0) :=
  ⟨(c4_import_fails_gracefully Agent.mk0 none).1 rfl,
   (c4_import_fails_gracefully Agent.mk0 (some ⟨none, none, none, none, none, none,
      none, some [("x", JEntry.num (-1))]⟩)).2
     ⟨none, none, none, none, none, none, none, some [("x", JEntry.num (-1))]⟩
     Agent.mk0 rfl (by with_unfolding_all rfl)⟩

/-! ## Cats (cat.js `Cat`) and the game orchestrator (game.js `Game`)

`Math.hypot`/`Math.sqrt` is modelled by `jsSqrt`, the rational function
below.  `jsSqrt` agrees with the exact square root whenever its argument
is the square of a rational (for `q = (a/b)^2` in lowest terms the
numerator and denominator are the perfect squares `a^2`, `b^2`), which
covers every hypotenuse appearing in the concrete trajectories verified
here; the reward contract (claim C1) uses the same function on both sides
of the equation, so its statement does not depend on the value of
`jsSqrt` off the perfect squares. -/

/-- Linear-scan floor square root on `ℕ` (largest `k` with `k·k ≤ n`;
structurally recursive so concrete evaluation stays in constant stack,
unlike the well-founded `Nat.sqrt`). -/
def sqrtGo : ℕ → ℕ → ℕ → ℕ
  | 0, acc, _ => acc
  | f + 1, acc, n => if (acc + 1) * (acc + 1) ≤ n then sqrtGo f (acc + 1) n else acc

/-- `⌊√n⌋`. -/
def natSqrt (n : ℕ) : ℕ := sqrtGo n 0 n

/-- `Math.sqrt` on rationals: exact on squares of rationals. -/
def jsSqrt (q : ℚ) : ℚ := (natSqrt q.num.toNat : ℚ) / (natSqrt q.den : ℚ)

/-- `Math.hypot(dx, dy)`. -/
def jsHypot (dx dy : ℚ) : ℚ := jsSqrt (dx * dx + dy * dy)

/-- `this.r = Config.TILE * Config.CAT_RADIUS_FACTOR` (= 17.6 px). -/
def CAT_R : ℚ := TILE * CAT_RADIUS_FACTOR

/-- Cat state (`color` is rendering-only and omitted).

`crumbSpeedFactor`: `Game.startLevel` destructures `crumbSpeedFactor`
from `Config.getLevelConfig(level)`, but no `LEVEL_CONFIG` entry carries
that field, so the constructor argument is `undefined` in the source; the
model takes the stored value as an unconstrained rational parameter
(`csf`).  It is only read when a cat stands in (or heads into) a crumb —
where the JS code would compute a `NaN` speed — and the concrete
trajectories verified here never let that happen. -/
structure Cat where
  id : ℕ
  x : ℚ
  y : ℚ
  speedCells : ℚ
  crumbSpeedFactor : ℚ
  path : List (ℤ × ℤ)
  pathTimer : ℚ
  jitterDC : ℤ
  jitterDR : ℤ
  lastC : ℤ
  lastR : ℤ
  deriving DecidableEq

/-- Placeholder for (never-occurring) out-of-range list reads. -/
def catDefault : Cat :=
  { id := 0, x := 0, y := 0, speedCells := 0, crumbSpeedFactor := 0,
    path := [], pathTimer := 0, jitterDC := 0, jitterDR := 0, lastC := -1, lastR := -1 }

namespace Cat

/-- `new Cat(options)`: the goal jitter takes two `randInt(-1, 1)` draws. -/
def mkCat (id : ℕ) (x y speedCells csf : ℚ) (rng : List ℚ) : Cat × List ℚ :=
  let p1 := randInt (-GOAL_JITTER_RANGE) GOAL_JITTER_RANGE rng
  let p2 := randInt (-GOAL_JITTER_RANGE) GOAL_JITTER_RANGE p1.2
  ({ id := id, x := x, y := y, speedCells := speedCells, crumbSpeedFactor := csf,
     path := [], pathTimer := 0, jitterDC := p1.1, jitterDR := p2.1,
     lastC := -1, lastR := -1 }, p2.2)

/-- `Cat.fromSpawnFraction(colFrac, rowFrac, speedCells, crumbSpeedFactor, id, color)`. -/
def fromSpawnFraction (colFrac rowFrac speedCells csf : ℚ) (id : ℕ) (rng : List ℚ) :
    Cat × List ℚ :=
  let col : ℤ := max 0 (min (COLS - 1) (jsRound ((COLS : ℚ) * colFrac)))
  let row : ℤ := max 0 (min (ROWS - 1) (jsRound ((ROWS : ℚ) * rowFrac)))
  mkCat id (((col : ℚ) + 1/2) * TILE) (((row : ℚ) + 1/2) * TILE) speedCells csf rng

/-- `getCell()`. -/
def getCell (c : Cat) : ℤ × ℤ := (⌊c.x / TILE⌋, ⌊c.y / TILE⌋)

/-- `shouldRecalculatePath(dt)`: ticks the timer down; on expiry resets it
to `1/A_STAR_RECALC_HZ`, refreshes both jitter components, and reports
`true`. -/
def shouldRecalculatePath (c : Cat) (dt : ℚ) (rng : List ℚ) : Bool × Cat × List ℚ :=
  let t := c.pathTimer - dt
  if t ≤ 0 then
    let p1 := randInt (-GOAL_JITTER_RANGE) GOAL_JITTER_RANGE rng
    let p2 := randInt (-GOAL_JITTER_RANGE) GOAL_JITTER_RANGE p1.2
    (true, { c with pathTimer := 1 / A_STAR_RECALC_HZ, jitterDC := p1.1, jitterDR := p2.1 },
      p2.2)
  else (false, { c with pathTimer := t }, rng)

/-- `getGoalCell(playerCell)`: player cell plus jitter, clamped into bounds. -/
def getGoalCell (c : Cat) (playerCell : ℤ × ℤ) : ℤ × ℤ :=
  (max 0 (min (COLS - 1) (playerCell.1 + c.jitterDC)),
   max 0 (min (ROWS - 1) (playerCell.2 + c.jitterDR)))

/-- `calculateSpeed(grid)`: also checks the next path cell. -/
def calculateSpeed (c : Cat) (g : Grid) : ℚ :=
  let cell := c.getCell
  let inCrumb0 := g.isCrumb cell.1 cell.2
  let inCrumb := if inCrumb0 = false then
      (match c.path with
       | [] => false
       | n :: _ => g.isCrumb n.1 n.2)
    else inCrumb0
  c.speedCells * TILE * (if inCrumb then c.crumbSpeedFactor else 1)

/-- `applySeparation(allCats, dt)` (note: the displacement is not clamped
to the grid). -/
def applySeparation (c : Cat) (allCats : List Cat) (dt : ℚ) : Cat :=
  let sep := allCats.foldl (fun (acc : ℚ × ℚ) other =>
    if other.id = c.id then acc
    else
      let dx := c.x - other.x
      let dy := c.y - other.y
      let d := jsHypot dx dy
      if 0 < d ∧ d < SEPARATION_RADIUS_CELLS * TILE then
        acc + (dx / d * ((SEPARATION_RADIUS_CELLS * TILE - d) / (SEPARATION_RADIUS_CELLS * TILE)),
               dy / d * ((SEPARATION_RADIUS_CELLS * TILE - d) / (SEPARATION_RADIUS_CELLS * TILE)))
      else acc) (0, 0)
  if sep.1 ≠ 0 ∨ sep.2 ≠ 0 then
    let len0 := jsHypot sep.1 sep.2
    let len := if len0 = 0 then 1 else len0
    { c with x := c.x + sep.1 / len * SEPARATION_FORCE * dt,
             y := c.y + sep.2 / len * SEPARATION_FORCE * dt }
  else c

/-- `moveAlongPath(speedPx, dt, playerPos)`: follow the path (popping a
reached waypoint), or — with an empty path — chase the player directly
with a jittered target, the step not capped by the remaining distance. -/
def moveAlongPath (c : Cat) (speedPx dt px py : ℚ) (rng : List ℚ) : Cat × List ℚ :=
  match c.path with
  | next :: restPath =>
      let targetX := ((next.1 : ℚ) + 1/2) * TILE
      let targetY := ((next.2 : ℚ) + 1/2) * TILE
      let dx := targetX - c.x
      let dy := targetY - c.y
      let d0 := jsHypot dx dy
      let d := if d0 = 0 then 1 else d0
      let step := min d (speedPx * dt)
      let nx := c.x + dx / d * step
      let ny := c.y + dy / d * step
      let newPath := if d ≤ 1/2 ∨ (|nx - targetX| < 1/2 ∧ |ny - targetY| < 1/2)
        then restPath else next :: restPath
      ({ c with x := nx, y := ny, path := newPath }, rng)
  | [] =>
      let p1 := randRange (-1/5) (1/5) rng
      let p2 := randRange (-1/5) (1/5) p1.2
      let dx := px + p1.1 * TILE - c.x
      let dy := py + p2.1 * TILE - c.y
      let d0 := jsHypot dx dy
      let d := if d0 = 0 then 1 else d0
      let step := speedPx * dt
      ({ c with x := c.x + dx / d * step, y := c.y + dy / d * step }, p2.2)

/-- `checkCellChange()`: `(changed, previous cell, updated cat)`. -/
def checkCellChange (c : Cat) : Bool × (ℤ × ℤ) × Cat :=
  let cur := c.getCell
  (decide (cur.1 ≠ c.lastC ∨ cur.2 ≠ c.lastR), (c.lastC, c.lastR),
    { c with lastC := cur.1, lastR := cur.2 })

/-- `hasCaughtPlayer(player)`: strict distance threshold
`(catR + playerR) · CATCH_MARGIN` = 24.6 px. -/
def hasCaughtPlayer (c : Cat) (p : Player) : Bool :=
  decide (jsHypot (c.x - p.x) (c.y - p.y) < (CAT_R + PLAYER_R) * CATCH_MARGIN)

end Cat

/-- The ML observation record returned by `getState()`.  The nearest-cat
distance starts from `Infinity` (`⊤`) in the source, so the two fields
derived from it keep the `WithTop` type / the `Infinity`-division
conventions (`x / Infinity = 0`). -/
structure Obs where
  playerX : ℚ
  playerY : ℚ
  dirToHoleX : ℚ
  dirToHoleY : ℚ
  distToHole : ℚ
  distToCat : WithTop ℚ
  dirToCatX : ℚ
  dirToCatY : ℚ
  crumbUp : ℚ
  crumbDown : ℚ
  crumbLeft : ℚ
  crumbRight : ℚ
  movingX : ℚ
  movingY : ℚ
  deriving DecidableEq

/-- Full game state; `renderer`, `keys` and the callbacks are UI-only and
omitted; `rng` is the stream of future `Math.random()` values. -/
structure Game where
  grid : Grid
  player : Player
  cats : List Cat
  level : ℤ
  running : Bool
  timeAlive : ℚ
  decayAccum : ℚ
  rng : List ℚ
  deriving DecidableEq

namespace Game

/-- `moveAgent(agent, dx, dy, blockCrumb)` acting on a position (the only
caller passes the player and `blockCrumb = true`). -/
def moveAgent (grid : Grid) (x y dx dy : ℚ) (blockCrumb : Bool) : ℚ × ℚ :=
  let EPS : ℚ := 1/1000000
  let x1 :=
    if dx ≠ 0 then
      let cc := cellAt x y TILE
      let centerX := ((cc.1 : ℚ) + 1/2) * TILE
      let dir : ℤ := if 0 < dx then 1 else (-1)
      let nextC := cc.1 + dir
      let nextBlocked := blockCrumb &&
        (!(inBoundsB nextC cc.2 COLS ROWS) || grid.isCrumb nextC cc.2)
      let nx0 := x + dx
      let nx := if nextBlocked = true then
          (if 0 < dx then min nx0 centerX else max nx0 centerX)
        else nx0
      let cell := cellAt nx y TILE
      let x' := if ¬ (blockCrumb = true ∧ grid.isCrumb cell.1 cell.2 = true) ∧
          inBoundsB cell.1 cell.2 COLS ROWS = true then nx else x
      if nextBlocked = true ∧
          ((0 < dx ∧ centerX - EPS ≤ x') ∨ (dx < 0 ∧ x' ≤ centerX + EPS)) then centerX
      else x'
    else x
  let y1 :=
    if dy ≠ 0 then
      let cc := cellAt x1 y TILE
      let centerY := ((cc.2 : ℚ) + 1/2) * TILE
      let dir : ℤ := if 0 < dy then 1 else (-1)
      let nextR := cc.2 + dir
      let nextBlocked := blockCrumb &&
        (!(inBoundsB cc.1 nextR COLS ROWS) || grid.isCrumb cc.1 nextR)
      let ny0 := y + dy
      let ny := if nextBlocked = true then
          (if 0 < dy then min ny0 centerY else max ny0 centerY)
        else ny0
      let cell := cellAt x1 ny TILE
      let y' := if ¬ (blockCrumb = true ∧ grid.isCrumb cell.1 cell.2 = true) ∧
          inBoundsB cell.1 cell.2 COLS ROWS = true then ny else y
      if nextBlocked = true ∧
          ((0 < dy ∧ centerY - EPS ≤ y') ∨ (dy < 0 ∧ y' ≤ centerY + EPS)) then centerY
      else y'
    else y
  (x1, y1)

/-- `Game.aStar`: textually duplicates the core `aStar` except that the
step cost is `isCrumb ? CRUMB_COST_FOR_CAT : 1` (never `Infinity`, so the
core loop's impassable-skip branch is dead code at this cost function). -/
def aStarCall (g : Grid) (startC startR goalC goalR : ℤ) : List (ℤ × ℤ) :=
  aStar startC startR goalC goalR COLS.toNat ROWS.toNat
    (fun c r => (((if g.isCrumb c r then CRUMB_COST_FOR_CAT else 1) : ℚ) : WithTop ℚ))

/-- `startLevel(resetToLevel1)`: reset grid and player, spawn the level's
cats (each consuming two jitter draws), reset timers, build the barrier. -/
def startLevel (csf : ℚ) (resetTo1 : Bool) (g : Game) : Game :=
  let lvl : ℤ := if resetTo1 then 1 else g.level
  let cfg := getLevelConfig lvl
  let speedCells := PLAYER_SPEED_CELLS * cfg.speedFactor
  let spawned := (List.range cfg.cats).foldl
    (fun (acc : List Cat × List ℚ) i =>
      let spawn := CAT_SPAWN_GRID.getD (i % CAT_SPAWN_GRID.length) (0, 0)
      let p := Cat.fromSpawnFraction spawn.1 spawn.2 speedCells csf i acc.2
      (p.1 :: acc.1, p.2))
    ([], g.rng)
  { grid := (g.grid.clear).buildHoleBarrier,
    player := Player.mk0,
    cats := spawned.1.reverse,
    level := lvl,
    running := true,
    timeAlive := 0,
    decayAccum := 0,
    rng := spawned.2 }

/-- `_distanceToHole()`: in cells, from the player's cell to `(0, holeR)`. -/
def distanceToHole (g : Game) : ℚ :=
  let pc := g.player.getCell
  jsHypot ((pc.1 : ℚ) - 0) ((pc.2 : ℚ) - (getHoleRow : ℚ))

/-- `_minDistanceToCat()`: pixels; `Infinity` when there are no cats. -/
def minDistanceToCat (g : Game) : WithTop ℚ :=
  g.cats.foldl (fun (m : WithTop ℚ) cat =>
    let d := jsHypot (cat.x - g.player.x) (cat.y - g.player.y)
    if ((d : ℚ) : WithTop ℚ) < m then ((d : ℚ) : WithTop ℚ) else m) ⊤

/-- The danger penalty of the reward: `2·(1 − minCatDist/dangerRadius)`
when the nearest cat is strictly inside `dangerRadius = TILE·5`, else 0
(`Infinity < dangerRadius` is false, so no cats means no penalty). -/
def dangerPenalty (g : Game) : ℚ :=
  match minDistanceToCat g with
  | ⊤ => 0
  | (d : ℚ) => if d < TILE * 5 then 2 * (1 - d / (TILE * 5)) else 0

/-- `getState()`. -/
def getState (g : Game) : Obs :=
  let pc := g.player.getCell
  let holeR : ℤ := getHoleRow
  let dHoleX : ℚ := ((0 : ℤ) - pc.1 : ℤ)
  let dHoleY : ℚ := ((holeR - pc.2 : ℤ) : ℚ)
  let dHoleDist0 := jsHypot dHoleX dHoleY
  let dHoleDist := if dHoleDist0 = 0 then 1 else dHoleDist0
  let near := g.cats.foldl (fun (acc : WithTop ℚ × ℚ × ℚ) cat =>
      let dx := cat.x - g.player.x
      let dy := cat.y - g.player.y
      let d := jsHypot dx dy
      if ((d : ℚ) : WithTop ℚ) < acc.1 then (((d : ℚ) : WithTop ℚ), dx, dy) else acc)
    (⊤, 0, 0)
  let catDist : WithTop ℚ := if near.1 = ((0 : ℚ) : WithTop ℚ) then ((1 : ℚ) : WithTop ℚ)
    else near.1
  { playerX := g.player.x / ((COLS : ℚ) * TILE),
    playerY := g.player.y / ((ROWS : ℚ) * TILE),
    dirToHoleX := dHoleX / dHoleDist,
    dirToHoleY := dHoleY / dHoleDist,
    distToHole := dHoleDist / jsHypot (COLS : ℚ) (ROWS : ℚ),
    distToCat := (match near.1 with
      | ⊤ => ⊤
      | (d : ℚ) => ((d / (jsHypot (COLS : ℚ) (ROWS : ℚ) * TILE) : ℚ) : WithTop ℚ)),
    dirToCatX := (match catDist with
      | ⊤ => 0
      | (q : ℚ) => near.2.1 / q),
    dirToCatY := (match catDist with
      | ⊤ => 0
      | (q : ℚ) => near.2.2 / q),
    crumbUp := if g.grid.isCrumb pc.1 (pc.2 - 1) then 1 else 0,
    crumbDown := if g.grid.isCrumb pc.1 (pc.2 + 1) then 1 else 0,
    crumbLeft := if g.grid.isCrumb (pc.1 - 1) pc.2 then 1 else 0,
    crumbRight := if g.grid.isCrumb (pc.1 + 1) pc.2 then 1 else 0,
    movingX := g.player.dirX,
    movingY := g.player.dirY }

/-- The per-cat body of the cat loop in `update(dt)`, processed by array
index because `applySeparation` reads the live array (earlier cats already
moved this tick).  Returns the updated `(grid, cats, rng)` and whether
this cat caught the player (which aborts the loop). -/
def catsLoop (csf dt px py : ℚ) (playerCell : ℤ × ℤ) (player : Player) :
    List ℕ → Grid × List Cat × List ℚ → (Grid × List Cat × List ℚ) × Bool
  | [], st => (st, false)
  | i :: rest, (grid, cats, rng) =>
      let cat0 := cats.getD i catDefault
      let rec1 := cat0.shouldRecalculatePath dt rng
      let cat2 := if rec1.1 then
          let goal := rec1.2.1.getGoalCell playerCell
          let cc := rec1.2.1.getCell
          { rec1.2.1 with path := aStarCall grid cc.1 cc.2 goal.1 goal.2 }
        else rec1.2.1
      let speedPx := cat2.calculateSpeed grid
      let cat3 := cat2.applySeparation (cats.set i cat2) dt
      let mv := cat3.moveAlongPath speedPx dt px py rec1.2.2
      let chg := mv.1.checkCellChange
      let grid2 := if chg.1 = true ∧ grid.isCrumb chg.2.1.1 chg.2.1.2 = true then
          grid.weakenCrumb chg.2.1.1 chg.2.1.2 ⊤
        else grid
      let cats5 := cats.set i chg.2.2
      if chg.2.2.hasCaughtPlayer player then ((grid2, cats5, mv.2), true)
      else catsLoop csf dt px py playerCell player rest (grid2, cats5, mv.2)

/-- The crumb-decay drain `while (decayAccum >= 1) { decayAccum -= 1;
decayOneCrumb(); }`; each pass lowers the accumulator by exactly 1, so
`⌊accum⌋` iterations of fuel make the fuelled loop exact. -/
def decayLoop : ℕ → ℚ → Grid → List ℚ → ℚ × Grid × List ℚ
  | 0, a, g, rng => (a, g, rng)
  | n + 1, a, g, rng =>
      if 1 ≤ a then
        let p := g.decayOneCrumb rng
        decayLoop n (a - 1) p.1 p.2
      else (a, g, rng)

/-- `update(dt)`: returns the new state and the `(caught, levelComplete)`
flags. -/
def update (csf dt : ℚ) (g : Game) : Game × Bool × Bool :=
  if g.running = false then (g, false, false)
  else
    let p1 := g.player.processTurns dt
    let prevCell := cellAt p1.x p1.y TILE
    let delta := p1.getMovementDelta dt
    let moved := moveAgent g.grid p1.x p1.y delta.1 delta.2 true
    let p3 := Player.snapToGrid { p1 with x := moved.1, y := moved.2 }
    let curCell := cellAt p3.x p3.y TILE
    let grid1 := if (curCell.1 ≠ prevCell.1 ∨ curCell.2 ≠ prevCell.2) ∧
        inBoundsB prevCell.1 prevCell.2 COLS ROWS = true then
        (if g.grid.isHoleCell prevCell.1 prevCell.2 then g.grid
         else g.grid.addCrumb prevCell.1 prevCell.2 CRUMB_STRENGTH)
      else g.grid
    if grid1.isHoleCell curCell.1 curCell.2 then
      (startLevel csf false
        { g with grid := grid1, player := p3, level := g.level + 1,
                 timeAlive := g.timeAlive + dt }, false, true)
    else
      let run := catsLoop csf dt p3.x p3.y p3.getCell p3
        (List.range g.cats.length) (grid1, g.cats, g.rng)
      if run.2 then
        ({ g with grid := run.1.1, player := p3, cats := run.1.2.1,
                  running := false, timeAlive := g.timeAlive + dt,
                  rng := run.1.2.2 }, true, false)
      else
        let acc := g.decayAccum + dt * CRUMB_DECAY_PER_SEC
        let dec := decayLoop (⌊acc⌋.toNat) acc run.1.1 run.1.2.2
        ({ g with grid := dec.2.1, player := p3, cats := run.1.2.1,
                  timeAlive := g.timeAlive + dt, decayAccum := dec.1,
                  rng := dec.2.2 }, false, false)

/-- The result record of `step`, mirroring
`{state, reward, done, info: {caught, levelComplete, timeAlive, level}}`. -/
structure StepResult where
  game : Game
  obs : Obs
  reward : ℚ
  done : Bool
  caught : Bool
  levelComplete : Bool
  timeAlive : ℚ
  level : ℤ
  deriving DecidableEq

/-- `step(action, dt)`: apply the action to the player's wish, run one
update, and assemble the reward. -/
def step (csf : ℚ) (action : ℤ) (dt : ℚ) (g : Game) : StepResult :=
  let g0 := if 0 ≤ action ∧ action < 5 then
      (if action = 4 then { g with player := g.player.stop }
       else if action = 0 then { g with player := g.player.setWish (-1) 0 }
       else if action = 1 then { g with player := g.player.setWish 1 0 }
       else if action = 2 then { g with player := g.player.setWish 0 (-1) }
       else { g with player := g.player.setWish 0 1 })
    else g
  let prevDist := distanceToHole g0
  let upd := update csf dt g0
  let g1 := upd.1
  let newDist := distanceToHole g1
  let reward : ℚ :=
    if upd.2.1 then -100
    else if upd.2.2 then 100
    else
      let r1 := (prevDist - newDist) * 50 + 1/20
      let r2 := r1 - dangerPenalty g1
      if g1.player.dirX = 0 ∧ g1.player.dirY = 0 then r2 - 1/10 else r2
  { game := g1, obs := getState g1, reward := reward,
    done := upd.2.1 || upd.2.2, caught := upd.2.1, levelComplete := upd.2.2,
    timeAlive := g1.timeAlive, level := g1.level }

/-- `reset(level)`: assign the level, start (resetting to level 1), and
return the initial observation. -/
def reset (csf : ℚ) (level : ℤ) (g : Game) : Game × Obs :=
  let g1 := startLevel csf true { g with level := level }
  (g1, getState g1)

/-- With the accumulator already below 1 the decay drain is a no-op for
any fuel. -/
theorem decayLoop_stall (n : ℕ) (a : ℚ) (g : Grid) (rng : List ℚ) (h : ¬ 1 ≤ a) :
    decayLoop n a g rng = (a, g, rng) := by
  cases n with
  | zero => rfl
  | succ m => simp only [decayLoop]; rw [if_neg h]

/-- Fuel for the decay drain splits additively: running `m + n` passes is
running `m` passes and then `n` more from the intermediate state. -/
theorem decayLoop_add (m n : ℕ) (a : ℚ) (g : Grid) (rng : List ℚ) :
    decayLoop (m + n) a g rng =
      decayLoop n (decayLoop m a g rng).1 (decayLoop m a g rng).2.1
        (decayLoop m a g rng).2.2 := by
  induction m generalizing a g rng with
  | zero =>
      rw [Nat.zero_add]
      rfl
  | succ k ih =>
      have hidx : k + 1 + n = (k + n) + 1 := by omega
      rw [hidx]
      by_cases h : 1 ≤ a
      · simp only [decayLoop]
        rw [if_pos h]
        rw [if_pos h]
        exact ih _ _ _
      · rw [decayLoop_stall ((k + n) + 1) a g rng h, decayLoop_stall (k + 1) a g rng h]
        exact (decayLoop_stall n a g rng h).symm

/-- Two-stage evaluation of the decay drain, used to keep each concrete
evaluation chunk small. -/
theorem decayLoop_chunk (f m n : ℕ) (a : ℚ) (g : Grid) (rng : List ℚ)
    (mid fin : ℚ × Grid × List ℚ)
    (hf : f = m + n)
    (h1 : decayLoop m a g rng = mid)
    (h2 : decayLoop n mid.1 mid.2.1 mid.2.2 = fin) :
    decayLoop f a g rng = fin := by
  rw [hf, decayLoop_add m n a g rng, h1, h2]

/-- Compositional unfolding of one iteration of the cat loop over a
single cat that recalculates its path and does not catch the player:
given the result of each internal phase (timer/jitter refresh, A* call,
speed, separation, path/chase movement, cell-change crumb weakening),
the loop's result. -/
theorem catsLoop_one (csf dt px py : ℚ) (pc : ℤ × ℤ) (player : Player) (i : ℕ)
    (grid : Grid) (cats : List Cat) (rng : List ℚ)
    (cat0 : Cat) (rec1 : Bool × Cat × List ℚ) (pathv : List (ℤ × ℤ)) (cat2 : Cat)
    (speedPx : ℚ) (cat3 : Cat) (mv : Cat × List ℚ) (chg : Bool × (ℤ × ℤ) × Cat)
    (grid2v : Grid) (cres : Grid × List Cat × List ℚ)
    (h0 : cats.getD i catDefault = cat0)
    (h1 : cat0.shouldRecalculatePath dt rng = rec1)
    (hrec : rec1.1 = true)
    (hpath : aStarCall grid rec1.2.1.getCell.1 rec1.2.1.getCell.2
      (rec1.2.1.getGoalCell pc).1 (rec1.2.1.getGoalCell pc).2 = pathv)
    (h2 : { rec1.2.1 with path := pathv } = cat2)
    (h3 : cat2.calculateSpeed grid = speedPx)
    (h4 : cat2.applySeparation (cats.set i cat2) dt = cat3)
    (h5 : cat3.moveAlongPath speedPx dt px py rec1.2.2 = mv)
    (h6 : mv.1.checkCellChange = chg)
    (hgrid2 : (if chg.1 = true ∧ grid.isCrumb chg.2.1.1 chg.2.1.2 = true
      then grid.weakenCrumb chg.2.1.1 chg.2.1.2 ⊤ else grid) = grid2v)
    (hcaught : chg.2.2.hasCaughtPlayer player = false)
    (hres : (grid2v, cats.set i chg.2.2, mv.2) = cres) :
    catsLoop csf dt px py pc player [i] (grid, cats, rng) = (cres, false) := by
  simp only [catsLoop]
  rw [h0, h1]
  rw [if_pos hrec]
  rw [hpath, h2, h3, h4, h5, h6]
  rw [hgrid2]
  rw [if_neg (show ¬ (chg.2.2.hasCaughtPlayer player = true) from by
    rw [hcaught]; simp)]
  rw [hres]

/-- Compositional unfolding of one non-terminal `update` tick: given the
result of each internal phase (player turn/move/snap, crumb trail, cat
loop, decay drain), the whole tick's result. -/
theorem update_run_eq (csf dt : ℚ) (g : Game) (p1v : Player) (movedv : ℚ × ℚ)
    (p3v : Player) (grid1v : Grid) (cres : Grid × List Cat × List ℚ)
    (dav accv acc'v : ℚ) (grid3v : Grid) (rng3v : List ℚ) (gout : Game)
    (hrun : g.running = true)
    (hp1 : g.player.processTurns dt = p1v)
    (hmoved : moveAgent g.grid p1v.x p1v.y (p1v.getMovementDelta dt).1
      (p1v.getMovementDelta dt).2 true = movedv)
    (hp3 : Player.snapToGrid { p1v with x := movedv.1, y := movedv.2 } = p3v)
    (hgrid1 : (if ((cellAt p3v.x p3v.y TILE).1 ≠ (cellAt p1v.x p1v.y TILE).1 ∨
          (cellAt p3v.x p3v.y TILE).2 ≠ (cellAt p1v.x p1v.y TILE).2) ∧
          inBoundsB (cellAt p1v.x p1v.y TILE).1 (cellAt p1v.x p1v.y TILE).2 COLS ROWS
            = true then
        (if g.grid.isHoleCell (cellAt p1v.x p1v.y TILE).1 (cellAt p1v.x p1v.y TILE).2
          then g.grid
          else g.grid.addCrumb (cellAt p1v.x p1v.y TILE).1 (cellAt p1v.x p1v.y TILE).2
            CRUMB_STRENGTH)
      else g.grid) = grid1v)
    (hhole : grid1v.isHoleCell (cellAt p3v.x p3v.y TILE).1 (cellAt p3v.x p3v.y TILE).2
      = false)
    (hcats : catsLoop csf dt p3v.x p3v.y p3v.getCell p3v
      (List.range g.cats.length) (grid1v, g.cats, g.rng) = (cres, false))
    (hda : g.decayAccum = dav)
    (hacc : dav + dt * CRUMB_DECAY_PER_SEC = accv)
    (hdec : decayLoop (⌊accv⌋.toNat) accv cres.1 cres.2.2 = (acc'v, grid3v, rng3v))
    (hout : { g with
        grid := grid3v
        player := p3v
        cats := cres.2.1
        timeAlive := g.timeAlive + dt
        decayAccum := acc'v
        rng := rng3v } = gout) :
    update csf dt g = (gout, false, false) := by
  simp only [update]
  rw [if_neg (show ¬ (g.running = false) from by rw [hrun]; simp)]
  rw [hp1, hmoved, hp3, hgrid1]
  rw [if_neg (show ¬ (grid1v.isHoleCell (cellAt p3v.x p3v.y TILE).1
    (cellAt p3v.x p3v.y TILE).2 = true) from by rw [hhole]; simp)]
  rw [hcats]
  simp only []
  rw [hda, hacc, hdec]
  rw [← hout]
  simp only [Bool.false_eq_true, if_false]

/-- Compositional unfolding of `step`'s returned state: the action
dispatch followed by the update. -/
theorem step_game_eq (csf : ℚ) (action : ℤ) (dt : ℚ) (g g0v g1v : Game) (b1 b2 : Bool)
    (hact : (if 0 ≤ action ∧ action < 5 then
        (if action = 4 then { g with player := g.player.stop }
         else if action = 0 then { g with player := g.player.setWish (-1) 0 }
         else if action = 1 then { g with player := g.player.setWish 1 0 }
         else if action = 2 then { g with player := g.player.setWish 0 (-1) }
         else { g with player := g.player.setWish 0 1 })
      else g) = g0v)
    (hupd : update csf dt g0v = (g1v, b1, b2)) :
    (step csf action dt g).game = g1v := by
  simp only [step]
  rw [hact, hupd]

end Game

/-! ### Claim C7: no illegal grid exits

All square roots taken along the trajectory below are of perfect squares
of rationals (every hypotenuse is axis-aligned or zero), so the modelled
dynamics coincide with the idealized real-number semantics of the source
on this trajectory; `jsSqrt` values outside perfect squares reach only
the observation/reward, never the positions. -/

/-- Random stream driving the counterexample (all values in `[0,1)` as
`Math.random` requires; the zeros feed the crumb-decay draws; an
exhausted stream keeps drawing 0). -/
def c7stream : List ℚ :=
  [1/3, 1/3, 1/3, 1/3] ++ List.replicate 120 0 ++
  [1/3, 1/3] ++ List.replicate 9 0 ++
  [1/3, 1/3] ++ List.replicate 12 0 ++
  [1/3, 1/3] ++ List.replicate 15 0 ++
  [1/3, 0, 1/2, 1/2]

/-- `new Game(canvas, {headless: true})` with the stream above. -/
def c7init : Game :=
  { grid := Grid.mk0 COLS ROWS, player := Player.mk0, cats := [], level := 1,
    running := true, timeAlive := 0, decayAccum := 0, rng := c7stream }

/-- Crumb layer: the hole barrier plus the listed extra (trail) indices. -/
def c7crumbs (extra : List ℕ) : List ℚ :=
  ([320, 321, 360, 361, 362, 401, 402, 441, 442, 481, 482, 521, 522, 561, 562,
    600, 601, 602, 640, 641] ++ extra).foldl (fun l i => l.set i 1)
    (List.replicate 1000 0)

def c7grid (extra : List ℕ) : Grid :=
  { cols := 40, rows := 25, crumbs := c7crumbs extra,
    ringSet := [360, 600, 361, 401, 441, 481, 521, 561, 601, 362, 402, 442,
      482, 522, 562, 602, 320, 640, 321, 641],
    holeOpenSet := [400, 440, 480, 520, 560] }

def c7cat (x y : ℚ) (path : List (ℤ × ℤ)) (timer : ℚ) (dr lastC lastR : ℤ) : Cat :=
  { id := 0, x := x, y := y, speedCells := 33/10, crumbSpeedFactor := 0,
    path := path, pathTimer := timer, jitterDC := 0, jitterDR := dr,
    lastC := lastC, lastR := lastR }

def c7player (x y dirX dirY wishX wishY : ℚ) : Player :=
  { x := x, y := y, dirX := dirX, dirY := dirY, wishX := wishX, wishY := wishY,
    wishTimer := 0 }

/-- State after `reset(1)`: fresh barrier, player at spawn, one cat. -/
def c7g0 : Game :=
  { grid := c7grid [], player := c7player 710 260 0 0 0 0,
    cats := [c7cat 290 130 [] 0 0 (-1) (-1)], level := 1, running := true,
    timeAlive := 0, decayAccum := 0, rng := c7stream.drop 2 }

/-- After `step(0, 10/3)`: the player tunnels left to `(310, 270)` leaving
one trail crumb; the cat pathfinds and advances one waypoint. -/
def c7g1 : Game :=
  { grid := c7grid [555], player := c7player 310 270 (-1) 0 (-1) 0,
    cats := [c7cat 310 130 [(15, 7), (15, 8), (15, 9), (15, 10), (15, 11),
      (15, 12), (15, 13)] (1/5) 0 15 6],
    level := 1, running := true, timeAlive := 10/3, decayAccum := 0,
    rng := c7stream.drop 124 }

/-- After `step(4, 10/33)`: player stopped; the cat descends one cell. -/
def c7g2 : Game :=
  { grid := c7grid [555], player := c7player 310 270 0 0 0 0,
    cats := [c7cat 310 150 [(15, 8), (15, 9), (15, 10), (15, 11), (15, 12),
      (15, 13)] (1/5) 0 15 7],
    level := 1, running := true, timeAlive := 40/11, decayAccum := 7/11,
    rng := c7stream.drop 135 }

/-- After another `step(4, 10/33)`: the cat descends one more cell. -/
def c7g3 : Game :=
  { grid := c7grid [555], player := c7player 310 270 0 0 0 0,
    cats := [c7cat 310 170 [(15, 9), (15, 10), (15, 11), (15, 12), (15, 13)]
      (1/5) 0 15 8],
    level := 1, running := true, timeAlive := 130/33, decayAccum := 3/11,
    rng := c7stream.drop 149 }

/-- After `step(2, 11/24)`: the player commits upward and stops at
`y = 215` (25 px from the cat — just outside the 24.6 px catch radius). -/
def c7g4 : Game :=
  { grid := c7grid [535, 555], player := c7player 310 215 0 (-1) 0 (-1),
    cats := [c7cat 310 190 [(15, 10)] (1/5) 0 15 9],
    level := 1, running := true, timeAlive := 387/88, decayAccum := 17/22,
    rng := c7stream.drop 166 }

/-- After `step(2, 10)`: the jittered goal coincides with the cat's cell,
so A* returns `[]` and the fallback chase takes an uncapped step of
`66·10 = 660` px straight down: the cat ends at `y = 850`, far below the
grid's bottom edge `rows·tile = 500`. -/
def c7g5 : Game :=
  { grid := c7grid [535, 555], player := c7player 310 215 0 (-1) 0 (-1),
    cats := [c7cat 310 850 [] (1/5) (-1) 15 42],
    level := 1, running := true, timeAlive := 1267/88, decayAccum := 17/22,
    rng := [] }

set_option maxRecDepth 100000 in
set_option maxHeartbeats 16000000 in
/-- Counterexample to C7 as frozen: a hunter's center position leaves the
grid rectangle in a state reachable from `reset` by five `step` calls with
nonnegative `dt` (the empty-path fallback chase moves `speed·dt` pixels
toward the player without any bounds check, overshooting arbitrarily far
for large `dt`). -/
theorem c7_counterexample :
    ∃ g0 g1 g2 g3 g4 g5 : Game,
      (Game.reset 0 1 c7init).1 = g0 ∧
      (Game.step 0 0 (10/3) g0).game = g1 ∧
      (Game.step 0 4 (10/33) g1).game = g2 ∧
      (Game.step 0 4 (10/33) g2).game = g3 ∧
      (Game.step 0 2 (11/24) g3).game = g4 ∧
      (Game.step 0 2 10 g4).game = g5 ∧
      ∃ cat ∈ g5.cats, (ROWS : ℚ) * TILE < cat.y := by
  refine ⟨c7g0, c7g1, c7g2, c7g3, c7g4, c7g5, ?_, ?_, ?_, ?_, ?_, ?_, ?_⟩
  · with_unfolding_all decide
  · refine Game.step_game_eq 0 0 (10/3) c7g0
      { c7g0 with player := c7player 710 260 0 0 (-1) 0 } c7g1 false false
      (by with_unfolding_all decide) ?_
    exact Game.update_run_eq 0 (10/3) _ (c7player 710 270 (-1) 0 (-1) 0) (310, 270)
      (c7player 310 270 (-1) 0 (-1) 0) (c7grid [555])
      (c7grid [555], [c7cat 310 130 [(15, 7), (15, 8), (15, 9), (15, 10), (15, 11),
        (15, 12), (15, 13)] (1/5) 0 15 6], c7stream.drop 4)
      0 40 0 (c7grid [555]) (c7stream.drop 124) c7g1
      (by with_unfolding_all decide) (by with_unfolding_all decide)
      (by with_unfolding_all decide) (by with_unfolding_all decide)
      (by with_unfolding_all decide) (by with_unfolding_all decide)
      (Game.catsLoop_one 0 (10/3) 310 270 (c7player 310 270 (-1) 0 (-1) 0).getCell
        (c7player 310 270 (-1) 0 (-1) 0) 0
        (c7grid [555]) [c7cat 290 130 [] 0 0 (-1) (-1)] (c7stream.drop 2)
        (c7cat 290 130 [] 0 0 (-1) (-1))
        (true, c7cat 290 130 [] (1/5) 0 (-1) (-1), c7stream.drop 4)
        [(15, 6), (15, 7), (15, 8), (15, 9), (15, 10), (15, 11), (15, 12), (15, 13)]
        (c7cat 290 130 [(15, 6), (15, 7), (15, 8), (15, 9), (15, 10), (15, 11),
          (15, 12), (15, 13)] (1/5) 0 (-1) (-1))
        66
        (c7cat 290 130 [(15, 6), (15, 7), (15, 8), (15, 9), (15, 10), (15, 11),
          (15, 12), (15, 13)] (1/5) 0 (-1) (-1))
        (c7cat 310 130 [(15, 7), (15, 8), (15, 9), (15, 10), (15, 11),
          (15, 12), (15, 13)] (1/5) 0 (-1) (-1), c7stream.drop 4)
        (true, (-1, -1), c7cat 310 130 [(15, 7), (15, 8), (15, 9), (15, 10), (15, 11),
          (15, 12), (15, 13)] (1/5) 0 15 6)
        (c7grid [555])
        (c7grid [555], [c7cat 310 130 [(15, 7), (15, 8), (15, 9), (15, 10), (15, 11),
          (15, 12), (15, 13)] (1/5) 0 15 6], c7stream.drop 4)
        (by with_unfolding_all decide) (by with_unfolding_all decide)
        (by with_unfolding_all decide) (by with_unfolding_all decide)
        (by with_unfolding_all decide) (by with_unfolding_all decide)
        (by with_unfolding_all decide) (by with_unfolding_all decide)
        (by with_unfolding_all decide) (by with_unfolding_all decide)
        (by with_unfolding_all decide) (by with_unfolding_all decide))
      (by with_unfolding_all decide) (by with_unfolding_all decide)
      (by with_unfolding_all decide) (by with_unfolding_all decide)
  · refine Game.step_game_eq 0 4 (10/33) c7g1
      { c7g1 with player := c7player 310 270 0 0 0 0 } c7g2 false false
      (by with_unfolding_all decide) ?_
    exact Game.update_run_eq 0 (10/33) _ (c7player 310 270 0 0 0 0) (310, 270)
      (c7player 310 270 0 0 0 0) (c7grid [555])
      (c7grid [555], [c7cat 310 150 [(15, 8), (15, 9), (15, 10), (15, 11), (15, 12),
        (15, 13)] (1/5) 0 15 7], c7stream.drop 126)
      0 (40/11) (7/11) (c7grid [555]) (c7stream.drop 135) c7g2
      (by with_unfolding_all decide) (by with_unfolding_all decide)
      (by with_unfolding_all decide) (by with_unfolding_all decide)
      (by with_unfolding_all decide) (by with_unfolding_all decide)
      (Game.catsLoop_one 0 (10/33) 310 270 (c7player 310 270 0 0 0 0).getCell
        (c7player 310 270 0 0 0 0) 0
        (c7grid [555])
        [c7cat 310 130 [(15, 7), (15, 8), (15, 9), (15, 10), (15, 11),
          (15, 12), (15, 13)] (1/5) 0 15 6] (c7stream.drop 124)
        (c7cat 310 130 [(15, 7), (15, 8), (15, 9), (15, 10), (15, 11),
          (15, 12), (15, 13)] (1/5) 0 15 6)
        (true, c7cat 310 130 [(15, 7), (15, 8), (15, 9), (15, 10), (15, 11),
          (15, 12), (15, 13)] (1/5) 0 15 6, c7stream.drop 126)
        [(15, 7), (15, 8), (15, 9), (15, 10), (15, 11), (15, 12), (15, 13)]
        (c7cat 310 130 [(15, 7), (15, 8), (15, 9), (15, 10), (15, 11),
          (15, 12), (15, 13)] (1/5) 0 15 6)
        66
        (c7cat 310 130 [(15, 7), (15, 8), (15, 9), (15, 10), (15, 11),
          (15, 12), (15, 13)] (1/5) 0 15 6)
        (c7cat 310 150 [(15, 8), (15, 9), (15, 10), (15, 11),
          (15, 12), (15, 13)] (1/5) 0 15 6, c7stream.drop 126)
        (true, (15, 6), c7cat 310 150 [(15, 8), (15, 9), (15, 10), (15, 11),
          (15, 12), (15, 13)] (1/5) 0 15 7)
        (c7grid [555])
        (c7grid [555], [c7cat 310 150 [(15, 8), (15, 9), (15, 10), (15, 11),
          (15, 12), (15, 13)] (1/5) 0 15 7], c7stream.drop 126)
        (by with_unfolding_all decide) (by with_unfolding_all decide)
        (by with_unfolding_all decide) (by with_unfolding_all decide)
        (by with_unfolding_all decide) (by with_unfolding_all decide)
        (by with_unfolding_all decide) (by with_unfolding_all decide)
        (by with_unfolding_all decide) (by with_unfolding_all decide)
        (by with_unfolding_all decide) (by with_unfolding_all decide))
      (by with_unfolding_all decide) (by with_unfolding_all decide)
      (by with_unfolding_all decide) (by with_unfolding_all decide)
  · refine Game.step_game_eq 0 4 (10/33) c7g2
      { c7g2 with player := c7player 310 270 0 0 0 0 } c7g3 false false
      (by with_unfolding_all decide) ?_
    exact Game.update_run_eq 0 (10/33) _ (c7player 310 270 0 0 0 0) (310, 270)
      (c7player 310 270 0 0 0 0) (c7grid [555])
      (c7grid [555], [c7cat 310 170 [(15, 9), (15, 10), (15, 11), (15, 12), (15, 13)]
        (1/5) 0 15 8], c7stream.drop 137)
      (7/11) (47/11) (3/11) (c7grid [555]) (c7stream.drop 149) c7g3
      (by with_unfolding_all decide) (by with_unfolding_all decide)
      (by with_unfolding_all decide) (by with_unfolding_all decide)
      (by with_unfolding_all decide) (by with_unfolding_all decide)
      (Game.catsLoop_one 0 (10/33) 310 270 (c7player 310 270 0 0 0 0).getCell
        (c7player 310 270 0 0 0 0) 0
        (c7grid [555])
        [c7cat 310 150 [(15, 8), (15, 9), (15, 10), (15, 11), (15, 12),
          (15, 13)] (1/5) 0 15 7] (c7stream.drop 135)
        (c7cat 310 150 [(15, 8), (15, 9), (15, 10), (15, 11), (15, 12),
          (15, 13)] (1/5) 0 15 7)
        (true, c7cat 310 150 [(15, 8), (15, 9), (15, 10), (15, 11), (15, 12),
          (15, 13)] (1/5) 0 15 7, c7stream.drop 137)
        [(15, 8), (15, 9), (15, 10), (15, 11), (15, 12), (15, 13)]
        (c7cat 310 150 [(15, 8), (15, 9), (15, 10), (15, 11), (15, 12),
          (15, 13)] (1/5) 0 15 7)
        66
        (c7cat 310 150 [(15, 8), (15, 9), (15, 10), (15, 11), (15, 12),
          (15, 13)] (1/5) 0 15 7)
        (c7cat 310 170 [(15, 9), (15, 10), (15, 11), (15, 12),
          (15, 13)] (1/5) 0 15 7, c7stream.drop 137)
        (true, (15, 7), c7cat 310 170 [(15, 9), (15, 10), (15, 11), (15, 12),
          (15, 13)] (1/5) 0 15 8)
        (c7grid [555])
        (c7grid [555], [c7cat 310 170 [(15, 9), (15, 10), (15, 11), (15, 12),
          (15, 13)] (1/5) 0 15 8], c7stream.drop 137)
        (by with_unfolding_all decide) (by with_unfolding_all decide)
        (by with_unfolding_all decide) (by with_unfolding_all decide)
        (by with_unfolding_all decide) (by with_unfolding_all decide)
        (by with_unfolding_all decide) (by with_unfolding_all decide)
        (by with_unfolding_all decide) (by with_unfolding_all decide)
        (by with_unfolding_all decide) (by with_unfolding_all decide))
      (by with_unfolding_all decide) (by with_unfolding_all decide)
      (by with_unfolding_all decide) (by with_unfolding_all decide)
  · refine Game.step_game_eq 0 2 (11/24) c7g3
      { c7g3 with player := c7player 310 270 0 0 0 (-1) } c7g4 false false
      (by with_unfolding_all decide) ?_
    exact Game.update_run_eq 0 (11/24) _ (c7player 310 270 0 (-1) 0 (-1)) (310, 215)
      (c7player 310 215 0 (-1) 0 (-1)) (c7grid [535, 555])
      (c7grid [535, 555], [c7cat 310 190 [(15, 10)] (1/5) 0 15 9], c7stream.drop 151)
      (3/11) (127/22) (17/22) (c7grid [535, 555]) (c7stream.drop 166) c7g4
      (by with_unfolding_all decide) (by with_unfolding_all decide)
      (by with_unfolding_all decide) (by with_unfolding_all decide)
      (by with_unfolding_all decide) (by with_unfolding_all decide)
      (Game.catsLoop_one 0 (11/24) 310 215 (c7player 310 215 0 (-1) 0 (-1)).getCell
        (c7player 310 215 0 (-1) 0 (-1)) 0
        (c7grid [535, 555])
        [c7cat 310 170 [(15, 9), (15, 10), (15, 11), (15, 12), (15, 13)]
          (1/5) 0 15 8] (c7stream.drop 149)
        (c7cat 310 170 [(15, 9), (15, 10), (15, 11), (15, 12), (15, 13)]
          (1/5) 0 15 8)
        (true, c7cat 310 170 [(15, 9), (15, 10), (15, 11), (15, 12), (15, 13)]
          (1/5) 0 15 8, c7stream.drop 151)
        [(15, 9), (15, 10)]
        (c7cat 310 170 [(15, 9), (15, 10)] (1/5) 0 15 8)
        66
        (c7cat 310 170 [(15, 9), (15, 10)] (1/5) 0 15 8)
        (c7cat 310 190 [(15, 10)] (1/5) 0 15 8, c7stream.drop 151)
        (true, (15, 8), c7cat 310 190 [(15, 10)] (1/5) 0 15 9)
        (c7grid [535, 555])
        (c7grid [535, 555], [c7cat 310 190 [(15, 10)] (1/5) 0 15 9],
          c7stream.drop 151)
        (by with_unfolding_all decide) (by with_unfolding_all decide)
        (by with_unfolding_all decide) (by with_unfolding_all decide)
        (by with_unfolding_all decide) (by with_unfolding_all decide)
        (by with_unfolding_all decide) (by with_unfolding_all decide)
        (by with_unfolding_all decide) (by with_unfolding_all decide)
        (by with_unfolding_all decide) (by with_unfolding_all decide))
      (by with_unfolding_all decide) (by with_unfolding_all decide)
      (by with_unfolding_all decide) (by with_unfolding_all decide)
  · refine Game.step_game_eq 0 2 10 c7g4
      { c7g4 with player := c7player 310 215 0 (-1) 0 (-1) } c7g5 false false
      (by with_unfolding_all decide) ?_
    exact Game.update_run_eq 0 10 _ (c7player 310 215 0 (-1) 0 (-1)) (310, 215)
      (c7player 310 215 0 (-1) 0 (-1)) (c7grid [535, 555])
      (c7grid [535, 555], [c7cat 310 850 [] (1/5) (-1) 15 42], ([] : List ℚ))
      (17/22) (2657/22) (17/22) (c7grid [535, 555]) ([] : List ℚ) c7g5
      (by with_unfolding_all decide) (by with_unfolding_all decide)
      (by with_unfolding_all decide) (by with_unfolding_all decide)
      (by with_unfolding_all decide) (by with_unfolding_all decide)
      (Game.catsLoop_one 0 10 310 215 (c7player 310 215 0 (-1) 0 (-1)).getCell
        (c7player 310 215 0 (-1) 0 (-1)) 0
        (c7grid [535, 555])
        [c7cat 310 190 [(15, 10)] (1/5) 0 15 9] (c7stream.drop 166)
        (c7cat 310 190 [(15, 10)] (1/5) 0 15 9)
        (true, c7cat 310 190 [(15, 10)] (1/5) (-1) 15 9, c7stream.drop 168)
        ([] : List (ℤ × ℤ))
        (c7cat 310 190 [] (1/5) (-1) 15 9)
        66
        (c7cat 310 190 [] (1/5) (-1) 15 9)
        (c7cat 310 850 [] (1/5) (-1) 15 9, ([] : List ℚ))
        (true, (15, 9), c7cat 310 850 [] (1/5) (-1) 15 42)
        (c7grid [535, 555])
        (c7grid [535, 555], [c7cat 310 850 [] (1/5) (-1) 15 42], ([] : List ℚ))
        (by with_unfolding_all decide) (by with_unfolding_all decide)
        (by with_unfolding_all decide) (by with_unfolding_all decide)
        (by with_unfolding_all decide) (by with_unfolding_all decide)
        (by with_unfolding_all decide) (by with_unfolding_all decide)
        (by with_unfolding_all decide) (by with_unfolding_all decide)
        (by with_unfolding_all decide) (by with_unfolding_all decide))
      (by with_unfolding_all decide)
      (by norm_num [CRUMB_DECAY_PER_SEC])
      (Game.decayLoop_chunk (⌊(2657/22 : ℚ)⌋.toNat) 40 80 (2657/22)
        (c7grid [535, 555]) ([] : List ℚ)
        (1777/22, c7grid [535, 555], ([] : List ℚ))
        (17/22, c7grid [535, 555], ([] : List ℚ))
        (by with_unfolding_all decide) (by with_unfolding_all decide)
        (Game.decayLoop_chunk 80 40 40 (1777/22)
          (c7grid [535, 555]) ([] : List ℚ)
          (897/22, c7grid [535, 555], ([] : List ℚ))
          (17/22, c7grid [535, 555], ([] : List ℚ))
          (by with_unfolding_all decide) (by with_unfolding_all decide)
          (by with_unfolding_all decide)))
      (by with_unfolding_all decide)
  · with_unfolding_all decide

end CrumbChase
